import Mathlib

/-!
bpp-core, `SimpleGraphObserver` (src/Bpp/Graph/GraphObserver.h)

A shallow embedding of the observer template and the properties of its
binding tables.

* Client objects are handled through raw pointers (`N*`, `E*`).  A pointer is
  modelled by its address, a natural number; the null pointer `00` is address 0.
  A forward-table slot holding the null pointer is a tombstone.
* `std::vector<N*>` is a `List Ptr`; `std::map<N*, Node>` is an association
  list with the three operations the observer uses (`find`, `operator[]`
  assignment, `erase` by key).
* A C++ call either returns or throws.  Side effects performed before a throw
  persist, so every operation yields an `Outcome` carrying the state reached.
* `Graph.h` (class `SimpleGraph`) is not part of the sources; the Graph Core is
  modelled from the specification.
-/

namespace bpp

/-! ## Pointers, vectors and maps -/

/-- Address of a client object (`N*` or `E*`). -/
abbrev Ptr := Nat

/-- The null pointer, written `00` in the source. -/
def null : Ptr := 0

/-- Behaviour of `std::vector<T*>::resize(n)`: truncate to `n` elements or pad with
value-initialised (null) pointers. -/
def resize (v : List Ptr) (n : Nat) : List Ptr :=
  v.take n ++ List.replicate (n - v.length) null

/-- Content of slot `i` of a forward table as the client sees it: the stored
pointer, or the null pointer (tombstone) when the table does not cover `i`. -/
def slot (v : List Ptr) (i : Nat) : Ptr := v.getD i null

/-- A `std::map<T*, unsigned>`: key/value pairs. -/
abbrev PtrMap := List (Ptr × Nat)

/-- Behaviour of `std::map::find(key)`: the mapped value, `none` standing for `end()`. -/
def mapFind : PtrMap → Ptr → Option Nat
  | [], _ => none
  | (k, v) :: m, key => if k = key then some v else mapFind m key

/-- Behaviour of `m[key] = val`: overwrite the mapped value of an existing key, insert the
pair otherwise. -/
def mapSet : PtrMap → Ptr → Nat → PtrMap
  | [], key, val => [(key, val)]
  | (k, v) :: m, key, val => if k = key then (k, val) :: m else (k, v) :: mapSet m key val

/-- Behaviour of `std::map::erase(key)`: remove the entry of `key`, if any. -/
def mapErase : PtrMap → Ptr → PtrMap
  | [], _ => []
  | (k, v) :: m, key => if k = key then mapErase m key else (k, v) :: mapErase m key

/-! ## Errors and outcomes -/

/-- The ways a call on the observer can throw. -/
inductive Error where
  /-- The exception "One of the nodes is not in the graph observer." -/
  | notAssociated
  /-- The exception "The given edge is already associated to a relation in the subjectGraph." -/
  | alreadyAssociated
  /-- The `std::out_of_range` of `vector::at` and `map::at`. -/
  | outOfRange
  /-- The Graph Core refused the call (an id is not live, or no such edge). -/
  | notFound
deriving DecidableEq

/-- Result of a `void` member function: it returned, or it threw; in both cases the state
reached is recorded. -/
inductive Outcome (σ : Type) where
  | ok (s : σ)
  | throws (e : Error) (s : σ)
deriving DecidableEq

/-- The state in which a call left the object. -/
def Outcome.state {σ : Type} : Outcome σ → σ
  | .ok s => s
  | .throws _ s => s

/-- Whether the call returned normally. -/
def Outcome.returned {σ : Type} : Outcome σ → Bool
  | .ok _ => true
  | .throws _ _ => false

/-! ## Graph Core -/

/-- A live edge of the Graph Core: its id and its two endpoints. -/
structure Edge where
  id : Nat
  src : Nat
  dst : Nat
deriving DecidableEq

/-- Modelled from the spec: the class `SimpleGraph` of `Graph.h`, which is not among the
sources.  Node and edge ids are dense non-negative integers handed out in increasing order
and never reused, so the graph records how many ids of each kind it has issued, the live
node ids and the live edges. -/
structure SimpleGraph where
  directed : Bool
  nodeCount : Nat
  edgeCount : Nat
  nodes : List Nat
  edges : List Edge
deriving DecidableEq

namespace SimpleGraph

/-- Modelled from the spec: the graph built by `new SimpleGraph(directed)`, with no id issued. -/
def empty (directed : Bool) : SimpleGraph :=
  { directed := directed, nodeCount := 0, edgeCount := 0, nodes := [], edges := [] }

/-- Modelled from the spec: `createNode()` of the absent `Graph.h` allocates the next unused
id and never fails. -/
def createNode (g : SimpleGraph) : Nat × SimpleGraph :=
  (g.nodeCount, { g with nodeCount := g.nodeCount + 1, nodes := g.nodes ++ [g.nodeCount] })

/-- Modelled from the spec: `link(a, b)` of the absent `Graph.h` fails (`none`, graph
untouched) if either id is not live; otherwise it allocates a new edge id and records the
adjacency. -/
def link (g : SimpleGraph) (a b : Nat) : Option (Nat × SimpleGraph) :=
  if a ∈ g.nodes ∧ b ∈ g.nodes then
    some (g.edgeCount,
      { g with edgeCount := g.edgeCount + 1, edges := g.edges ++ [⟨g.edgeCount, a, b⟩] })
  else none

/-- Modelled from the spec: whether edge `e` of the absent `Graph.h` joins `a` and `b`
(`a → b` in a directed graph, either way round in an undirected one). -/
def joins (g : SimpleGraph) (a b : Nat) (e : Edge) : Bool :=
  (e.src == a && e.dst == b) || (!g.directed && e.src == b && e.dst == a)

/-- Modelled from the spec: `unlink(a, b)` of the absent `Graph.h` fails (`none`, graph
untouched) if either node is not live or no edge joins them; otherwise it removes the first
matching edge and keeps the id counters. -/
def unlink (g : SimpleGraph) (a b : Nat) : Option SimpleGraph :=
  if a ∈ g.nodes ∧ b ∈ g.nodes then
    match g.edges.find? (g.joins a b) with
    | some e => some { g with edges := g.edges.erase e }
    | none => none
  else none

/-- Modelled from the spec: `getHighestNodeID()` of the absent `Graph.h`, the largest node
id ever allocated (0 while none has been). -/
def getHighestNodeID (g : SimpleGraph) : Nat := g.nodeCount - 1

/-- Modelled from the spec: `getHighestEdgeID()` of the absent `Graph.h`, the largest edge
id ever allocated (0 while none has been). -/
def getHighestEdgeID (g : SimpleGraph) : Nat := g.edgeCount - 1

end SimpleGraph

/-! ## The observer -/

/-- The data members of `SimpleGraphObserver<N,E>`; `subjectGraph_` is the observed graph
itself rather than a pointer to it. -/
structure SimpleGraphObserver where
  directed_ : Bool
  edgesToObjects_ : List Ptr
  nodesToObjects_ : List Ptr
  objectsToEdges_ : PtrMap
  objectsToNodes_ : PtrMap
  subjectGraph_ : SimpleGraph
deriving DecidableEq

namespace SimpleGraphObserver

/-- The constructor `SimpleGraphObserver(bool directed)`: empty tables over a new graph. -/
def new (directed_p : Bool) : SimpleGraphObserver :=
  { directed_ := directed_p, edgesToObjects_ := [], nodesToObjects_ := [],
    objectsToEdges_ := [], objectsToNodes_ := [],
    subjectGraph_ := SimpleGraph.empty directed_p }

/-- The member `associateNode(nodeObject, graphNode)`. -/
def associateNode (s : SimpleGraphObserver) (nodeObject : Ptr) (graphNode : Nat) :
    Outcome SimpleGraphObserver :=
  let s1 := { s with
    nodesToObjects_ := resize s.nodesToObjects_ (s.subjectGraph_.getHighestNodeID + 1) }
  if graphNode < s1.nodesToObjects_.length then
    .ok { s1 with
      nodesToObjects_ := s1.nodesToObjects_.set graphNode nodeObject
      objectsToNodes_ := mapSet s1.objectsToNodes_ nodeObject graphNode }
  else .throws .outOfRange s1

/-- The member `associateEdge(edgeObject, graphEdge)`.  Its last statement assigns into
`objectsToNodes_`, as the source does. -/
def associateEdge (s : SimpleGraphObserver) (edgeObject : Ptr) (graphEdge : Nat) :
    Outcome SimpleGraphObserver :=
  let s1 := { s with
    edgesToObjects_ := resize s.edgesToObjects_ (s.subjectGraph_.getHighestEdgeID + 1) }
  if graphEdge < s1.edgesToObjects_.length then
    .ok { s1 with
      edgesToObjects_ := s1.edgesToObjects_.set graphEdge edgeObject
      objectsToNodes_ := mapSet s1.objectsToNodes_ edgeObject graphEdge }
  else .throws .outOfRange s1

/-- The member `createNode(nodeObject)`. -/
def createNode (s : SimpleGraphObserver) (nodeObject : Ptr) : Outcome SimpleGraphObserver :=
  let r := s.subjectGraph_.createNode
  associateNode { s with subjectGraph_ := r.2 } nodeObject r.1

/-- The member `link(nodeObjectA, nodeObjectB, edgeObject)`; a call that supplies no edge
object passes the default argument `00`.  The trace line written to `std::cout` is not
modelled. -/
def link (s : SimpleGraphObserver) (nodeObjectA nodeObjectB edgeObject : Ptr) :
    Outcome SimpleGraphObserver :=
  match mapFind s.objectsToNodes_ nodeObjectA, mapFind s.objectsToNodes_ nodeObjectB with
  | some foundNodeA, some foundNodeB =>
    if edgeObject ≠ null ∧ (mapFind s.objectsToEdges_ edgeObject).isSome then
      .throws .alreadyAssociated s
    else
      match s.subjectGraph_.link foundNodeA foundNodeB with
      | none => .throws .notFound s
      | some (newGraphEdge, g) =>
        let s1 := { s with subjectGraph_ := g }
        let s2 := if s1.edgesToObjects_.length < newGraphEdge + 1 then
            { s1 with edgesToObjects_ := resize s1.edgesToObjects_ (newGraphEdge + 1) }
          else s1
        if newGraphEdge < s2.edgesToObjects_.length then
          .ok { s2 with
            edgesToObjects_ := s2.edgesToObjects_.set newGraphEdge edgeObject
            objectsToEdges_ := mapSet s2.objectsToEdges_ edgeObject newGraphEdge }
        else .throws .outOfRange s2
  | _, _ => .throws .notAssociated s

/-- The member `unlink(nodeObjectA, nodeObjectB)`. -/
def unlink (s : SimpleGraphObserver) (nodeObjectA nodeObjectB : Ptr) :
    Outcome SimpleGraphObserver :=
  match mapFind s.objectsToNodes_ nodeObjectA, mapFind s.objectsToNodes_ nodeObjectB with
  | some foundNodeA, some foundNodeB =>
    match s.subjectGraph_.unlink foundNodeA foundNodeB with
    | some g => .ok { s with subjectGraph_ := g }
    | none => .throws .notFound s
  | _, _ => .throws .notAssociated s

/-- The member `deletedEdgesUpdate(edgesToDelete)`, one loop iteration per id. -/
def deletedEdgesUpdate (s : SimpleGraphObserver) : List Nat → Outcome SimpleGraphObserver
  | [] => .ok s
  | currEdge :: rest =>
    match s.edgesToObjects_[currEdge]? with
    | none => .throws .outOfRange s
    | some edgeObject =>
      deletedEdgesUpdate
        { s with
          edgesToObjects_ := s.edgesToObjects_.set currEdge null
          objectsToEdges_ := mapErase s.objectsToEdges_ edgeObject } rest

/-- The member `deletedNodesUpdate(nodesToDelete)`, one loop iteration per id. -/
def deletedNodesUpdate (s : SimpleGraphObserver) : List Nat → Outcome SimpleGraphObserver
  | [] => .ok s
  | currNode :: rest =>
    match s.nodesToObjects_[currNode]? with
    | none => .throws .outOfRange s
    | some nodeObject =>
      deletedNodesUpdate
        { s with
          nodesToObjects_ := s.nodesToObjects_.set currNode null
          objectsToNodes_ := mapErase s.objectsToNodes_ nodeObject } rest

end SimpleGraphObserver

/-! ## Properties of the binding tables -/

/-- Binding symmetry of the node tables: forward slot `i` holds the non-tombstone object `o`
exactly when the reverse node table maps `o` to `i`. -/
def NodeSymmetric (s : SimpleGraphObserver) : Prop :=
  ∀ (i : Nat) (o : Ptr),
    (slot s.nodesToObjects_ i = o ∧ o ≠ null) ↔ mapFind s.objectsToNodes_ o = some i

/-- Binding symmetry of the edge tables: forward slot `i` holds the non-tombstone object `o`
exactly when the reverse edge table maps `o` to `i`. -/
def EdgeSymmetric (s : SimpleGraphObserver) : Prop :=
  ∀ (i : Nat) (o : Ptr),
    (slot s.edgesToObjects_ i = o ∧ o ≠ null) ↔ mapFind s.objectsToEdges_ o = some i

/-- The node forward table covers issued node ids only. -/
def NodesSized (s : SimpleGraphObserver) : Prop :=
  s.nodesToObjects_.length ≤ s.subjectGraph_.nodeCount

/-- The edge forward table covers issued edge ids only. -/
def EdgesSized (s : SimpleGraphObserver) : Prop :=
  s.edgesToObjects_.length ≤ s.subjectGraph_.edgeCount

/-- One call on the observer: a client call of `createNode`, `link`, `unlink`, or a
node-deletion notification from the graph. -/
inductive Op where
  | createNode (nodeObject : Ptr)
  | link (nodeObjectA nodeObjectB edgeObject : Ptr)
  | unlink (nodeObjectA nodeObjectB : Ptr)
  | deletedNodesUpdate (nodesToDelete : List Nat)
deriving DecidableEq

/-- Perform one call. -/
def step (s : SimpleGraphObserver) : Op → Outcome SimpleGraphObserver
  | .createNode o => s.createNode o
  | .link a b e => s.link a b e
  | .unlink a b => s.unlink a b
  | .deletedNodesUpdate ids => s.deletedNodesUpdate ids

/-- Perform a sequence of calls, each on the state the previous one left (a call that throws
leaves the state it had reached). -/
def run (s : SimpleGraphObserver) : List Op → SimpleGraphObserver
  | [] => s
  | op :: ops => run (step s op).state ops

/-- Every `createNode` of the sequence is given a non-null object that has no entry in the
reverse node table at the time of the call. -/
def freshCreates (s : SimpleGraphObserver) : List Op → Bool
  | [] => true
  | op :: ops =>
    (match op with
      | .createNode o => decide (o ≠ null) && (mapFind s.objectsToNodes_ o).isNone
      | _ => true)
    && freshCreates (step s op).state ops

/-- The observer after `createNode(10)` on a new undirected observer. -/
def oneNode : SimpleGraphObserver := ((SimpleGraphObserver.new false).createNode 10).state

/-- The observer after `createNode(10); createNode(20)` on a new undirected observer. -/
def twoNodes : SimpleGraphObserver := (oneNode.createNode 20).state

/-- The observer after `createNode(10); createNode(20); link(10, 20)` without edge object. -/
def linkedNodes : SimpleGraphObserver := (twoNodes.link 10 20 null).state

/-- The observer after `createNode(10)` and a node created directly in the Graph Core: node
id 1 exists in the graph and is bound to no object. -/
def graphNodeAdded : SimpleGraphObserver :=
  { oneNode with subjectGraph_ := oneNode.subjectGraph_.createNode.2 }

/-- The observer after `createNode(10); createNode(20); link(10, 20, 30)`, edge object 30. -/
def edgeBound : SimpleGraphObserver := (twoNodes.link 10 20 30).state

/-! ## Dissociation and queries -/

/-- Result of a member function that returns a value and assigns no data member: the value
returned, or the error thrown. -/
inductive Answer (α : Type) where
  | value (a : α)
  | throws (e : Error)
deriving DecidableEq

namespace SimpleGraph

/-- Modelled from the spec: `getOutgoingNeighbors(id)` of the absent `Graph.h` fails (`none`)
on an id that is not live; otherwise it gives the adjacent node ids in edge order, the targets
of the edges leaving `id` and, in an undirected graph, also the sources of the edges
reaching it. -/
def getOutgoingNeighbors (g : SimpleGraph) (id : Nat) : Option (List Nat) :=
  if id ∈ g.nodes then
    some (g.edges.filterMap fun e =>
      if e.src = id then some e.dst
      else if g.directed = false ∧ e.dst = id then some e.src
      else none)
  else none

/-- Modelled from the spec: the number of edges of the absent `Graph.h` incident to node
`id`. -/
def degree (g : SimpleGraph) (id : Nat) : Nat :=
  (g.edges.filter fun e => e.src = id ∨ e.dst = id).length

/-- Modelled from the spec: `getLeaves()` of the absent `Graph.h`, all live nodes with exactly
one incident edge, in the order of the live nodes. -/
def getLeaves (g : SimpleGraph) : List Nat :=
  g.nodes.filter fun id => g.degree id = 1

end SimpleGraph

namespace SimpleGraphObserver

/-- The member `forgetNode(nodeObject)`.  The source hands the node id to `vector::erase`,
which takes a position and removes the element there, moving the later elements down; the id
is read as the position `begin() + id`.  The found map entry is erased through its iterator.
`none` stands for a call without defined behaviour: `find` returned `end()` and the
iterator is dereferenced all the same, or the position lies outside the vector.  The function
has no `throw`. -/
def forgetNode (s : SimpleGraphObserver) (nodeObject : Ptr) : Option SimpleGraphObserver :=
  match mapFind s.objectsToNodes_ nodeObject with
  | none => none
  | some nodeToForget =>
    if nodeToForget < s.nodesToObjects_.length then
      some { s with
        nodesToObjects_ := s.nodesToObjects_.eraseIdx nodeToForget
        objectsToNodes_ := mapErase s.objectsToNodes_ nodeObject }
    else none

/-- The member `forgetEdge(edgeObject)`, written like `forgetNode` over the edge tables. -/
def forgetEdge (s : SimpleGraphObserver) (edgeObject : Ptr) : Option SimpleGraphObserver :=
  match mapFind s.objectsToEdges_ edgeObject with
  | none => none
  | some edgeToForget =>
    if edgeToForget < s.edgesToObjects_.length then
      some { s with
        edgesToObjects_ := s.edgesToObjects_.eraseIdx edgeToForget
        objectsToEdges_ := mapErase s.objectsToEdges_ edgeObject }
    else none

/-- The loop of `getOutgoingNeighbors`: `result.push_back(nodesToObjects_.at(id))` for each
id, whatever pointer the slot holds. -/
def pushAll (v : List Ptr) : List Nat → Answer (List Ptr)
  | [] => .value []
  | currGraphNode :: rest =>
    match v[currGraphNode]? with
    | none => .throws .outOfRange
    | some nodeObject =>
      match pushAll v rest with
      | .value result => .value (nodeObject :: result)
      | .throws e => .throws e

/-- The member `getOutgoingNeighbors(nodeObject)`; `objectsToNodes_.at` throws
`std::out_of_range` for an object that is not a key. -/
def getOutgoingNeighbors (s : SimpleGraphObserver) (nodeObject : Ptr) : Answer (List Ptr) :=
  match mapFind s.objectsToNodes_ nodeObject with
  | none => .throws .outOfRange
  | some graphNode =>
    match s.subjectGraph_.getOutgoingNeighbors graphNode with
    | none => .throws .notFound
    | some graphNodes => pushAll s.nodesToObjects_ graphNodes

/-- The loop of `getLeaves`: read `nodesToObjects_.at(id)` for each leaf id and keep the
pointers that are not null. -/
def pushDefined (v : List Ptr) : List Nat → Answer (List Ptr)
  | [] => .value []
  | currGraphLeave :: rest =>
    match v[currGraphLeave]? with
    | none => .throws .outOfRange
    | some foundLeafObject =>
      match pushDefined v rest with
      | .value leavesToReturn =>
        if foundLeafObject ≠ null then .value (foundLeafObject :: leavesToReturn)
        else .value leavesToReturn
      | .throws e => .throws e

/-- The member `getLeaves()`. -/
def getLeaves (s : SimpleGraphObserver) : Answer (List Ptr) :=
  pushDefined s.nodesToObjects_ s.subjectGraph_.getLeaves

/-- The loop of `getNodes`: walk the vector from `begin()` to `end()` and keep the pointers
that are not null. -/
def keepDefined : List Ptr → List Ptr
  | [] => []
  | currNodeObject :: rest =>
    if currNodeObject ≠ null then currNodeObject :: keepDefined rest else keepDefined rest

/-- The member `getNodes()`; it reads `nodesToObjects_` only and cannot throw. -/
def getNodes (s : SimpleGraphObserver) : List Ptr := keepDefined s.nodesToObjects_

end SimpleGraphObserver

/-- The objects of the non-tombstone node forward slots, listed by ascending node id: the ids
`0, 1, ...` covered by the table are visited in increasing order and the content of each
slot that is not a tombstone is listed. -/
def boundObjectsById (s : SimpleGraphObserver) : List Ptr :=
  ((List.range s.nodesToObjects_.length).filter fun i => slot s.nodesToObjects_ i ≠ null).map
    fun i => slot s.nodesToObjects_ i

/-- The sequence consists of client calls only (`createNode`, `link`, `unlink`): it holds
no deletion notification. -/
def clientCalls : List Op → Bool
  | [] => true
  | .deletedNodesUpdate _ :: _ => false
  | _ :: ops => clientCalls ops

/-- The observer after `createNode(10)` once a second observer sharing the same graph has
performed `createNode(20); link(10, 20)`: the graph holds nodes 0 and 1 and the edge between
them, the tables of this observer cover node 0 only. -/
def sharedGraph : SimpleGraphObserver :=
  { oneNode with subjectGraph_ := linkedNodes.subjectGraph_ }

/-- An observer over a graph in which node 0 was created directly in the Graph Core and node
1 by `createNode(20)`: slot 0 is a tombstone, 20 is bound to id 1. -/
def unboundFirst : SimpleGraphObserver :=
  ({ SimpleGraphObserver.new false with
      subjectGraph_ := (SimpleGraph.empty false).createNode.2 }.createNode 20).state

/-- A directed observer after `createNode(10)`, a node (id 1) and an edge `0 -> 1` created
directly in the Graph Core, and `createNode(30)`: the tables cover ids 0, 1, 2 and slot 1 is
a tombstone. -/
def unboundNeighbor : SimpleGraphObserver :=
  let s0 := ((SimpleGraphObserver.new true).createNode 10).state
  let g1 := s0.subjectGraph_.createNode.2
  let g2 := ((g1.link 0 1).map Prod.snd).getD g1
  ({ s0 with subjectGraph_ := g2 }.createNode 30).state

/-- The loop that `deletedNodesUpdate` and `deletedEdgesUpdate` both run, on a forward table
and its reverse table: for each id, read the slot with `at`, set it to null and erase the
object read from the reverse table. -/
def clearAll (fwd : List Ptr) (rev : PtrMap) : List Nat → Outcome (List Ptr × PtrMap)
  | [] => .ok (fwd, rev)
  | id :: rest =>
    match fwd[id]? with
    | none => .throws .outOfRange (fwd, rev)
    | some o => clearAll (fwd.set id null) (mapErase rev o) rest

/-! ## Further members of the observer -/

namespace SimpleGraphObserver

/-- The overload `createNode(objectNewNode, objectOriginNode)`: `createNode(objectNewNode)`,
then `link(objectOriginNode, objectNewNode)` with the default edge object; an exception of
the first call ends the function. -/
def createNodeLinked (s : SimpleGraphObserver) (objectNewNode objectOriginNode : Ptr) :
    Outcome SimpleGraphObserver :=
  match s.createNode objectNewNode with
  | .ok s1 => s1.link objectOriginNode objectNewNode null
  | .throws e s1 => .throws e s1

/-- The member `getNumberOfNodes()`: `objectsToNodes_.size()`. -/
def getNumberOfNodes (s : SimpleGraphObserver) : Nat := s.objectsToNodes_.length

/-- The member `getNumberOfLeaves()`: `getLeaves().size()`. -/
def getNumberOfLeaves (s : SimpleGraphObserver) : Answer Nat :=
  match s.getLeaves with
  | .value leaves => .value leaves.length
  | .throws e => .throws e

end SimpleGraphObserver

/-- What the documentation of `createNode(obj, originObj)` describes: the call
`createNode(obj)` followed by the call `link(originObj, obj)` on the state it leaves. -/
def createThenLink (s : SimpleGraphObserver) (obj originObj : Ptr) :
    Outcome SimpleGraphObserver :=
  (s.createNode obj).state.link originObj obj null

/-- One call on the observer out of `createNode`, `link`, `unlink`, `associateNode` and the
two deletion notifications. -/
inductive Call where
  | createNode (nodeObject : Ptr)
  | link (nodeObjectA nodeObjectB edgeObject : Ptr)
  | unlink (nodeObjectA nodeObjectB : Ptr)
  | associateNode (nodeObject : Ptr) (graphNode : Nat)
  | deletedNodesUpdate (nodesToDelete : List Nat)
  | deletedEdgesUpdate (edgesToDelete : List Nat)
deriving DecidableEq

/-- Perform one call. -/
def perform (s : SimpleGraphObserver) : Call → Outcome SimpleGraphObserver
  | .createNode o => s.createNode o
  | .link a b e => s.link a b e
  | .unlink a b => s.unlink a b
  | .associateNode o id => s.associateNode o id
  | .deletedNodesUpdate ids => s.deletedNodesUpdate ids
  | .deletedEdgesUpdate ids => s.deletedEdgesUpdate ids

/-- Perform a sequence of calls, each on the state the previous one left. -/
def runCalls (s : SimpleGraphObserver) : List Call → SimpleGraphObserver
  | [] => s
  | c :: cs => runCalls (perform s c).state cs

/-- Every `createNode` and `associateNode` of the sequence is given a non-null object that
has no entry in the reverse node table at the time of the call, and every `associateNode`
names an issued node id whose slot is empty. -/
def properCalls (s : SimpleGraphObserver) : List Call → Bool
  | [] => true
  | c :: cs =>
    (match c with
      | .createNode o => decide (o ≠ null) && (mapFind s.objectsToNodes_ o).isNone
      | .associateNode o id =>
        decide (o ≠ null) && (mapFind s.objectsToNodes_ o).isNone
          && decide (id < s.subjectGraph_.nodeCount)
          && decide (slot s.nodesToObjects_ id = null)
      | _ => true)
    && properCalls (perform s c).state cs

/-! ## Node deletion -/

namespace SimpleGraph

/-- Modelled from the spec: the edges of the absent `Graph.h` that touch node `id`. -/
def incidentEdges (g : SimpleGraph) (id : Nat) : List Edge :=
  g.edges.filter fun e => e.src = id ∨ e.dst = id

/-- Modelled from the spec: `deleteNode(id)` of the absent `Graph.h` fails (`none`) on an id
that is not live; otherwise it removes the node and every edge touching it and reports the
ids of the removed edges, which it notifies to the observers before the node id.  The id
counters are kept. -/
def deleteNode (g : SimpleGraph) (id : Nat) : Option (List Nat × SimpleGraph) :=
  if id ∈ g.nodes then
    some ((g.incidentEdges id).map Edge.id,
      { g with
        nodes := g.nodes.filter fun n => n ≠ id
        edges := g.edges.filter fun e => ¬ (e.src = id ∨ e.dst = id) })
  else none

end SimpleGraph

/-- A deletion notification delivered by the Graph Core to the observer. -/
inductive Notification where
  | deletedEdgesUpdate (edgesToDelete : List Nat)
  | deletedNodesUpdate (nodesToDelete : List Nat)
deriving DecidableEq

namespace SimpleGraphObserver

/-- Modelled from the spec: the member `deleteNode(node)`, which the header declares without
a body.  It resolves the object (not-associated error if unbound) and calls the Graph Core
`deleteNode`, which notifies the observer of the removed edge ids and then of the removed node
id; the table edits are those of the two handlers.  The value is the list of notifications
delivered, in order, and the outcome; the removal is final once both handlers returned. -/
def deleteNode (s : SimpleGraphObserver) (node : Ptr) :
    List Notification × Outcome SimpleGraphObserver :=
  match mapFind s.objectsToNodes_ node with
  | none => ([], .throws .notAssociated s)
  | some id =>
    match s.subjectGraph_.deleteNode id with
    | none => ([], .throws .notFound s)
    | some (edgeIds, g) =>
      match s.deletedEdgesUpdate edgeIds with
      | .throws e s1 => ([.deletedEdgesUpdate edgeIds], .throws e s1)
      | .ok s1 =>
        match s1.deletedNodesUpdate [id] with
        | .throws e s2 => ([.deletedEdgesUpdate edgeIds, .deletedNodesUpdate [id]], .throws e s2)
        | .ok s2 =>
          ([.deletedEdgesUpdate edgeIds, .deletedNodesUpdate [id]],
            .ok { s2 with subjectGraph_ := g })

/-- Modelled from the spec: the member `getEdges(node)`, which the header declares without a
body: the edges incident to the node of the object, mapped back to objects, unbound edges
being skipped; not-associated error if the object is unbound. -/
def getEdges (s : SimpleGraphObserver) (node : Ptr) : Answer (List Ptr) :=
  match mapFind s.objectsToNodes_ node with
  | none => .throws .notAssociated
  | some id =>
    .value (((s.subjectGraph_.incidentEdges id).map
      fun e => slot s.edgesToObjects_ e.id).filter fun p => decide (p ≠ null))

end SimpleGraphObserver

/-- No object is held by two slots of the forward table. -/
def NoSharedObject (v : List Ptr) : Prop :=
  ∀ i j : Nat, slot v i = slot v j → slot v i ≠ null → i = j

/-- The undirected observer after `createNode(10); createNode(20); createNode(30);
link(10, 20, 40); link(20, 30, 50)`: a chain with the edge objects 40 and 50. -/
def chainWithEdges : SimpleGraphObserver :=
  run (SimpleGraphObserver.new false)
    [.createNode 10, .createNode 20, .createNode 30, .link 10 20 40, .link 20 30 50]

/-! ## Leaves reachable from a node -/

namespace SimpleGraph

/-- Modelled from the spec: the node ids one hop outward from `id` in the absent `Graph.h`,
in edge order: the targets of the edges leaving `id` and, in an undirected graph, also the
sources of the edges reaching it. -/
def successors (g : SimpleGraph) (id : Nat) : List Nat :=
  g.edges.filterMap fun e =>
    if e.src = id then some e.dst
    else if g.directed = false ∧ e.dst = id then some e.src
    else none

/-- Modelled from the spec: the endpoints of the edges, the only ids a traversal can meet
besides its start. -/
def endpoints (g : SimpleGraph) : List Nat :=
  g.edges.flatMap fun e => [e.src, e.dst]

/-- Modelled from the spec: a number of levels no traversal that visits each id at most once
can exceed, the start and the edge endpoints counted. -/
def idBound (g : SimpleGraph) : Nat := g.endpoints.length + 1

/-- Modelled from the spec: one level of the breadth-first traversal, the ids one hop outward
from the frontier that were not visited yet, each listed once (the visited-set guard). -/
def expand (g : SimpleGraph) (visited frontier : List Nat) : List Nat :=
  ((frontier.flatMap g.successors).dedup).filter fun n => decide (n ∉ visited)

/-- Modelled from the spec: `depth` levels of breadth-first traversal from the ids visited so
far and the current frontier; the value is the pair of the visited ids, in visiting order,
and the last frontier. -/
def traverse (g : SimpleGraph) : Nat → List Nat → List Nat → List Nat × List Nat
  | 0, visited, frontier => (visited, frontier)
  | depth + 1, visited, frontier =>
    traverse g depth (visited ++ g.expand visited frontier) (g.expand visited frontier)

/-- A walk of `k` hops outward from `u` to `v`. -/
inductive Walk (g : SimpleGraph) (u : Nat) : Nat → Nat → Prop where
  | start : Walk g u u 0
  | hop {v w k : Nat} : Walk g u v k → w ∈ g.successors v → Walk g u w (k + 1)

/-- The diameter of the graph is at most `d`: whenever `v` can be reached from `u`, it can be
reached in at most `d` hops. -/
def DiameterAtMost (g : SimpleGraph) (d : Nat) : Prop :=
  ∀ u v k, Walk g u v k → ∃ k', k' ≤ d ∧ Walk g u v k'

end SimpleGraph

namespace SimpleGraphObserver

/-- Modelled from the spec: the member `getLeavesFromNode(node, maxDepth)`, which the header
declares without a body.  It resolves the object (not-associated error if unbound), traverses
the graph breadth first from its id, each id being visited at most once and expansion
stopping after `maxDepth` hops (0 meaning no limit, for which `idBound` levels are run), and
collects the objects bound to the visited ids other than the start that are Graph Core
leaves. -/
def getLeavesFromNode (s : SimpleGraphObserver) (node : Ptr) (maxDepth : Nat) :
    Answer (List Ptr) :=
  match mapFind s.objectsToNodes_ node with
  | none => .throws .notAssociated
  | some start =>
    let depth := if maxDepth = 0 then s.subjectGraph_.idBound else maxDepth
    let visited := (s.subjectGraph_.traverse depth [start] [start]).1
    .value (((visited.filter fun n => decide (n ≠ start ∧ s.subjectGraph_.degree n = 1)).map
      fun n => slot s.nodesToObjects_ n).filter fun p => decide (p ≠ null))

end SimpleGraphObserver

/-! ## `VectorTools` (src/Bpp/Numeric/VectorTools.h)

The functions are templates over the element type `T`.  A `std::vector<T>` is a `List T`.
The loop counters `i` and `j` are `unsigned int`; vectors are assumed to have fewer than
`2^32` elements, so the counters do not wrap.  `size()` is a 64-bit `size_t`, and
`size() - 1` wraps for an empty vector. -/

namespace VectorTools

/-- Outcome of code that indexes a vector with the unchecked `operator[]`: the value
computed, an index outside the vector (undefined behaviour), or a loop that the allotted
number of iterations did not finish. -/
inductive Run (α : Type) where
  | done (a : α)
  | outOfBounds
  | unfinished
deriving DecidableEq

/-- The overload `append(vec1, vec2)`: `vec1.insert(vec1.end(), vec2.begin(), vec2.end())`;
the value is the new content of `vec1`. -/
def appendTo {T : Type} (vec1 vec2 : List T) : List T := vec1 ++ vec2

/-- The loop `for (i = 0; i < src.size(); i++) v.push_back(src[i])`. -/
def pushBackAll {T : Type} (v : List T) : List T → List T
  | [] => v
  | x :: rest => pushBackAll (v ++ [x]) rest

/-- The overload `append(vecElementL)` on a vector of vectors. -/
def append {T : Type} (vecElementL : List (List T)) : List T :=
  if vecElementL.length = 1 then vecElementL.headD []
  else if vecElementL.length = 0 then []
  else pushBackAll [] (vecElementL.headD [])

/-- The function `contains(vec, el)`. -/
def contains {T : Type} [DecidableEq T] : List T → T → Bool
  | [], _ => false
  | x :: rest, el => if x = el then true else contains rest el

/-- The loop of `vectorUnion` over `vec2`: push the element unless `unionEl` contains it. -/
def vectorUnionLoop {T : Type} [DecidableEq T] (unionEl : List T) : List T → List T
  | [] => unionEl
  | x :: rest => vectorUnionLoop (if contains unionEl x then unionEl else unionEl ++ [x]) rest

/-- The function `vectorUnion(vec1, vec2)`: `unionEl` starts as a copy of `vec1`. -/
def vectorUnion {T : Type} [DecidableEq T] (vec1 vec2 : List T) : List T :=
  vectorUnionLoop vec1 vec2

/-- Behaviour of `std::sort(v.begin(), v.end())`: the elements in ascending order. -/
def stdSort {T : Type} [LinearOrder T] (v : List T) : List T :=
  v.insertionSort (· ≤ ·)

/-- The value of `v.size() - 1` in 64-bit `size_t` arithmetic: subtracting 1 is adding
`2^64 - 1` modulo `2^64`. -/
def sizeMinusOne {T : Type} (v : List T) : Nat := (2 ^ 64 - 1 + v.length) % 2 ^ 64

/-- The loop `while (j < v.size() - 1 && v[j] < x) j++`, given the number of iterations it
may take: the value of `j` when it stops. -/
def advance {T : Type} [LinearOrder T] (v : List T) (x : T) : Nat → Nat → Run Nat
  | 0, _ => .unfinished
  | fuel + 1, j =>
    if j < sizeMinusOne v then
      match v[j]? with
      | none => .outOfBounds
      | some a => if a < x then advance v x fuel (j + 1) else .done j
    else .done j

/-- The `for` loop of `containsAll` over the sorted `v2`, from an element on: `prev` is the
element before it (none at `i = 0`), `j` the current index into the sorted `v1`. -/
def containsAllLoop {T : Type} [LinearOrder T] (v1 : List T) :
    Option T → List T → Nat → Run Bool
  | _, [], _ => .done true
  | prev, x :: rest, j =>
    if prev = some x then containsAllLoop v1 (some x) rest j
    else
      match advance v1 x (v1.length + 1) j with
      | .done j' =>
        match v1[j']? with
        | none => .outOfBounds
        | some a => if a ≠ x then .done false else containsAllLoop v1 (some x) rest j'
      | .outOfBounds => .outOfBounds
      | .unfinished => .unfinished

/-- The function `containsAll(v1, v2)`: both vectors are sorted, then scanned. -/
def containsAll {T : Type} [LinearOrder T] (v1 v2 : List T) : Run Bool :=
  containsAllLoop (stdSort v1) none (stdSort v2) 0

/-- The `for` loop of `diff` over the sorted `v1`, from an element on: `prev` is the element
before it, `j` the current index into the sorted `v2`, `v3` the output so far. -/
def diffLoop {T : Type} [LinearOrder T] (v2 : List T) :
    Option T → List T → Nat → List T → Run (List T)
  | _, [], _, v3 => .done v3
  | prev, x :: rest, j, v3 =>
    if prev = some x then diffLoop v2 (some x) rest j v3
    else
      match advance v2 x (v2.length + 1) j with
      | .done j' =>
        match v2[j']? with
        | none => .outOfBounds
        | some a => diffLoop v2 (some x) rest j' (if a ≠ x then v3 ++ [x] else v3)
      | .outOfBounds => .outOfBounds
      | .unfinished => .unfinished

/-- The function `diff(v1, v2, v3)`; the value is the final content of `v3`.  The first
statement appends `v1` to `v3` when `v2` is empty, and execution goes on. -/
def diff {T : Type} [LinearOrder T] (v1 v2 v3 : List T) : Run (List T) :=
  let v3 := if v2.length = 0 then appendTo v3 v1 else v3
  diffLoop (stdSort v2) none (stdSort v1) 0 v3

/-- Result of a function with an exception specification: the value returned, or the
exception raised. -/
inductive Result (α : Type) where
  | value (a : α)
  | emptyVectorException
  | dimensionException
deriving DecidableEq

/-- The largest value of `int`, a 32-bit two's-complement type. -/
def intMax : Int := 2147483647

/-- The smallest value of `int`. -/
def intMin : Int := -2147483648

/-- Outcome of a loop over `int` values: the value computed, a signed overflow (an addition
or subtraction whose result is not a value of `int`, undefined behaviour), or a loop that the
allotted number of loop tests did not finish. -/
inductive IntRun (α : Type) where
  | done (a : α)
  | overflow
  | unfinished
deriving DecidableEq

/-- The loop `for (T i = from; i <= limit; i += by) v.push_back(i)` of `seq` at `T = int`,
given the number of loop tests it may take; `i += by` overflows when `i + by` is not a value
of `int`. -/
def seqUp (limit by_ : Int) : Nat → Int → List Int → IntRun (List Int)
  | 0, _, _ => .unfinished
  | fuel + 1, i, v =>
    if i ≤ limit then
      if intMin ≤ i + by_ ∧ i + by_ ≤ intMax then seqUp limit by_ fuel (i + by_) (v ++ [i])
      else .overflow
    else .done v

/-- The loop `for (T i = from; i >= limit; i -= by) v.push_back(i)` of `seq` at `T = int`,
given the number of loop tests it may take; `i -= by` overflows when `i - by` is not a value
of `int`. -/
def seqDown (limit by_ : Int) : Nat → Int → List Int → IntRun (List Int)
  | 0, _, _ => .unfinished
  | fuel + 1, i, v =>
    if i ≥ limit then
      if intMin ≤ i - by_ ∧ i - by_ ≤ intMax then seqDown limit by_ fuel (i - by_) (v ++ [i])
      else .overflow
    else .done v

/-- The function `seq(from, to, by)` at `T = int`; the arguments are values of `int`, and
`by / 100` is the truncating integer division.  The loop tests compare `i` with
`to + (by / 100)`, resp. `to - (by / 100)`, which overflows when it is not a value of `int`.
Each loop is given `2^32 + 1` tests, more than there are values of `int`. -/
def seq (from_ to_ by_ : Int) : IntRun (List Int) :=
  if from_ < to_ then
    if intMin ≤ to_ + by_.tdiv 100 ∧ to_ + by_.tdiv 100 ≤ intMax then
      seqUp (to_ + by_.tdiv 100) by_ (2 ^ 32 + 1) from_ []
    else .overflow
  else
    if intMin ≤ to_ - by_.tdiv 100 ∧ to_ - by_.tdiv 100 ≤ intMax then
      seqDown (to_ - by_.tdiv 100) by_ (2 ^ 32 + 1) from_ []
    else .overflow

/-- The inner loop of `kroneckerMult` from index `j` on:
`v3[i * n2 + j] = v1i * v2[j]`. -/
def kroneckerRow {T : Type} [Mul T] (v1i : T) (i n2 : Nat) : List T → Nat → List T → List T
  | [], _, v3 => v3
  | v2j :: rest, j, v3 => kroneckerRow v1i i n2 rest (j + 1) (v3.set (i * n2 + j) (v1i * v2j))

/-- The outer loop of `kroneckerMult` from index `i` on. -/
def kroneckerRows {T : Type} [Mul T] (v2 : List T) (n2 : Nat) : List T → Nat → List T → List T
  | [], _, v3 => v3
  | v1i :: rest, i, v3 => kroneckerRows v2 n2 rest (i + 1) (kroneckerRow v1i i n2 v2 0 v3)

/-- The function `kroneckerMult(v1, v2)`: `v3` is created with `n1 * n2` value-initialised
elements and filled by the two loops; the body has no `throw` statement.  The product
`n1 * n2` is assumed to be less than `2^32`. -/
def kroneckerMult {T : Type} [Mul T] [Zero T] (v1 v2 : List T) : Result (List T) :=
  let n1 := v1.length
  let n2 := v2.length
  .value (kroneckerRows v2 n2 v1 0 (List.replicate (n1 * n2) 0))

/-- The loop of `min` from index 1 on. -/
def minLoop {T : Type} [LinearOrder T] : T → List T → T
  | mini, [] => mini
  | mini, x :: rest => minLoop (if x < mini then x else mini) rest

/-- The function `min(v)`. -/
def min {T : Type} [LinearOrder T] : List T → Result T
  | [] => .emptyVectorException
  | first :: rest => .value (minLoop first rest)

/-- The loop of `max` from index 1 on. -/
def maxLoop {T : Type} [LinearOrder T] : T → List T → T
  | maxi, [] => maxi
  | maxi, x :: rest => maxLoop (if x > maxi then x else maxi) rest

/-- The function `max(v)`. -/
def max {T : Type} [LinearOrder T] : List T → Result T
  | [] => .emptyVectorException
  | first :: rest => .value (maxLoop first rest)

/-- The loop of `range` from index 1 on, on the pair `(r[0], r[1])`. -/
def rangeLoop {T : Type} [LinearOrder T] : T × T → List T → T × T
  | r, [] => r
  | r, x :: rest =>
    let r0 := if x < r.1 then x else r.1
    let r1 := if x > r.2 then x else r.2
    rangeLoop (r0, r1) rest

/-- The function `range(v)`. -/
def range {T : Type} [LinearOrder T] : List T → Result (List T)
  | [] => .emptyVectorException
  | first :: rest =>
    let r := rangeLoop (first, first) rest
    .value [r.1, r.2]

end VectorTools

/-! ## Runs of `createNode` and `link` -/

/-- The sequence consists of calls of `createNode` and `link` only. -/
def createsAndLinks : List Op → Bool
  | [] => true
  | .createNode _ :: ops => createsAndLinks ops
  | .link _ _ _ :: ops => createsAndLinks ops
  | _ :: _ => false

/-- Both forward tables have one slot for each id the graph has issued. -/
def ExactlySized (s : SimpleGraphObserver) : Prop :=
  s.nodesToObjects_.length = s.subjectGraph_.nodeCount
    ∧ s.edgesToObjects_.length = s.subjectGraph_.edgeCount

/-- The observer after `createNode(10); createNode(10)` on a new undirected observer: both
forward slots hold the object, the reverse table maps it to id 1. -/
def createdTwice : SimpleGraphObserver := (oneNode.createNode 10).state

/-! ## Lemmas on vectors and maps -/

theorem mapFind_mapSet (m : PtrMap) (k : Ptr) (v : Nat) (k' : Ptr) :
    mapFind (mapSet m k v) k' = if k' = k then some v else mapFind m k' := by
  induction m with
  | nil =>
    by_cases h : k' = k
    · simp [mapSet, mapFind, h]
    · have h' : ¬ k = k' := fun e => h e.symm
      simp [mapSet, mapFind, h, h']
  | cons p m ih =>
    obtain ⟨a, b⟩ := p
    by_cases hak : a = k
    · subst hak
      by_cases h : k' = a
      · simp [mapSet, mapFind, h]
      · have h' : ¬ a = k' := fun e => h e.symm
        simp [mapSet, mapFind, h, h']
    · by_cases hak' : a = k'
      · subst hak'
        simp [mapSet, mapFind, hak]
      · simp [mapSet, mapFind, hak, hak', ih]

theorem mapFind_mapErase (m : PtrMap) (k k' : Ptr) :
    mapFind (mapErase m k) k' = if k' = k then none else mapFind m k' := by
  induction m with
  | nil => simp [mapErase, mapFind]
  | cons p m ih =>
    obtain ⟨a, b⟩ := p
    by_cases hak : a = k
    · subst hak
      by_cases h : k' = a
      · subst h
        simpa [mapErase] using ih
      · have h' : ¬ a = k' := fun e => h e.symm
        simp [mapErase, mapFind, ih, h, h']
    · by_cases hak' : a = k'
      · subst hak'
        simp [mapErase, mapFind, hak]
      · simp [mapErase, mapFind, hak, hak', ih]

theorem length_resize (v : List Ptr) (n : Nat) : (resize v n).length = n := by
  simp [resize]
  omega

theorem slot_resize (v : List Ptr) (n j : Nat) :
    slot (resize v n) j = if j < n then slot v j else null := by
  unfold slot resize
  rw [List.getD_eq_getElem?_getD, List.getD_eq_getElem?_getD]
  by_cases hj : j < n
  · rw [if_pos hj]
    by_cases hv : j < v.length
    · rw [List.getElem?_append_left (by simp; omega), List.getElem?_take_of_lt hj]
    · have hlen : (List.take n v).length ≤ j := by simp; omega
      rw [List.getElem?_append_right hlen, List.getElem?_eq_none (by omega : v.length ≤ j)]
      rw [List.getElem?_replicate]
      split <;> rfl
  · rw [if_neg hj]
    rw [List.getElem?_eq_none]
    · rfl
    · simp; omega

theorem slot_set (v : List Ptr) (i : Nat) (x : Ptr) (j : Nat) :
    slot (v.set i x) j = if j = i ∧ i < v.length then x else slot v j := by
  unfold slot
  rw [List.getD_eq_getElem?_getD, List.getD_eq_getElem?_getD, List.getElem?_set]
  by_cases hji : j = i
  · subst hji
    by_cases hlt : j < v.length
    · simp [hlt]
    · simp [hlt, List.getElem?_eq_none (by omega : v.length ≤ j)]
  · have : ¬ i = j := fun e => hji e.symm
    simp [hji, this]

theorem slot_of_length_le (v : List Ptr) (j : Nat) (h : v.length ≤ j) : slot v j = null := by
  unfold slot
  rw [List.getD_eq_getElem?_getD, List.getElem?_eq_none h]
  rfl

theorem slot_of_getElem? (v : List Ptr) (j : Nat) (o : Ptr) (h : v[j]? = some o) :
    slot v j = o := by
  unfold slot
  rw [List.getD_eq_getElem?_getD, h]
  rfl

/-! ## `link` and `unlink` -/

/-- C4: `link(a, b, edgeObj)` throws the not-associated exception whenever `a` or `b` has no
entry in the reverse node table, and the state it leaves (the Graph Core and the four
observer tables) is the state before the call: no Graph Core link is performed. -/
theorem link_unbound_node_throws (s : SimpleGraphObserver) (a b e : Ptr)
    (h : mapFind s.objectsToNodes_ a = none ∨ mapFind s.objectsToNodes_ b = none) :
    s.link a b e = .throws .notAssociated s := by
  unfold SimpleGraphObserver.link
  rcases h with h | h
  · rw [h]
  · rw [h]
    cases mapFind s.objectsToNodes_ a <;> rfl

theorem link_unbound_node_throws_witness :
    (mapFind oneNode.objectsToNodes_ 10 = none ∨ mapFind oneNode.objectsToNodes_ 99 = none) ∧
      oneNode.link 10 99 null = .throws .notAssociated oneNode :=
  ⟨by decide, link_unbound_node_throws oneNode 10 99 null (by decide)⟩

/-- C5: for nodes `a` and `b` bound in the reverse node table, `link(a, b, edgeObj)` throws
the already-associated exception whenever `edgeObj` is supplied (not null) and has an entry in
the reverse edge table; the state it leaves (Graph Core and observer tables) is the state
before the call. -/
theorem link_bound_edge_object_throws (s : SimpleGraphObserver) (a b e : Ptr) (ia ib : Nat)
    (ha : mapFind s.objectsToNodes_ a = some ia) (hb : mapFind s.objectsToNodes_ b = some ib)
    (he : e ≠ null) (hbound : (mapFind s.objectsToEdges_ e).isSome = true) :
    s.link a b e = .throws .alreadyAssociated s := by
  unfold SimpleGraphObserver.link
  rw [ha, hb]
  simp only []
  rw [if_pos ⟨he, hbound⟩]

theorem link_bound_edge_object_throws_witness :
    (mapFind edgeBound.objectsToNodes_ 20 = some 1 ∧ mapFind edgeBound.objectsToNodes_ 10 = some 0
        ∧ (30 : Ptr) ≠ null ∧ (mapFind edgeBound.objectsToEdges_ 30).isSome = true) ∧
      edgeBound.link 20 10 30 = .throws .alreadyAssociated edgeBound :=
  ⟨by decide,
    link_bound_edge_object_throws edgeBound 20 10 30 1 0 (by decide) (by decide) (by decide)
      (by decide)⟩

/-- C7: `unlink(a, b)` never touches the four observer tables; it throws the not-associated
exception, leaving the state as it was, if `a` or `b` has no reverse-table entry; otherwise
it hands the two bound ids to the Graph Core `unlink` and, when that succeeds, returns with
the new graph and the tables exactly as they were (an edge-object binding of the removed
adjacency included); when the Graph Core refuses the call, its error is passed on and the
state is as before. -/
theorem unlink_keeps_tables (s : SimpleGraphObserver) (a b : Ptr) :
    ((s.unlink a b).state.nodesToObjects_ = s.nodesToObjects_
      ∧ (s.unlink a b).state.objectsToNodes_ = s.objectsToNodes_
      ∧ (s.unlink a b).state.edgesToObjects_ = s.edgesToObjects_
      ∧ (s.unlink a b).state.objectsToEdges_ = s.objectsToEdges_)
    ∧ ((mapFind s.objectsToNodes_ a = none ∨ mapFind s.objectsToNodes_ b = none) →
        s.unlink a b = .throws .notAssociated s)
    ∧ (∀ ia ib g, mapFind s.objectsToNodes_ a = some ia → mapFind s.objectsToNodes_ b = some ib →
        s.subjectGraph_.unlink ia ib = some g →
        s.unlink a b = .ok { s with subjectGraph_ := g })
    ∧ (∀ ia ib, mapFind s.objectsToNodes_ a = some ia → mapFind s.objectsToNodes_ b = some ib →
        s.subjectGraph_.unlink ia ib = none →
        s.unlink a b = .throws .notFound s) := by
  refine ⟨?_, ?_, ?_, ?_⟩
  · unfold SimpleGraphObserver.unlink
    cases mapFind s.objectsToNodes_ a <;> cases mapFind s.objectsToNodes_ b <;>
      simp only [Outcome.state, and_self]
    cases s.subjectGraph_.unlink _ _ <;> simp [Outcome.state]
  · intro h
    unfold SimpleGraphObserver.unlink
    rcases h with h | h
    · rw [h]
    · rw [h]
      cases mapFind s.objectsToNodes_ a <;> rfl
  · intro ia ib g ha hb hg
    unfold SimpleGraphObserver.unlink
    rw [ha, hb]
    simp only []
    rw [hg]
  · intro ia ib ha hb hg
    unfold SimpleGraphObserver.unlink
    rw [ha, hb]
    simp only []
    rw [hg]

theorem unlink_keeps_tables_witness :
    (mapFind edgeBound.objectsToNodes_ 10 = some 0 ∧ mapFind edgeBound.objectsToNodes_ 20 = some 1
        ∧ edgeBound.subjectGraph_.unlink 0 1
          = some { edgeBound.subjectGraph_ with edges := [] })
      ∧ edgeBound.unlink 10 20
          = .ok { edgeBound with subjectGraph_ := { edgeBound.subjectGraph_ with edges := [] } }
      ∧ mapFind (edgeBound.unlink 10 20).state.objectsToEdges_ 30 = some 0 :=
  ⟨by decide,
    (unlink_keeps_tables edgeBound 10 20).2.2.1 0 1 _ (by decide) (by decide) (by decide),
    by decide⟩

/-- C2: evaluation at `createNode(10); createNode(20); link(10, 20)` with no edge object.
Before the call both edge tables are empty, hence symmetric.  The call returns, edge forward
slot 0 is a tombstone, yet the reverse edge table has gained the entry `null -> 0`: the edge
tables are no longer symmetric. -/
theorem link_without_edge_object_adds_null_entry :
    EdgeSymmetric twoNodes
      ∧ twoNodes.link 10 20 null = .ok linkedNodes
      ∧ twoNodes.objectsToEdges_ = []
      ∧ linkedNodes.edgesToObjects_ = [null]
      ∧ linkedNodes.objectsToEdges_ = [(null, 0)]
      ∧ ¬ EdgeSymmetric linkedNodes := by
  refine ⟨?_, by decide, by decide, by decide, by decide, ?_⟩
  · intro i o
    have h1 : twoNodes.edgesToObjects_ = [] := by decide
    have h2 : twoNodes.objectsToEdges_ = [] := by decide
    rw [h1, h2]
    constructor
    · rintro ⟨hs, ho⟩
      exact absurd hs.symm ho
    · intro h
      simp [mapFind] at h
  · intro h
    exact ((h 0 null).2 (by decide)).2 rfl

/-- C6: for nodes `a`, `b` bound to ids `ia`, `ib` that are live in the Graph Core and a
supplied edge object `e` without reverse-table entry, `link(a, b, e)` returns; the Graph Core
has one more edge, with the next edge id `k`, from `ia` to `ib`; the edge forward table has
length `max (old length) (k+1)`, slot `k` holds `e`, the reverse edge table maps `e` to `k`,
every other slot of the old table keeps its content, every other added slot is a tombstone,
and the node tables are untouched. -/
theorem link_binds_edge_object (s : SimpleGraphObserver) (a b e : Ptr) (ia ib : Nat)
    (ha : mapFind s.objectsToNodes_ a = some ia) (hb : mapFind s.objectsToNodes_ b = some ib)
    (he : e ≠ null) (hfree : mapFind s.objectsToEdges_ e = none)
    (hla : ia ∈ s.subjectGraph_.nodes) (hlb : ib ∈ s.subjectGraph_.nodes) :
    ∃ s', s.link a b e = .ok s'
      ∧ s'.subjectGraph_.edges
          = s.subjectGraph_.edges ++ [⟨s.subjectGraph_.edgeCount, ia, ib⟩]
      ∧ s'.subjectGraph_.edgeCount = s.subjectGraph_.edgeCount + 1
      ∧ s'.subjectGraph_.nodes = s.subjectGraph_.nodes
      ∧ s'.edgesToObjects_.length
          = max s.edgesToObjects_.length (s.subjectGraph_.edgeCount + 1)
      ∧ s'.edgesToObjects_[s.subjectGraph_.edgeCount]? = some e
      ∧ mapFind s'.objectsToEdges_ e = some s.subjectGraph_.edgeCount
      ∧ (∀ j, j ≠ s.subjectGraph_.edgeCount → j < s.edgesToObjects_.length →
          s'.edgesToObjects_[j]? = s.edgesToObjects_[j]?)
      ∧ (∀ j, j ≠ s.subjectGraph_.edgeCount → s.edgesToObjects_.length ≤ j →
          j < s'.edgesToObjects_.length → s'.edgesToObjects_[j]? = some null)
      ∧ s'.nodesToObjects_ = s.nodesToObjects_
      ∧ s'.objectsToNodes_ = s.objectsToNodes_ := by
  have hnot : ¬ (e ≠ null ∧ (mapFind s.objectsToEdges_ e).isSome = true) := by
    rintro ⟨_, hsome⟩
    rw [hfree] at hsome
    exact absurd hsome (by decide)
  have _ := he
  have hg : s.subjectGraph_.link ia ib
      = some (s.subjectGraph_.edgeCount,
          { s.subjectGraph_ with
            edgeCount := s.subjectGraph_.edgeCount + 1
            edges := s.subjectGraph_.edges ++ [⟨s.subjectGraph_.edgeCount, ia, ib⟩] }) := by
    unfold SimpleGraph.link
    rw [if_pos ⟨hla, hlb⟩]
  unfold SimpleGraphObserver.link
  rw [ha, hb]
  simp only []
  rw [if_neg hnot, hg]
  simp only []
  by_cases hlen : s.edgesToObjects_.length < s.subjectGraph_.edgeCount + 1
  · rw [if_pos hlen]
    simp only [length_resize]
    rw [if_pos (Nat.lt_succ_self _)]
    refine ⟨_, rfl, rfl, rfl, rfl, ?_, ?_, ?_, ?_, ?_, rfl, rfl⟩
    · simp only [List.length_set, length_resize]
      omega
    · simp only []
      rw [List.getElem?_set_self (by rw [length_resize]; omega)]
    · simp only []
      rw [mapFind_mapSet, if_pos rfl]
    · intro j hj hjl
      simp only []
      rw [List.getElem?_set_ne (fun h => hj h.symm)]
      unfold resize
      rw [List.getElem?_append_left (by simp; omega), List.getElem?_take_of_lt (by omega)]
    · intro j hj hjl hjl'
      simp only [List.length_set, length_resize] at hjl'
      simp only []
      rw [List.getElem?_set_ne (fun h => hj h.symm)]
      unfold resize
      rw [List.getElem?_append_right (by simp; omega), List.getElem?_replicate]
      rw [if_pos (by simp; omega)]
  · rw [if_neg hlen]
    simp only []
    rw [if_pos (by omega)]
    refine ⟨_, rfl, rfl, rfl, rfl, ?_, ?_, ?_, ?_, ?_, rfl, rfl⟩
    · simp only [List.length_set]
      omega
    · simp only []
      rw [List.getElem?_set_self (by omega)]
    · simp only []
      rw [mapFind_mapSet, if_pos rfl]
    · intro j hj _
      simp only []
      rw [List.getElem?_set_ne (fun h => hj h.symm)]
    · intro j _ hjl hjl'
      simp only [List.length_set] at hjl'
      omega

theorem link_binds_edge_object_witness :
    (mapFind twoNodes.objectsToNodes_ 10 = some 0 ∧ mapFind twoNodes.objectsToNodes_ 20 = some 1
      ∧ (30 : Ptr) ≠ null ∧ mapFind twoNodes.objectsToEdges_ 30 = none
      ∧ 0 ∈ twoNodes.subjectGraph_.nodes ∧ 1 ∈ twoNodes.subjectGraph_.nodes) ∧
    ∃ s', twoNodes.link 10 20 30 = .ok s'
      ∧ s'.subjectGraph_.edges
          = twoNodes.subjectGraph_.edges ++ [⟨twoNodes.subjectGraph_.edgeCount, 0, 1⟩]
      ∧ s'.subjectGraph_.edgeCount = twoNodes.subjectGraph_.edgeCount + 1
      ∧ s'.subjectGraph_.nodes = twoNodes.subjectGraph_.nodes
      ∧ s'.edgesToObjects_.length
          = max twoNodes.edgesToObjects_.length (twoNodes.subjectGraph_.edgeCount + 1)
      ∧ s'.edgesToObjects_[twoNodes.subjectGraph_.edgeCount]? = some 30
      ∧ mapFind s'.objectsToEdges_ 30 = some twoNodes.subjectGraph_.edgeCount
      ∧ (∀ j, j ≠ twoNodes.subjectGraph_.edgeCount → j < twoNodes.edgesToObjects_.length →
          s'.edgesToObjects_[j]? = twoNodes.edgesToObjects_[j]?)
      ∧ (∀ j, j ≠ twoNodes.subjectGraph_.edgeCount → twoNodes.edgesToObjects_.length ≤ j →
          j < s'.edgesToObjects_.length → s'.edgesToObjects_[j]? = some null)
      ∧ s'.nodesToObjects_ = twoNodes.nodesToObjects_
      ∧ s'.objectsToNodes_ = twoNodes.objectsToNodes_ :=
  ⟨by decide,
    link_binds_edge_object twoNodes 10 20 30 0 1 (by decide) (by decide) (by decide) (by decide)
      (by decide) (by decide)⟩

/-! ## `createNode`, `associateNode` and `associateEdge` -/

/-- C3 (counterexample): `createNode(10)` on the observer in which 10 is already bound to node
id 0.  The call returns and binds 10 to the new id 1, but the binding of id 0 has changed:
the reverse node table no longer maps 10 to 0, while forward slot 0 still holds 10. -/
theorem createNode_bound_object_rebinds :
    mapFind oneNode.objectsToNodes_ 10 = some 0
      ∧ oneNode.subjectGraph_.nodeCount = 1
      ∧ (oneNode.createNode 10).returned = true
      ∧ slot (oneNode.createNode 10).state.nodesToObjects_ 1 = 10
      ∧ mapFind (oneNode.createNode 10).state.objectsToNodes_ 10 = some 1
      ∧ slot (oneNode.createNode 10).state.nodesToObjects_ 0 = 10
      ∧ ¬ (∀ (o : Ptr) (i : Nat), i ≠ 1 →
            (mapFind (oneNode.createNode 10).state.objectsToNodes_ o = some i
              ↔ mapFind oneNode.objectsToNodes_ o = some i)) := by
  refine ⟨by decide, by decide, by decide, by decide, by decide, by decide, ?_⟩
  intro h
  exact absurd ((h 10 0 (by decide)).2 (by decide)) (by decide)

/-- C3 (amended): for an object `obj` that has no entry in the reverse node table, in a state
whose node forward table covers issued ids only, `createNode(obj)` returns; the Graph Core has
exactly one more node id, the next one `n`, and is otherwise as before; node forward slot `n`
holds `obj`, the reverse node table maps `obj` to `n`, and every binding of an id other than
`n` is unchanged in both node tables; the edge tables are untouched. -/
theorem createNode_binds_new_id (s : SimpleGraphObserver) (obj : Ptr)
    (hsz : NodesSized s) (hfree : mapFind s.objectsToNodes_ obj = none) :
    ∃ s', s.createNode obj = .ok s'
      ∧ s'.subjectGraph_.nodeCount = s.subjectGraph_.nodeCount + 1
      ∧ s'.subjectGraph_.nodes = s.subjectGraph_.nodes ++ [s.subjectGraph_.nodeCount]
      ∧ s'.subjectGraph_.edges = s.subjectGraph_.edges
      ∧ s'.subjectGraph_.edgeCount = s.subjectGraph_.edgeCount
      ∧ s'.nodesToObjects_.length = s.subjectGraph_.nodeCount + 1
      ∧ s'.nodesToObjects_[s.subjectGraph_.nodeCount]? = some obj
      ∧ mapFind s'.objectsToNodes_ obj = some s.subjectGraph_.nodeCount
      ∧ (∀ j, j ≠ s.subjectGraph_.nodeCount → slot s'.nodesToObjects_ j = slot s.nodesToObjects_ j)
      ∧ (∀ (o : Ptr) (i : Nat), i ≠ s.subjectGraph_.nodeCount →
          (mapFind s'.objectsToNodes_ o = some i ↔ mapFind s.objectsToNodes_ o = some i))
      ∧ s'.edgesToObjects_ = s.edgesToObjects_
      ∧ s'.objectsToEdges_ = s.objectsToEdges_ := by
  unfold NodesSized at hsz
  unfold SimpleGraphObserver.createNode SimpleGraphObserver.associateNode
  simp only [SimpleGraph.createNode, SimpleGraph.getHighestNodeID, Nat.add_sub_cancel,
    length_resize]
  rw [if_pos (Nat.lt_succ_self _)]
  refine ⟨_, rfl, rfl, rfl, rfl, rfl, ?_, ?_, ?_, ?_, ?_, rfl, rfl⟩
  · simp only [List.length_set, length_resize]
  · simp only []
    rw [List.getElem?_set_self (by rw [length_resize]; omega)]
  · simp only []
    rw [mapFind_mapSet, if_pos rfl]
  · intro j hj
    simp only []
    rw [slot_set, if_neg (fun h => hj h.1), slot_resize]
    by_cases hjn : j < s.subjectGraph_.nodeCount + 1
    · rw [if_pos hjn]
    · rw [if_neg hjn, slot_of_length_le _ _ (by omega)]
  · intro o i hi
    simp only []
    rw [mapFind_mapSet]
    by_cases ho : o = obj
    · subst ho
      rw [if_pos rfl, hfree]
      constructor
      · intro h
        exact absurd (Option.some.inj h).symm hi
      · intro h
        exact absurd h (by simp)
    · rw [if_neg ho]

theorem createNode_binds_new_id_witness :
    (NodesSized oneNode ∧ mapFind oneNode.objectsToNodes_ 20 = none) ∧
    ∃ s', oneNode.createNode 20 = .ok s'
      ∧ s'.subjectGraph_.nodeCount = oneNode.subjectGraph_.nodeCount + 1
      ∧ s'.subjectGraph_.nodes = oneNode.subjectGraph_.nodes ++ [oneNode.subjectGraph_.nodeCount]
      ∧ s'.subjectGraph_.edges = oneNode.subjectGraph_.edges
      ∧ s'.subjectGraph_.edgeCount = oneNode.subjectGraph_.edgeCount
      ∧ s'.nodesToObjects_.length = oneNode.subjectGraph_.nodeCount + 1
      ∧ s'.nodesToObjects_[oneNode.subjectGraph_.nodeCount]? = some 20
      ∧ mapFind s'.objectsToNodes_ 20 = some oneNode.subjectGraph_.nodeCount
      ∧ (∀ j, j ≠ oneNode.subjectGraph_.nodeCount →
          slot s'.nodesToObjects_ j = slot oneNode.nodesToObjects_ j)
      ∧ (∀ (o : Ptr) (i : Nat), i ≠ oneNode.subjectGraph_.nodeCount →
          (mapFind s'.objectsToNodes_ o = some i ↔ mapFind oneNode.objectsToNodes_ o = some i))
      ∧ s'.edgesToObjects_ = oneNode.edgesToObjects_
      ∧ s'.objectsToEdges_ = oneNode.objectsToEdges_ :=
  ⟨⟨by unfold NodesSized; decide, by decide⟩,
    createNode_binds_new_id oneNode 20 (by unfold NodesSized; decide) (by decide)⟩

/-- C8: for every issued node id `id` whose slot is empty and every object `obj` without
reverse-table entry, in a state whose node forward table covers issued ids only,
`associateNode(obj, id)` returns; afterwards the node forward table has length at least
`id + 1`, slot `id` holds `obj`, the reverse node table maps `obj` to `id`, every binding of
another id is unchanged in both node tables, and the edge tables and the Graph Core are
untouched. -/
theorem associateNode_binds (s : SimpleGraphObserver) (obj : Ptr) (id : Nat)
    (hid : id < s.subjectGraph_.nodeCount) (hsz : NodesSized s)
    (hempty : slot s.nodesToObjects_ id = null) (hfree : mapFind s.objectsToNodes_ obj = none) :
    ∃ s', s.associateNode obj id = .ok s'
      ∧ id + 1 ≤ s'.nodesToObjects_.length
      ∧ s'.nodesToObjects_[id]? = some obj
      ∧ mapFind s'.objectsToNodes_ obj = some id
      ∧ (∀ j, j ≠ id → slot s'.nodesToObjects_ j = slot s.nodesToObjects_ j)
      ∧ (∀ (o : Ptr) (i : Nat), i ≠ id →
          (mapFind s'.objectsToNodes_ o = some i ↔ mapFind s.objectsToNodes_ o = some i))
      ∧ s'.edgesToObjects_ = s.edgesToObjects_
      ∧ s'.objectsToEdges_ = s.objectsToEdges_
      ∧ s'.subjectGraph_ = s.subjectGraph_ := by
  unfold NodesSized at hsz
  have _ := hempty
  have hhigh : s.subjectGraph_.getHighestNodeID + 1 = s.subjectGraph_.nodeCount := by
    unfold SimpleGraph.getHighestNodeID
    omega
  unfold SimpleGraphObserver.associateNode
  simp only [hhigh, length_resize]
  rw [if_pos hid]
  refine ⟨_, rfl, ?_, ?_, ?_, ?_, ?_, rfl, rfl, rfl⟩
  · simp only [List.length_set, length_resize]
    omega
  · simp only []
    rw [List.getElem?_set_self (by rw [length_resize]; exact hid)]
  · simp only []
    rw [mapFind_mapSet, if_pos rfl]
  · intro j hj
    simp only []
    rw [slot_set, if_neg (fun h => hj h.1), slot_resize]
    by_cases hjn : j < s.subjectGraph_.nodeCount
    · rw [if_pos hjn]
    · rw [if_neg hjn, slot_of_length_le _ _ (by omega)]
  · intro o i hi
    simp only []
    rw [mapFind_mapSet]
    by_cases ho : o = obj
    · subst ho
      rw [if_pos rfl, hfree]
      constructor
      · intro h
        exact absurd (Option.some.inj h).symm hi
      · intro h
        exact absurd h (by simp)
    · rw [if_neg ho]

theorem associateNode_binds_witness :
    (1 < graphNodeAdded.subjectGraph_.nodeCount
      ∧ NodesSized graphNodeAdded
      ∧ slot graphNodeAdded.nodesToObjects_ 1 = null
      ∧ mapFind graphNodeAdded.objectsToNodes_ 40 = none) ∧
    ∃ s', graphNodeAdded.associateNode 40 1 = .ok s'
      ∧ 1 + 1 ≤ s'.nodesToObjects_.length
      ∧ s'.nodesToObjects_[1]? = some 40
      ∧ mapFind s'.objectsToNodes_ 40 = some 1
      ∧ (∀ j, j ≠ 1 → slot s'.nodesToObjects_ j
          = slot graphNodeAdded.nodesToObjects_ j)
      ∧ (∀ (o : Ptr) (i : Nat), i ≠ 1 →
          (mapFind s'.objectsToNodes_ o = some i
            ↔ mapFind graphNodeAdded.objectsToNodes_ o = some i))
      ∧ s'.edgesToObjects_ = graphNodeAdded.edgesToObjects_
      ∧ s'.objectsToEdges_ = graphNodeAdded.objectsToEdges_
      ∧ s'.subjectGraph_ = graphNodeAdded.subjectGraph_ :=
  ⟨⟨by decide, by unfold NodesSized; decide, by decide, by decide⟩,
    associateNode_binds graphNodeAdded 40 1 (by decide)
      (by unfold NodesSized; decide) (by decide) (by decide)⟩

/-- C9 (counterexample): `associateNode` accepts both rebindings.  With 10 bound to id 0,
`associateNode(20, 0)` returns and slot 0 holds 20 while the reverse table still maps 10 to 0;
with 10 bound to id 0 and 20 to id 1, `associateNode(10, 1)` returns and forward slots 0 and 1
both hold 10.  Neither call throws the already-associated exception. -/
theorem associateNode_rebinding_accepted :
    (slot oneNode.nodesToObjects_ 0 = 10
      ∧ oneNode.associateNode 20 0 ≠ .throws .alreadyAssociated oneNode
      ∧ (oneNode.associateNode 20 0).returned = true
      ∧ slot (oneNode.associateNode 20 0).state.nodesToObjects_ 0 = 20
      ∧ mapFind (oneNode.associateNode 20 0).state.objectsToNodes_ 10 = some 0)
    ∧ (mapFind twoNodes.objectsToNodes_ 10 = some 0
      ∧ twoNodes.associateNode 10 1 ≠ .throws .alreadyAssociated twoNodes
      ∧ (twoNodes.associateNode 10 1).returned = true
      ∧ slot (twoNodes.associateNode 10 1).state.nodesToObjects_ 0 = 10
      ∧ slot (twoNodes.associateNode 10 1).state.nodesToObjects_ 1 = 10) := by
  decide

/-- C9 (amended): `associateNode(obj, id)` makes no already-associated check.  For every id up
to the highest issued node id it returns, also when slot `id` already holds a different live
object or `obj` is already bound to a different id: slot `id` then holds `obj`, the reverse
node table maps `obj` to `id`, and the reverse entry of every other object (the previous
occupant of the slot included) is as before. -/
theorem associateNode_overwrites (s : SimpleGraphObserver) (obj : Ptr) (id : Nat)
    (hid : id ≤ s.subjectGraph_.getHighestNodeID) :
    ∃ s', s.associateNode obj id = .ok s'
      ∧ s'.nodesToObjects_[id]? = some obj
      ∧ mapFind s'.objectsToNodes_ obj = some id
      ∧ (∀ o, o ≠ obj → mapFind s'.objectsToNodes_ o = mapFind s.objectsToNodes_ o) := by
  unfold SimpleGraphObserver.associateNode
  simp only [length_resize]
  rw [if_pos (by omega)]
  refine ⟨_, rfl, ?_, ?_, ?_⟩
  · simp only []
    rw [List.getElem?_set_self (by rw [length_resize]; omega)]
  · simp only []
    rw [mapFind_mapSet, if_pos rfl]
  · intro o ho
    simp only []
    rw [mapFind_mapSet, if_neg ho]

theorem associateNode_overwrites_witness :
    0 ≤ oneNode.subjectGraph_.getHighestNodeID ∧
    ∃ s', oneNode.associateNode 20 0 = .ok s'
      ∧ s'.nodesToObjects_[0]? = some 20
      ∧ mapFind s'.objectsToNodes_ 20 = some 0
      ∧ (∀ o, o ≠ 20 → mapFind s'.objectsToNodes_ o = mapFind oneNode.objectsToNodes_ o) :=
  ⟨by decide, associateNode_overwrites oneNode 20 0 (by decide)⟩

/-- C10: evaluation at `createNode(10); createNode(20); link(10, 20); associateEdge(30, 0)`.
Edge id 0 has been issued and 30 is bound nowhere.  The call returns and edge forward slot 0
holds 30, but the reverse edge table has no entry for 30 and is unchanged, while the reverse
node table, which had no entry for 30, now maps 30 to 0. -/
theorem associateEdge_assigns_node_table :
    (0 ≤ linkedNodes.subjectGraph_.getHighestEdgeID
      ∧ linkedNodes.subjectGraph_.edgeCount = 1
      ∧ mapFind linkedNodes.objectsToEdges_ 30 = none
      ∧ mapFind linkedNodes.objectsToNodes_ 30 = none)
    ∧ (linkedNodes.associateEdge 30 0).returned = true
    ∧ (linkedNodes.associateEdge 30 0).state.edgesToObjects_ = [30]
    ∧ mapFind (linkedNodes.associateEdge 30 0).state.objectsToEdges_ 30 = none
    ∧ (linkedNodes.associateEdge 30 0).state.objectsToEdges_ = linkedNodes.objectsToEdges_
    ∧ mapFind (linkedNodes.associateEdge 30 0).state.objectsToNodes_ 30 = some 0
    ∧ (linkedNodes.associateEdge 30 0).state.objectsToNodes_ ≠ linkedNodes.objectsToNodes_ := by
  decide

/-! ## Binding symmetry of the node tables along a run -/

theorem link_node_frame (s : SimpleGraphObserver) (a b e : Ptr) :
    (s.link a b e).state.nodesToObjects_ = s.nodesToObjects_
      ∧ (s.link a b e).state.objectsToNodes_ = s.objectsToNodes_
      ∧ (s.link a b e).state.subjectGraph_.nodeCount = s.subjectGraph_.nodeCount := by
  unfold SimpleGraphObserver.link
  cases mapFind s.objectsToNodes_ a with
  | none => simp [Outcome.state]
  | some ia =>
    cases mapFind s.objectsToNodes_ b with
    | none => simp [Outcome.state]
    | some ib =>
      simp only []
      split
      · simp [Outcome.state]
      · cases hg : s.subjectGraph_.link ia ib with
        | none => simp [Outcome.state]
        | some r =>
          obtain ⟨k, g⟩ := r
          have hcount : g.nodeCount = s.subjectGraph_.nodeCount := by
            unfold SimpleGraph.link at hg
            split at hg
            · simp only [Option.some.injEq, Prod.mk.injEq] at hg
              rw [← hg.2]
            · exact absurd hg (by simp)
          simp only []
          split <;> split <;> simp [Outcome.state, hcount]

theorem unlink_node_frame (s : SimpleGraphObserver) (a b : Ptr) :
    (s.unlink a b).state.nodesToObjects_ = s.nodesToObjects_
      ∧ (s.unlink a b).state.objectsToNodes_ = s.objectsToNodes_
      ∧ (s.unlink a b).state.subjectGraph_.nodeCount = s.subjectGraph_.nodeCount := by
  unfold SimpleGraphObserver.unlink
  cases mapFind s.objectsToNodes_ a with
  | none => simp [Outcome.state]
  | some ia =>
    cases mapFind s.objectsToNodes_ b with
    | none => simp [Outcome.state]
    | some ib =>
      simp only []
      cases hg : s.subjectGraph_.unlink ia ib with
      | none => simp [Outcome.state]
      | some g =>
        have hcount : g.nodeCount = s.subjectGraph_.nodeCount := by
          unfold SimpleGraph.unlink at hg
          split at hg
          · split at hg
            · simp only [Option.some.injEq] at hg
              rw [← hg]
            · exact absurd hg (by simp)
          · exact absurd hg (by simp)
        simp [Outcome.state, hcount]

theorem createNode_eq (s : SimpleGraphObserver) (obj : Ptr) :
    s.createNode obj = .ok
      { s with
        subjectGraph_ := s.subjectGraph_.createNode.2
        nodesToObjects_ :=
          (resize s.nodesToObjects_ (s.subjectGraph_.nodeCount + 1)).set
            s.subjectGraph_.nodeCount obj
        objectsToNodes_ := mapSet s.objectsToNodes_ obj s.subjectGraph_.nodeCount } := by
  unfold SimpleGraphObserver.createNode SimpleGraphObserver.associateNode
  simp only [SimpleGraph.createNode, SimpleGraph.getHighestNodeID, Nat.add_sub_cancel,
    length_resize]
  rw [if_pos (Nat.lt_succ_self _)]

theorem createNode_keeps_symmetry (s : SimpleGraphObserver) (obj : Ptr)
    (hsym : NodeSymmetric s) (hsz : NodesSized s) (hobj : obj ≠ null)
    (hfree : mapFind s.objectsToNodes_ obj = none) :
    NodeSymmetric (s.createNode obj).state ∧ NodesSized (s.createNode obj).state := by
  unfold NodesSized at hsz
  rw [createNode_eq]
  simp only [Outcome.state]
  refine ⟨?_, ?_⟩
  · intro i o
    simp only []
    rw [slot_set, slot_resize, mapFind_mapSet, length_resize]
    have hbeyond : ∀ j, s.subjectGraph_.nodeCount ≤ j → slot s.nodesToObjects_ j = null :=
      fun j hj => slot_of_length_le _ _ (by omega)
    by_cases hi : i = s.subjectGraph_.nodeCount
    · subst hi
      rw [if_pos ⟨rfl, Nat.lt_succ_self _⟩]
      by_cases ho : o = obj
      · subst ho
        rw [if_pos rfl]
        exact ⟨fun _ => rfl, fun _ => ⟨rfl, hobj⟩⟩
      · rw [if_neg ho]
        constructor
        · rintro ⟨h, _⟩
          exact absurd h.symm ho
        · intro h
          have h' := (hsym _ o).2 h
          rw [hbeyond _ (Nat.le_refl _)] at h'
          exact absurd h'.1.symm h'.2
    · rw [if_neg (fun h => hi h.1)]
      have hslot : (if i < s.subjectGraph_.nodeCount + 1 then slot s.nodesToObjects_ i else null)
          = slot s.nodesToObjects_ i := by
        by_cases hlt : i < s.subjectGraph_.nodeCount + 1
        · rw [if_pos hlt]
        · rw [if_neg hlt, hbeyond i (by omega)]
      rw [hslot]
      by_cases ho : o = obj
      · subst ho
        rw [if_pos rfl]
        constructor
        · intro h
          have h' := (hsym i o).1 h
          rw [hfree] at h'
          exact absurd h' (by simp)
        · intro h
          exact absurd (Option.some.inj h).symm hi
      · rw [if_neg ho]
        exact hsym i o
  · unfold NodesSized
    simp only [List.length_set, length_resize, SimpleGraph.createNode]
    omega

theorem deletedNodesUpdate_keeps_symmetry (ids : List Nat) :
    ∀ s : SimpleGraphObserver, NodeSymmetric s → NodesSized s →
      NodeSymmetric (s.deletedNodesUpdate ids).state
        ∧ NodesSized (s.deletedNodesUpdate ids).state := by
  induction ids with
  | nil =>
    intro s hsym hsz
    exact ⟨hsym, hsz⟩
  | cons id rest ih =>
    intro s hsym hsz
    unfold SimpleGraphObserver.deletedNodesUpdate
    cases hget : s.nodesToObjects_[id]? with
    | none => exact ⟨hsym, hsz⟩
    | some nodeObject =>
      simp only []
      have hlt : id < s.nodesToObjects_.length := by
        by_contra hge
        rw [List.getElem?_eq_none (by omega)] at hget
        exact absurd hget (by simp)
      have hslot : slot s.nodesToObjects_ id = nodeObject := slot_of_getElem? _ _ _ hget
      apply ih
      · intro i o
        simp only []
        rw [slot_set, mapFind_mapErase]
        by_cases hi : i = id
        · subst hi
          rw [if_pos ⟨rfl, hlt⟩]
          constructor
          · rintro ⟨h, hne⟩
            exact absurd h.symm hne
          · intro h
            by_cases ho : o = nodeObject
            · rw [if_pos ho] at h
              exact absurd h (by simp)
            · rw [if_neg ho] at h
              have h' := (hsym i o).2 h
              rw [hslot] at h'
              exact absurd h'.1.symm ho
        · rw [if_neg (fun h => hi h.1)]
          by_cases ho : o = nodeObject
          · subst ho
            rw [if_pos rfl]
            constructor
            · intro h
              have h1 := (hsym i o).1 h
              have h2 := (hsym id o).1 ⟨hslot, h.2⟩
              rw [h1] at h2
              exact absurd (Option.some.inj h2) hi
            · intro h
              exact absurd h (by simp)
          · rw [if_neg ho]
            exact hsym i o
      · unfold NodesSized at hsz ⊢
        simp only [List.length_set]
        exact hsz

theorem step_keeps_symmetry (s : SimpleGraphObserver) (op : Op)
    (hsym : NodeSymmetric s) (hsz : NodesSized s) (hfresh : freshCreates s [op] = true) :
    NodeSymmetric (step s op).state ∧ NodesSized (step s op).state := by
  cases op with
  | createNode o =>
    simp only [freshCreates, Bool.and_true, Bool.and_eq_true, decide_eq_true_eq] at hfresh
    have hfree : mapFind s.objectsToNodes_ o = none := by
      cases hm : mapFind s.objectsToNodes_ o with
      | none => rfl
      | some v =>
        rw [hm] at hfresh
        exact absurd hfresh.2 (by simp)
    exact createNode_keeps_symmetry s o hsym hsz hfresh.1 hfree
  | link a b e =>
    obtain ⟨h1, h2, h3⟩ := link_node_frame s a b e
    unfold NodeSymmetric NodesSized at *
    simp only [step]
    rw [h1, h2, h3]
    exact ⟨hsym, hsz⟩
  | unlink a b =>
    obtain ⟨h1, h2, h3⟩ := unlink_node_frame s a b
    unfold NodeSymmetric NodesSized at *
    simp only [step]
    rw [h1, h2, h3]
    exact ⟨hsym, hsz⟩
  | deletedNodesUpdate ids =>
    exact deletedNodesUpdate_keeps_symmetry ids s hsym hsz

theorem run_keeps_symmetry (ops : List Op) :
    ∀ s : SimpleGraphObserver, NodeSymmetric s → NodesSized s → freshCreates s ops = true →
      NodeSymmetric (run s ops) ∧ NodesSized (run s ops) := by
  induction ops with
  | nil =>
    intro s hsym hsz _
    exact ⟨hsym, hsz⟩
  | cons op ops ih =>
    intro s hsym hsz hfresh
    have hsplit : freshCreates s [op] = true ∧ freshCreates (step s op).state ops = true := by
      simp only [freshCreates, Bool.and_true, Bool.and_eq_true] at hfresh ⊢
      exact hfresh
    obtain ⟨h1, h2⟩ := step_keeps_symmetry s op hsym hsz hsplit.1
    exact ih _ h1 h2 hsplit.2

theorem freshCreates_take (ops : List Op) :
    ∀ (s : SimpleGraphObserver) (k : Nat), freshCreates s ops = true →
      freshCreates s (ops.take k) = true := by
  induction ops with
  | nil =>
    intro s k h
    simpa using h
  | cons op ops ih =>
    intro s k h
    cases k with
    | zero => rfl
    | succ k =>
      simp only [List.take_succ_cons, freshCreates, Bool.and_eq_true] at h ⊢
      exact ⟨h.1, ih _ k h.2⟩

theorem new_symmetric (directed : Bool) :
    NodeSymmetric (SimpleGraphObserver.new directed)
      ∧ NodesSized (SimpleGraphObserver.new directed) := by
  refine ⟨?_, Nat.le_refl _⟩
  intro i o
  simp only [SimpleGraphObserver.new, slot, mapFind, List.getD_nil]
  constructor
  · rintro ⟨h, hne⟩
    exact absurd h.symm hne
  · intro h
    exact absurd h (by simp)

/-- C1 (counterexample): `createNode(10); createNode(10)` on a new observer.  Both calls
return; afterwards forward slot 0 holds the non-tombstone object 10 while the reverse node
table maps 10 to 1, so the node tables are not symmetric. -/
theorem createNode_twice_breaks_symmetry :
    run (SimpleGraphObserver.new false) [.createNode 10, .createNode 10]
        = (oneNode.createNode 10).state
      ∧ (oneNode.createNode 10).returned = true
      ∧ (oneNode.createNode 10).state.nodesToObjects_ = [10, 10]
      ∧ (oneNode.createNode 10).state.objectsToNodes_ = [(10, 1)]
      ∧ ¬ NodeSymmetric
          (run (SimpleGraphObserver.new false) [.createNode 10, .createNode 10]) := by
  refine ⟨by decide, by decide, by decide, by decide, ?_⟩
  intro h
  exact absurd ((h 0 10).1 (by decide)) (by decide)

/-- C1 (amended): for every sequence of `createNode`, `link`, `unlink` calls and
`deletedNodesUpdate` notifications applied to a freshly constructed observer in which every
`createNode` is given a non-null object that has no entry in the reverse node table when the
call is made, the node tables are symmetric after each operation (after every initial part
of the sequence, calls that throw included). -/
theorem node_tables_symmetric_along_run (directed : Bool) (ops : List Op) (k : Nat)
    (hfresh : freshCreates (SimpleGraphObserver.new directed) ops = true) :
    NodeSymmetric (run (SimpleGraphObserver.new directed) (ops.take k)) :=
  (run_keeps_symmetry (ops.take k) _ (new_symmetric directed).1 (new_symmetric directed).2
    (freshCreates_take ops _ k hfresh)).1

theorem node_tables_symmetric_along_run_witness :
    freshCreates (SimpleGraphObserver.new false)
        [.createNode 10, .createNode 20, .link 10 20 30, .deletedNodesUpdate [0],
          .createNode 10, .unlink 10 20, .deletedNodesUpdate [7]] = true
      ∧ NodeSymmetric (run (SimpleGraphObserver.new false)
          ([Op.createNode 10, .createNode 20, .link 10 20 30, .deletedNodesUpdate [0],
            .createNode 10, .unlink 10 20, .deletedNodesUpdate [7]].take 5)) :=
  ⟨by decide, node_tables_symmetric_along_run false _ 5 (by decide)⟩

/-! ## `forgetNode` and `forgetEdge` -/

/-- C11: evaluation at `createNode(10); forgetNode(99)` and at
`createNode(10); createNode(20); link(10, 20, 30); forgetEdge(99)`.  Object 99 has no entry in
the reverse tables.  Neither function compares the iterator that `find` returns with
`end()`: no not-associated exception is thrown, the calls dereference `end()` and have no
defined behaviour. -/
theorem forget_unbound_object_unchecked :
    mapFind oneNode.objectsToNodes_ 99 = none
      ∧ oneNode.forgetNode 99 = none
      ∧ mapFind edgeBound.objectsToEdges_ 99 = none
      ∧ edgeBound.forgetEdge 99 = none := by
  decide

/-- C12: evaluation at `createNode(10); createNode(20); forgetNode(10)`.  Object 10 is bound
to id 0 and 20 to id 1.  The call removes 10 from the reverse table and leaves the Graph Core
alone, but it erases element 0 of the forward table instead of clearing it: the table
shrinks from length 2 to 1, slot 0 now holds 20 rather than a tombstone, and object 20, still
mapped to id 1 by the reverse table, is no longer found at index 1. -/
theorem forgetNode_shifts_forward_table :
    (mapFind twoNodes.objectsToNodes_ 10 = some 0 ∧ twoNodes.nodesToObjects_ = [10, 20])
      ∧ (twoNodes.forgetNode 10).isSome = true
      ∧ (twoNodes.forgetNode 10).map (fun s => s.objectsToNodes_) = some [(20, 1)]
      ∧ (twoNodes.forgetNode 10).map (fun s => s.subjectGraph_) = some twoNodes.subjectGraph_
      ∧ (twoNodes.forgetNode 10).map (fun s => s.nodesToObjects_) = some [20]
      ∧ (twoNodes.forgetNode 10).map (fun s => s.nodesToObjects_.length) = some 1
      ∧ (twoNodes.forgetNode 10).map (fun s => slot s.nodesToObjects_ 0) = some 20
      ∧ (twoNodes.forgetNode 10).map (fun s => slot s.nodesToObjects_ 1) = some null := by
  decide

theorem unboundFirst_symmetric : NodeSymmetric unboundFirst := by
  intro i o
  have hf : unboundFirst.nodesToObjects_ = [0, 20] := by decide
  have hr : unboundFirst.objectsToNodes_ = [(20, 1)] := by decide
  rw [hf, hr]
  rcases i with _ | _ | i <;> simp [slot, mapFind, null] <;>
    (rintro rfl; first | rfl | decide)

/-- C13: evaluation at the symmetric state with forward table `[tombstone, 20]`, where node
id 0 exists in the Graph Core with an empty slot and object 10 is unbound.
`associateNode(10, 0)` followed by `forgetNode(10)` gives back the original reverse table, but
the forward table is `[20]`: it is shorter, not longer, than the original, slot 0 holds 20
instead of a tombstone and slot 1 no longer holds 20. -/
theorem associate_then_forget_shifts :
    (NodeSymmetric unboundFirst
      ∧ 0 < unboundFirst.subjectGraph_.nodeCount
      ∧ slot unboundFirst.nodesToObjects_ 0 = null
      ∧ mapFind unboundFirst.objectsToNodes_ 10 = none
      ∧ unboundFirst.nodesToObjects_ = [null, 20])
    ∧ (unboundFirst.associateNode 10 0).returned = true
    ∧ ((unboundFirst.associateNode 10 0).state.forgetNode 10).isSome = true
    ∧ ((unboundFirst.associateNode 10 0).state.forgetNode 10).map (fun s => s.objectsToNodes_)
        = some unboundFirst.objectsToNodes_
    ∧ ((unboundFirst.associateNode 10 0).state.forgetNode 10).map (fun s => s.nodesToObjects_)
        = some [20]
    ∧ ((unboundFirst.associateNode 10 0).state.forgetNode 10).map
          (fun s => slot s.nodesToObjects_ 1) = some null
    ∧ slot unboundFirst.nodesToObjects_ 1 = 20 :=
  ⟨⟨unboundFirst_symmetric, by decide, by decide, by decide, by decide⟩, by decide, by decide,
    by decide, by decide, by decide, by decide⟩

/-! ## Queries -/

/-- C16: evaluation at a directed observer in which 10 is bound to node 0, node 1 (created in
the Graph Core, edge `0 -> 1`) has no bound object and its slot is a tombstone.  The Graph
Core reports `[1]` as the outgoing neighbours of node 0; `getOutgoingNeighbors(10)` returns
the one-element list holding the null pointer: the unbound neighbour is not skipped. -/
theorem getOutgoingNeighbors_returns_null_entry :
    (mapFind unboundNeighbor.objectsToNodes_ 10 = some 0
      ∧ unboundNeighbor.subjectGraph_.getOutgoingNeighbors 0 = some [1]
      ∧ unboundNeighbor.nodesToObjects_ = [10, null, 30])
    ∧ unboundNeighbor.getOutgoingNeighbors 10 = .value [null] := by
  decide

/-- C17 (counterexample): after `createNode(10); createNode(20)` the object 30 has no entry
in the reverse node table; `getOutgoingNeighbors(30)` throws the `std::out_of_range` of
`objectsToNodes_.at`, not the not-associated exception that `link` and `unlink` throw for an
unbound object. -/
theorem getOutgoingNeighbors_unbound_out_of_range :
    mapFind twoNodes.objectsToNodes_ 30 = none
      ∧ twoNodes.getOutgoingNeighbors 30 = .throws .outOfRange
      ∧ twoNodes.getOutgoingNeighbors 30 ≠ .throws .notAssociated
      ∧ twoNodes.link 30 10 null = .throws .notAssociated twoNodes := by
  decide

/-- C17 (amended): a neighbour query on an unbound object fails instead of returning a list.
For every object `obj` without an entry in the reverse node table `getOutgoingNeighbors(obj)`
throws the out-of-range error of the lookup `objectsToNodes_.at(obj)`.  In particular, from
any state, `createNode(obj)` returns, the following `forgetNode(obj)` is well defined, and
`getOutgoingNeighbors(obj)` then throws that error. -/
theorem getOutgoingNeighbors_unbound_throws (s : SimpleGraphObserver) (obj : Ptr) :
    (mapFind s.objectsToNodes_ obj = none → s.getOutgoingNeighbors obj = .throws .outOfRange)
    ∧ (∃ s1 s2, s.createNode obj = .ok s1 ∧ s1.forgetNode obj = some s2
        ∧ mapFind s2.objectsToNodes_ obj = none
        ∧ s2.getOutgoingNeighbors obj = .throws .outOfRange) := by
  have hthrow : ∀ t : SimpleGraphObserver, mapFind t.objectsToNodes_ obj = none →
      t.getOutgoingNeighbors obj = .throws .outOfRange := by
    intro t ht
    unfold SimpleGraphObserver.getOutgoingNeighbors
    rw [ht]
  refine ⟨hthrow s, ?_⟩
  have hforget : ∀ s1 : SimpleGraphObserver,
      mapFind s1.objectsToNodes_ obj = some s.subjectGraph_.nodeCount →
      s.subjectGraph_.nodeCount < s1.nodesToObjects_.length →
      s1.forgetNode obj = some { s1 with
        nodesToObjects_ := s1.nodesToObjects_.eraseIdx s.subjectGraph_.nodeCount
        objectsToNodes_ := mapErase s1.objectsToNodes_ obj } := by
    intro s1 h1 h2
    unfold SimpleGraphObserver.forgetNode
    rw [h1]
    simp only []
    rw [if_pos h2]
  refine ⟨_, _, createNode_eq s obj, hforget _ ?_ ?_, ?_, ?_⟩
  · simp only []
    rw [mapFind_mapSet, if_pos rfl]
  · simp only [List.length_set, length_resize]
    exact Nat.lt_succ_self _
  · simp only []
    rw [mapFind_mapErase, if_pos rfl]
  · apply hthrow
    simp only []
    rw [mapFind_mapErase, if_pos rfl]

theorem getOutgoingNeighbors_unbound_throws_witness :
    mapFind oneNode.objectsToNodes_ 20 = none
      ∧ oneNode.getOutgoingNeighbors 20 = .throws .outOfRange :=
  ⟨by decide, (getOutgoingNeighbors_unbound_throws oneNode 20).1 (by decide)⟩

theorem keepDefined_eq_filter (v : List Ptr) :
    SimpleGraphObserver.keepDefined v = v.filter fun p => decide (p ≠ null) := by
  induction v with
  | nil => rfl
  | cons a t ih =>
    by_cases ha : a ≠ null
    · simp [SimpleGraphObserver.keepDefined, ha, ih]
    · simp [SimpleGraphObserver.keepDefined, ha, ih]

theorem map_slot_range (v : List Ptr) : (List.range v.length).map (slot v) = v := by
  apply List.ext_getElem?
  intro i
  by_cases hi : i < v.length
  · simp [hi, slot, List.getD_eq_getElem?_getD, List.getElem?_eq_getElem hi]
  · have hle : v.length ≤ i := by omega
    simp [hi, List.getElem?_eq_none hle, hle]

/-- C19: `getNodes()` returns exactly the objects held in the non-tombstone node forward
slots (an object is listed if and only if some slot holds it and it is not null), listed in
ascending order of the node id of their slot; being a function of the forward table alone,
it leaves the observer as it is. -/
theorem getNodes_lists_bound_objects (s : SimpleGraphObserver) :
    s.getNodes = boundObjectsById s
      ∧ (∀ o, o ∈ s.getNodes ↔ ∃ i : Nat, s.nodesToObjects_[i]? = some o ∧ o ≠ null) := by
  have hfilter : s.getNodes = s.nodesToObjects_.filter fun p => decide (p ≠ null) :=
    keepDefined_eq_filter _
  refine ⟨?_, ?_⟩
  · rw [hfilter]
    unfold boundObjectsById
    conv_lhs => rw [← map_slot_range s.nodesToObjects_]
    rw [List.filter_map]
    rfl
  · intro o
    rw [hfilter, List.mem_filter, List.mem_iff_getElem?]
    simp only [decide_eq_true_eq]
    constructor
    · rintro ⟨⟨i, hi⟩, ho⟩
      exact ⟨i, hi, ho⟩
    · rintro ⟨i, hi, ho⟩
      exact ⟨⟨i, hi⟩, ho⟩

/-! ## Deletion notifications -/

theorem deletedNodesUpdate_eq_clearAll (ids : List Nat) :
    ∀ s : SimpleGraphObserver, s.deletedNodesUpdate ids =
      match clearAll s.nodesToObjects_ s.objectsToNodes_ ids with
      | .ok t => .ok { s with nodesToObjects_ := t.1, objectsToNodes_ := t.2 }
      | .throws e t => .throws e { s with nodesToObjects_ := t.1, objectsToNodes_ := t.2 } := by
  induction ids with
  | nil =>
    intro s
    rfl
  | cons id rest ih =>
    intro s
    unfold SimpleGraphObserver.deletedNodesUpdate clearAll
    cases hget : s.nodesToObjects_[id]? with
    | none => rfl
    | some o =>
      simp only []
      rw [ih]

theorem deletedEdgesUpdate_eq_clearAll (ids : List Nat) :
    ∀ s : SimpleGraphObserver, s.deletedEdgesUpdate ids =
      match clearAll s.edgesToObjects_ s.objectsToEdges_ ids with
      | .ok t => .ok { s with edgesToObjects_ := t.1, objectsToEdges_ := t.2 }
      | .throws e t => .throws e { s with edgesToObjects_ := t.1, objectsToEdges_ := t.2 } := by
  induction ids with
  | nil =>
    intro s
    rfl
  | cons id rest ih =>
    intro s
    unfold SimpleGraphObserver.deletedEdgesUpdate clearAll
    cases hget : s.edgesToObjects_[id]? with
    | none => rfl
    | some o =>
      simp only []
      rw [ih]

theorem clearAll_covered (ids : List Nat) :
    ∀ (fwd : List Ptr) (rev : PtrMap), (∀ id ∈ ids, id < fwd.length) →
      ∃ f r, clearAll fwd rev ids = .ok (f, r)
        ∧ f.length = fwd.length
        ∧ (∀ j, (j ∈ ids ∨ slot fwd j = null) → slot f j = null)
        ∧ (∀ j, j ∉ ids → slot f j = slot fwd j) := by
  induction ids with
  | nil =>
    intro fwd rev _
    refine ⟨fwd, rev, rfl, rfl, ?_, fun _ _ => rfl⟩
    intro j hj
    rcases hj with hj | hj
    · exact absurd hj (List.not_mem_nil j)
    · exact hj
  | cons id rest ih =>
    intro fwd rev hcov
    have hid : id < fwd.length := hcov id (List.mem_cons_self id rest)
    have hrest : ∀ i ∈ rest, i < (fwd.set id null).length := by
      intro i hi
      rw [List.length_set]
      exact hcov i (List.mem_cons_of_mem id hi)
    obtain ⟨f, r, hrun, hlen, hnull, hkeep⟩ := ih (fwd.set id null) (mapErase rev fwd[id]) hrest
    refine ⟨f, r, ?_, ?_, ?_, ?_⟩
    · unfold clearAll
      rw [List.getElem?_eq_getElem hid]
      exact hrun
    · rw [hlen, List.length_set]
    · intro j hj
      apply hnull
      by_cases hji : j = id
      · right
        rw [slot_set, if_pos ⟨hji, hid⟩]
      · rcases hj with hj | hj
        · rcases List.mem_cons.1 hj with h | h
          · exact absurd h hji
          · exact Or.inl h
        · right
          rw [slot_set, if_neg (fun h => hji h.1)]
          exact hj
    · intro j hj
      have hji : j ≠ id := fun h => hj (h ▸ List.mem_cons_self id rest)
      have hjr : j ∉ rest := fun h => hj (List.mem_cons_of_mem id h)
      rw [hkeep j hjr, slot_set, if_neg (fun h => hji h.1)]

theorem clear_slot_symmetric (fwd : List Ptr) (rev : PtrMap) (id : Nat) (obj : Ptr)
    (hsym : ∀ (i : Nat) (o : Ptr), (slot fwd i = o ∧ o ≠ null) ↔ mapFind rev o = some i)
    (hget : fwd[id]? = some obj) :
    ∀ (i : Nat) (o : Ptr),
      (slot (fwd.set id null) i = o ∧ o ≠ null) ↔ mapFind (mapErase rev obj) o = some i := by
  have hlt : id < fwd.length := by
    by_contra hge
    rw [List.getElem?_eq_none (by omega)] at hget
    exact absurd hget (by simp)
  have hslot : slot fwd id = obj := slot_of_getElem? _ _ _ hget
  intro i o
  rw [slot_set, mapFind_mapErase]
  by_cases hi : i = id
  · rw [if_pos ⟨hi, hlt⟩]
    constructor
    · rintro ⟨h, hne⟩
      exact absurd h.symm hne
    · intro h
      by_cases ho : o = obj
      · rw [if_pos ho] at h
        exact absurd h (by simp)
      · rw [if_neg ho] at h
        have h' := (hsym i o).2 h
        rw [hi, hslot] at h'
        exact absurd h'.1.symm ho
  · rw [if_neg (fun h => hi h.1)]
    by_cases ho : o = obj
    · rw [if_pos ho]
      constructor
      · intro h
        have h1 := (hsym i o).1 h
        have h2 := (hsym id o).1 ⟨hslot.trans ho.symm, h.2⟩
        rw [h1] at h2
        exact absurd (Option.some.inj h2) hi
      · intro h
        exact absurd h (by simp)
    · rw [if_neg ho]
      exact hsym i o

theorem clearAll_symmetric (ids : List Nat) :
    ∀ (fwd : List Ptr) (rev : PtrMap),
      (∀ (i : Nat) (o : Ptr), (slot fwd i = o ∧ o ≠ null) ↔ mapFind rev o = some i) →
      ∀ (i : Nat) (o : Ptr),
        (slot (clearAll fwd rev ids).state.1 i = o ∧ o ≠ null)
          ↔ mapFind (clearAll fwd rev ids).state.2 o = some i := by
  induction ids with
  | nil =>
    intro fwd rev hsym
    exact hsym
  | cons id rest ih =>
    intro fwd rev hsym
    unfold clearAll
    cases hget : fwd[id]? with
    | none => exact hsym
    | some obj => exact ih _ _ (clear_slot_symmetric fwd rev id obj hsym hget)

theorem mapErase_of_mapFind_none (m : PtrMap) (k : Ptr) (h : mapFind m k = none) :
    mapErase m k = m := by
  induction m with
  | nil => rfl
  | cons p m ih =>
    obtain ⟨a, b⟩ := p
    by_cases hak : a = k
    · simp [mapFind, hak] at h
    · simp only [mapFind, if_neg hak] at h
      simp only [mapErase, if_neg hak, ih h]

theorem set_of_getElem? (v : List Ptr) (i : Nat) (x : Ptr) (h : v[i]? = some x) :
    v.set i x = v := by
  apply List.ext_getElem?
  intro j
  rw [List.getElem?_set]
  by_cases hij : i = j
  · subst hij
    have hlt : i < v.length := by
      by_contra hge
      rw [List.getElem?_eq_none (by omega)] at h
      exact absurd h (by simp)
    rw [if_pos rfl, if_pos hlt, h]
  · rw [if_neg hij]

theorem clearAll_skip (fwd : List Ptr) (rev : PtrMap) (id : Nat) (rest : List Nat)
    (hsym : ∀ (i : Nat) (o : Ptr), (slot fwd i = o ∧ o ≠ null) ↔ mapFind rev o = some i)
    (hid : id < fwd.length) (hnull : slot fwd id = null) :
    clearAll fwd rev (id :: rest) = clearAll fwd rev rest := by
  have hget : fwd[id]? = some null := by
    rw [List.getElem?_eq_getElem hid]
    have hs : slot fwd id = fwd[id] := slot_of_getElem? _ _ _ (List.getElem?_eq_getElem hid)
    rw [← hs, hnull]
  have hnokey : mapFind rev null = none := by
    cases hm : mapFind rev null with
    | none => rfl
    | some i => exact absurd rfl ((hsym i null).2 hm).2
  conv_lhs => unfold clearAll
  rw [hget]
  simp only []
  rw [set_of_getElem? _ _ _ hget, mapErase_of_mapFind_none _ _ hnokey]

theorem no_entry_of_tombstone (fwd : List Ptr) (rev : PtrMap) (id : Nat)
    (hsym : ∀ (i : Nat) (o : Ptr), (slot fwd i = o ∧ o ≠ null) ↔ mapFind rev o = some i)
    (hnull : slot fwd id = null) (o : Ptr) : mapFind rev o ≠ some id := by
  intro h
  have h' := (hsym id o).2 h
  rw [hnull] at h'
  exact h'.2 h'.1.symm

theorem edgeBound_symmetric : NodeSymmetric edgeBound ∧ EdgeSymmetric edgeBound := by
  have he : edgeBound.edgesToObjects_ = [30] := by decide
  have hre : edgeBound.objectsToEdges_ = [(30, 0)] := by decide
  refine ⟨?_, ?_⟩
  · have hrun : run (SimpleGraphObserver.new false)
        [.createNode 10, .createNode 20, .link 10 20 30] = edgeBound := by decide
    have h := (run_keeps_symmetry [.createNode 10, .createNode 20, .link 10 20 30]
      (SimpleGraphObserver.new false) (new_symmetric false).1 (new_symmetric false).2
      (by decide)).1
    rw [hrun] at h
    exact h
  · intro i o
    rw [he, hre]
    rcases i with _ | i <;> simp [slot, mapFind, null] <;>
      (rintro rfl; first | rfl | decide)

/-- C14: in an observer state whose node and edge tables are symmetric, for every batch of
ids covered by the forward table, `deletedNodesUpdate(ids)` (resp. `deletedEdgesUpdate`)
returns; afterwards every id of the batch has a tombstone forward slot and the reverse table
maps no object to an id of the batch.  An id whose slot is already a tombstone is a no-op:
the handler behaves on `id :: rest` as on `rest`. -/
theorem deletion_updates_unbind_batch (s : SimpleGraphObserver) (nodeIds edgeIds : List Nat)
    (hn : NodeSymmetric s) (he : EdgeSymmetric s)
    (hcn : ∀ id ∈ nodeIds, id < s.nodesToObjects_.length)
    (hce : ∀ id ∈ edgeIds, id < s.edgesToObjects_.length) :
    (∃ s', s.deletedNodesUpdate nodeIds = .ok s'
        ∧ (∀ id ∈ nodeIds, slot s'.nodesToObjects_ id = null)
        ∧ (∀ id ∈ nodeIds, ∀ o, mapFind s'.objectsToNodes_ o ≠ some id))
    ∧ (∃ s', s.deletedEdgesUpdate edgeIds = .ok s'
        ∧ (∀ id ∈ edgeIds, slot s'.edgesToObjects_ id = null)
        ∧ (∀ id ∈ edgeIds, ∀ o, mapFind s'.objectsToEdges_ o ≠ some id))
    ∧ (∀ id rest, id < s.nodesToObjects_.length → slot s.nodesToObjects_ id = null →
        s.deletedNodesUpdate (id :: rest) = s.deletedNodesUpdate rest)
    ∧ (∀ id rest, id < s.edgesToObjects_.length → slot s.edgesToObjects_ id = null →
        s.deletedEdgesUpdate (id :: rest) = s.deletedEdgesUpdate rest) := by
  refine ⟨?_, ?_, ?_, ?_⟩
  · obtain ⟨f, r, hrun, _, hnull, _⟩ :=
      clearAll_covered nodeIds s.nodesToObjects_ s.objectsToNodes_ hcn
    have hsym := clearAll_symmetric nodeIds s.nodesToObjects_ s.objectsToNodes_ hn
    rw [hrun] at hsym
    refine ⟨{ s with nodesToObjects_ := f, objectsToNodes_ := r }, ?_, ?_, ?_⟩
    · rw [deletedNodesUpdate_eq_clearAll, hrun]
    · intro id hid
      exact hnull id (Or.inl hid)
    · intro id hid o
      exact no_entry_of_tombstone f r id hsym (hnull id (Or.inl hid)) o
  · obtain ⟨f, r, hrun, _, hnull, _⟩ :=
      clearAll_covered edgeIds s.edgesToObjects_ s.objectsToEdges_ hce
    have hsym := clearAll_symmetric edgeIds s.edgesToObjects_ s.objectsToEdges_ he
    rw [hrun] at hsym
    refine ⟨{ s with edgesToObjects_ := f, objectsToEdges_ := r }, ?_, ?_, ?_⟩
    · rw [deletedEdgesUpdate_eq_clearAll, hrun]
    · intro id hid
      exact hnull id (Or.inl hid)
    · intro id hid o
      exact no_entry_of_tombstone f r id hsym (hnull id (Or.inl hid)) o
  · intro id rest hid hnull
    rw [deletedNodesUpdate_eq_clearAll, deletedNodesUpdate_eq_clearAll,
      clearAll_skip _ _ id rest hn hid hnull]
  · intro id rest hid hnull
    rw [deletedEdgesUpdate_eq_clearAll, deletedEdgesUpdate_eq_clearAll,
      clearAll_skip _ _ id rest he hid hnull]

theorem deletion_updates_unbind_batch_witness :
    (NodeSymmetric edgeBound ∧ EdgeSymmetric edgeBound
      ∧ (∀ id ∈ [1, 0, 1], id < edgeBound.nodesToObjects_.length)
      ∧ (∀ id ∈ [0], id < edgeBound.edgesToObjects_.length))
    ∧ (∃ s', edgeBound.deletedNodesUpdate [1, 0, 1] = .ok s'
        ∧ (∀ id ∈ [1, 0, 1], slot s'.nodesToObjects_ id = null)
        ∧ (∀ id ∈ [1, 0, 1], ∀ o, mapFind s'.objectsToNodes_ o ≠ some id))
    ∧ (∃ s', edgeBound.deletedEdgesUpdate [0] = .ok s'
        ∧ (∀ id ∈ [0], slot s'.edgesToObjects_ id = null)
        ∧ (∀ id ∈ [0], ∀ o, mapFind s'.objectsToEdges_ o ≠ some id)) :=
  have h := deletion_updates_unbind_batch edgeBound [1, 0, 1] [0] edgeBound_symmetric.1
    edgeBound_symmetric.2 (by decide) (by decide)
  ⟨⟨edgeBound_symmetric.1, edgeBound_symmetric.2, by decide, by decide⟩, h.1, h.2.1⟩

/-- C15 (counterexample): a notified id outside the forward table makes the handler throw.
In the observer that bound 10 to node 0, node 1 exists in the Graph Core and was never bound
here: `deletedNodesUpdate([1])` throws `std::out_of_range`.  In the observer whose shared graph
holds edge 0, never bound here, `deletedEdgesUpdate([0])` throws as well. -/
theorem deletion_update_uncovered_id_throws :
    (1 ∈ graphNodeAdded.subjectGraph_.nodes ∧ graphNodeAdded.nodesToObjects_ = [10]
      ∧ graphNodeAdded.deletedNodesUpdate [1] = .throws .outOfRange graphNodeAdded)
    ∧ (sharedGraph.subjectGraph_.edges = [⟨0, 0, 1⟩] ∧ sharedGraph.edgesToObjects_ = []
      ∧ sharedGraph.deletedEdgesUpdate [0] = .throws .outOfRange sharedGraph) := by
  decide

/-- C15 (amended): the deletion-notification handlers never fail on ids that the forward
table covers.  For every observer state and every batch of ids below the length of the
forward table, whether or not the ids were ever bound to an object in this observer,
`deletedNodesUpdate` and `deletedEdgesUpdate` process every id of the batch (each ends with a
tombstone slot) and return normally, keeping the table length. -/
theorem deletion_updates_return_on_covered_ids (s : SimpleGraphObserver)
    (nodeIds edgeIds : List Nat)
    (hcn : ∀ id ∈ nodeIds, id < s.nodesToObjects_.length)
    (hce : ∀ id ∈ edgeIds, id < s.edgesToObjects_.length) :
    (∃ s', s.deletedNodesUpdate nodeIds = .ok s'
        ∧ s'.nodesToObjects_.length = s.nodesToObjects_.length
        ∧ (∀ id ∈ nodeIds, slot s'.nodesToObjects_ id = null))
    ∧ (∃ s', s.deletedEdgesUpdate edgeIds = .ok s'
        ∧ s'.edgesToObjects_.length = s.edgesToObjects_.length
        ∧ (∀ id ∈ edgeIds, slot s'.edgesToObjects_ id = null)) := by
  refine ⟨?_, ?_⟩
  · obtain ⟨f, r, hrun, hlen, hnull, _⟩ :=
      clearAll_covered nodeIds s.nodesToObjects_ s.objectsToNodes_ hcn
    refine ⟨{ s with nodesToObjects_ := f, objectsToNodes_ := r }, ?_, hlen, ?_⟩
    · rw [deletedNodesUpdate_eq_clearAll, hrun]
    · intro id hid
      exact hnull id (Or.inl hid)
  · obtain ⟨f, r, hrun, hlen, hnull, _⟩ :=
      clearAll_covered edgeIds s.edgesToObjects_ s.objectsToEdges_ hce
    refine ⟨{ s with edgesToObjects_ := f, objectsToEdges_ := r }, ?_, hlen, ?_⟩
    · rw [deletedEdgesUpdate_eq_clearAll, hrun]
    · intro id hid
      exact hnull id (Or.inl hid)

theorem deletion_updates_return_on_covered_ids_witness :
    ((∀ id ∈ [1, 1], id < unboundNeighbor.nodesToObjects_.length)
      ∧ (∀ id ∈ [0], id < linkedNodes.edgesToObjects_.length))
    ∧ (∃ s', unboundNeighbor.deletedNodesUpdate [1, 1] = .ok s'
        ∧ s'.nodesToObjects_.length = unboundNeighbor.nodesToObjects_.length
        ∧ (∀ id ∈ [1, 1], slot s'.nodesToObjects_ id = null))
    ∧ (∃ s', linkedNodes.deletedEdgesUpdate [0] = .ok s'
        ∧ s'.edgesToObjects_.length = linkedNodes.edgesToObjects_.length
        ∧ (∀ id ∈ [0], slot s'.edgesToObjects_ id = null)) :=
  ⟨⟨by decide, by decide⟩,
    (deletion_updates_return_on_covered_ids unboundNeighbor [1, 1] [] (by decide)
      (by simp)).1,
    (deletion_updates_return_on_covered_ids linkedNodes [] [0] (by simp) (by decide)).2⟩

/-! ## `getLeaves` and `getNodes` along a run -/

theorem pushDefined_covered (v : List Ptr) (ids : List Nat) (hcov : ∀ id ∈ ids, id < v.length) :
    SimpleGraphObserver.pushDefined v ids
      = .value ((ids.map (slot v)).filter fun p => decide (p ≠ null)) := by
  induction ids with
  | nil => rfl
  | cons id rest ih =>
    have hid : id < v.length := hcov id (List.mem_cons_self id rest)
    have hget : v[id]? = some (slot v id) := by
      rw [List.getElem?_eq_getElem hid]
      rw [slot_of_getElem? v id _ (List.getElem?_eq_getElem hid)]
    unfold SimpleGraphObserver.pushDefined
    rw [hget]
    simp only []
    rw [ih (fun i hi => hcov i (List.mem_cons_of_mem id hi))]
    simp only [List.map_cons]
    by_cases hnull : slot v id ≠ null
    · rw [if_pos hnull, List.filter_cons_of_pos (by simpa using hnull)]
    · rw [if_neg hnull, List.filter_cons_of_neg (by simpa using hnull)]

/-- C18 (counterexample): the observer that bound 10 to node 0 while node 1 and the edge
between 0 and 1 were added to the shared graph by another observer.  The Graph Core leaves are
`[0, 1]`; leaf id 1 has no binding here and lies outside the forward table `[10]`:
`getLeaves()` throws `std::out_of_range` instead of skipping it. -/
theorem getLeaves_uncovered_leaf_throws :
    sharedGraph.subjectGraph_.getLeaves = [0, 1]
      ∧ sharedGraph.nodesToObjects_ = [10]
      ∧ (∀ o, mapFind sharedGraph.objectsToNodes_ o ≠ some 1)
      ∧ sharedGraph.getLeaves = .throws .outOfRange := by
  refine ⟨by decide, by decide, ?_, by decide⟩
  intro o
  have hr : sharedGraph.objectsToNodes_ = [(10, 0)] := by decide
  rw [hr]
  simp [mapFind]

/-- C18 (amended): when the node forward table covers every id returned by the Graph Core
`getLeaves()`, the observer `getLeaves()` returns, in Graph Core order, exactly the objects
bound to those ids, the leaf ids whose slot is a tombstone being skipped without error; and
an observer whose graph has no edge (a single isolated node in particular) returns the empty
list. -/
theorem getLeaves_lists_bound_leaves (s : SimpleGraphObserver)
    (hcov : ∀ id ∈ s.subjectGraph_.getLeaves, id < s.nodesToObjects_.length) :
    s.getLeaves = .value
        ((s.subjectGraph_.getLeaves.map (slot s.nodesToObjects_)).filter
          fun p => decide (p ≠ null))
      ∧ (s.subjectGraph_.edges = [] → s.getLeaves = .value []) := by
  refine ⟨pushDefined_covered _ _ hcov, ?_⟩
  intro hedges
  have hnone : s.subjectGraph_.getLeaves = [] := by
    unfold SimpleGraph.getLeaves SimpleGraph.degree
    rw [hedges]
    simp
  unfold SimpleGraphObserver.getLeaves
  rw [hnone]
  rfl

theorem getLeaves_lists_bound_leaves_witness :
    (∀ id ∈ unboundNeighbor.subjectGraph_.getLeaves, id < unboundNeighbor.nodesToObjects_.length)
      ∧ unboundNeighbor.subjectGraph_.getLeaves = [0, 1]
      ∧ unboundNeighbor.getLeaves = .value [10]
      ∧ oneNode.getLeaves = .value [] :=
  ⟨by decide, by decide,
    (getLeaves_lists_bound_leaves unboundNeighbor (by decide)).1.trans (by decide),
    (getLeaves_lists_bound_leaves oneNode (by decide)).2 (by decide)⟩

theorem run_keeps_binding (ops : List Op) :
    ∀ (s : SimpleGraphObserver) (obj : Ptr) (i : Nat), clientCalls ops = true →
      freshCreates s ops = true → mapFind s.objectsToNodes_ obj = some i →
      mapFind (run s ops).objectsToNodes_ obj = some i := by
  induction ops with
  | nil =>
    intro s obj i _ _ h
    exact h
  | cons op rest ih =>
    intro s obj i hcalls hfresh h
    simp only [freshCreates, Bool.and_eq_true] at hfresh
    cases op with
    | createNode o =>
      simp only [Bool.and_eq_true, decide_eq_true_eq] at hfresh
      have hne : obj ≠ o := by
        intro heq
        rw [heq] at h
        rw [h] at hfresh
        exact absurd hfresh.1.2 (by simp)
      apply ih _ obj i hcalls hfresh.2
      simp only [step]
      rw [createNode_eq]
      simp only [Outcome.state]
      rw [mapFind_mapSet, if_neg hne]
      exact h
    | link a b e =>
      apply ih _ obj i hcalls hfresh.2
      simp only [step]
      rw [(link_node_frame s a b e).2.1]
      exact h
    | unlink a b =>
      apply ih _ obj i hcalls hfresh.2
      simp only [step]
      rw [(unlink_node_frame s a b).2.1]
      exact h
    | deletedNodesUpdate ids => exact absurd hcalls (by simp [clientCalls])

theorem run_binds_created (ops : List Op) :
    ∀ (s : SimpleGraphObserver) (obj : Ptr), clientCalls ops = true →
      freshCreates s ops = true → Op.createNode obj ∈ ops →
      ∃ i, mapFind (run s ops).objectsToNodes_ obj = some i := by
  induction ops with
  | nil =>
    intro s obj _ _ hmem
    exact absurd hmem (List.not_mem_nil _)
  | cons op rest ih =>
    intro s obj hcalls hfresh hmem
    have hrest : clientCalls rest = true := by
      cases op with
      | createNode o => exact hcalls
      | link a b e => exact hcalls
      | unlink a b => exact hcalls
      | deletedNodesUpdate ids => exact absurd hcalls (by simp [clientCalls])
    have hfresh' : freshCreates (step s op).state rest = true := by
      simp only [freshCreates, Bool.and_eq_true] at hfresh
      exact hfresh.2
    rcases List.mem_cons.1 hmem with heq | hin
    · subst heq
      refine ⟨s.subjectGraph_.nodeCount, ?_⟩
      apply run_keeps_binding rest _ obj _ hrest hfresh'
      simp only [step]
      rw [createNode_eq]
      simp only [Outcome.state]
      rw [mapFind_mapSet, if_pos rfl]
    · exact ih _ obj hrest hfresh' hin

theorem count_eq_one_of_unique_index (l : List Ptr) (x : Ptr) :
    ∀ i : Nat, l[i]? = some x → (∀ j : Nat, l[j]? = some x → j = i) → l.count x = 1 := by
  induction l with
  | nil =>
    intro i hi _
    exact absurd hi (by simp)
  | cons a t ih =>
    intro i hi huniq
    cases i with
    | zero =>
      have hax : a = x := by simpa using hi
      subst hax
      have hnot : a ∉ t := by
        intro hmem
        obtain ⟨j, hj⟩ := List.mem_iff_getElem?.1 hmem
        have := huniq (j + 1) (by simpa using hj)
        omega
      rw [List.count_cons_self, List.count_eq_zero.2 hnot]
    | succ i =>
      have hax : a ≠ x := by
        intro hax
        have := huniq 0 (by simp [hax])
        omega
      rw [List.count_cons_of_ne hax.symm]
      apply ih i (by simpa using hi)
      intro j hj
      have := huniq (j + 1) (by simpa using hj)
      omega

/-- C20 (counterexample): after `createNode(10); createNode(10)` on a new observer (client
calls only) `getNodes()` is `[10, 10]`: the object bound via `createNode` occurs twice. -/
theorem createNode_twice_listed_twice :
    clientCalls [.createNode 10, .createNode 10] = true
      ∧ (run (SimpleGraphObserver.new false) [.createNode 10, .createNode 10]).getNodes
          = [10, 10]
      ∧ (run (SimpleGraphObserver.new false) [.createNode 10, .createNode 10]).getNodes.count 10
          = 2 := by
  decide

/-- C20 (amended): in every observer state reached from a fresh observer by `createNode`,
`link` and `unlink` calls in which every `createNode` is given a non-null object that has no
entry in the reverse node table when the call is made, each object that has been bound via
`createNode` occurs exactly once in `getNodes()`. -/
theorem created_objects_listed_once (directed : Bool) (ops : List Op) (obj : Ptr)
    (hcalls : clientCalls ops = true)
    (hfresh : freshCreates (SimpleGraphObserver.new directed) ops = true)
    (hmem : Op.createNode obj ∈ ops) :
    (run (SimpleGraphObserver.new directed) ops).getNodes.count obj = 1 := by
  have hsym := (run_keeps_symmetry ops _ (new_symmetric directed).1 (new_symmetric directed).2
    hfresh).1
  obtain ⟨i, hi⟩ := run_binds_created ops _ obj hcalls hfresh hmem
  have hslot := (hsym i obj).2 hi
  have hget : ∀ j : Nat, (run (SimpleGraphObserver.new directed) ops).nodesToObjects_[j]?
      = some obj → slot (run (SimpleGraphObserver.new directed) ops).nodesToObjects_ j = obj :=
    fun j hj => slot_of_getElem? _ j obj hj
  have hthere : (run (SimpleGraphObserver.new directed) ops).nodesToObjects_[i]? = some obj := by
    by_cases hlt : i < (run (SimpleGraphObserver.new directed) ops).nodesToObjects_.length
    · rw [List.getElem?_eq_getElem hlt]
      rw [← hslot.1, slot_of_getElem? _ i _ (List.getElem?_eq_getElem hlt)]
    · have hnull := slot_of_length_le
        (run (SimpleGraphObserver.new directed) ops).nodesToObjects_ i (by omega)
      rw [hslot.1] at hnull
      exact absurd hnull hslot.2
  have huniq : ∀ j : Nat, (run (SimpleGraphObserver.new directed) ops).nodesToObjects_[j]?
      = some obj → j = i := by
    intro j hj
    have hj' := (hsym j obj).1 ⟨hget j hj, hslot.2⟩
    rw [hi] at hj'
    exact (Option.some.inj hj').symm
  unfold SimpleGraphObserver.getNodes
  rw [keepDefined_eq_filter, List.count_filter (by simpa using hslot.2)]
  exact count_eq_one_of_unique_index _ obj i hthere huniq

theorem created_objects_listed_once_witness :
    (clientCalls [.createNode 10, .createNode 20, .link 10 20 30, .unlink 10 20] = true
      ∧ freshCreates (SimpleGraphObserver.new false)
          [.createNode 10, .createNode 20, .link 10 20 30, .unlink 10 20] = true
      ∧ Op.createNode 20 ∈ [Op.createNode 10, .createNode 20, .link 10 20 30, .unlink 10 20])
    ∧ (run (SimpleGraphObserver.new false)
          [.createNode 10, .createNode 20, .link 10 20 30, .unlink 10 20]).getNodes.count 20
        = 1 :=
  ⟨by decide, created_objects_listed_once false _ 20 (by decide) (by decide) (by decide)⟩

/-! ## `VectorTools` -/

theorem advance_done_le {T : Type} [LinearOrder T] (v : List T) (x : T) (fuel : Nat) :
    ∀ j j', VectorTools.advance v x fuel j = .done j' →
      j ≤ j' ∧ (j ≤ v.length → j' ≤ v.length) := by
  induction fuel with
  | zero =>
    intro j j' h
    exact absurd h (by simp [VectorTools.advance])
  | succ fuel ih =>
    intro j j' h
    unfold VectorTools.advance at h
    split at h
    · cases hget : v[j]? with
      | none =>
        rw [hget] at h
        exact absurd h (by simp)
      | some a =>
        rw [hget] at h
        simp only [] at h
        have hlt : j < v.length := by
          by_contra hge
          rw [List.getElem?_eq_none (by omega)] at hget
          exact absurd hget (by simp)
        split at h
        · obtain ⟨h1, h2⟩ := ih (j + 1) j' h
          exact ⟨by omega, fun _ => h2 (by omega)⟩
        · simp only [VectorTools.Run.done.injEq] at h
          subst h
          exact ⟨Nat.le_refl _, fun hj => hj⟩
    · simp only [VectorTools.Run.done.injEq] at h
      subst h
      exact ⟨Nat.le_refl _, fun hj => hj⟩

theorem advance_finishes {T : Type} [LinearOrder T] (v : List T) (x : T) (fuel : Nat) :
    ∀ j, j ≤ v.length → v.length + 1 ≤ fuel + j →
      VectorTools.advance v x fuel j ≠ .unfinished := by
  induction fuel with
  | zero =>
    intro j hj hfuel
    omega
  | succ fuel ih =>
    intro j hj hfuel
    unfold VectorTools.advance
    split
    · cases hget : v[j]? with
      | none => simp
      | some a =>
        simp only []
        have hlt : j < v.length := by
          by_contra hge
          rw [List.getElem?_eq_none (by omega)] at hget
          exact absurd hget (by simp)
        split
        · exact ih (j + 1) (by omega) (by omega)
        · simp
    · simp

theorem containsAllLoop_finishes {T : Type} [LinearOrder T] (v1 : List T) (rest : List T) :
    ∀ (prev : Option T) (j : Nat), j ≤ v1.length →
      VectorTools.containsAllLoop v1 prev rest j ≠ .unfinished := by
  induction rest with
  | nil =>
    intro prev j _
    simp [VectorTools.containsAllLoop]
  | cons x rest ih =>
    intro prev j hj
    unfold VectorTools.containsAllLoop
    split
    · exact ih _ j hj
    · cases hadv : VectorTools.advance v1 x (v1.length + 1) j with
      | done j' =>
        simp only []
        cases hget : v1[j']? with
        | none => simp
        | some a =>
          simp only []
          split
          · simp
          · exact ih _ j' ((advance_done_le v1 x _ j j' hadv).2 hj)
      | outOfBounds => simp
      | unfinished => exact absurd hadv (advance_finishes v1 x _ j hj (by omega))

theorem diffLoop_finishes {T : Type} [LinearOrder T] (v2 : List T) (rest : List T) :
    ∀ (prev : Option T) (j : Nat) (v3 : List T), j ≤ v2.length →
      VectorTools.diffLoop v2 prev rest j v3 ≠ .unfinished := by
  induction rest with
  | nil =>
    intro prev j v3 _
    simp [VectorTools.diffLoop]
  | cons x rest ih =>
    intro prev j v3 hj
    unfold VectorTools.diffLoop
    split
    · exact ih _ j v3 hj
    · cases hadv : VectorTools.advance v2 x (v2.length + 1) j with
      | done j' =>
        simp only []
        cases hget : v2[j']? with
        | none => simp
        | some a =>
          simp only []
          exact ih _ j' _ ((advance_done_le v2 x _ j j' hadv).2 hj)
      | outOfBounds => simp
      | unfinished => exact absurd hadv (advance_finishes v2 x _ j hj (by omega))

theorem scans_finish {T : Type} [LinearOrder T] (v1 v2 v3 : List T) :
    VectorTools.containsAll v1 v2 ≠ .unfinished ∧ VectorTools.diff v1 v2 v3 ≠ .unfinished :=
  ⟨containsAllLoop_finishes _ _ none 0 (Nat.zero_le _),
    diffLoop_finishes _ _ none 0 _ (Nat.zero_le _)⟩

/-- C26: evaluation of `append` on the two vectors `[1]` and `[2]`.  The call returns `[1]`,
the first vector alone, of length 1; the concatenation of the input vectors is `[1, 2]`, of
length 2.  The loop runs over `vecElementL[0]` only. -/
theorem append_returns_first_vector :
    VectorTools.append ([[1], [2]] : List (List Nat)) = [1]
      ∧ VectorTools.append ([[1], [2]] : List (List Nat)) ≠ [1] ++ [2]
      ∧ (VectorTools.append ([[1], [2]] : List (List Nat))).length ≠ [1].length + [2].length
      ∧ VectorTools.append ([[1, 2], [3], [4, 5]] : List (List Nat)) = [1, 2] := by
  decide

/-- C27: evaluation of `vectorUnion` on `vec1 = [1, 1]`, `vec2 = [2]`.  The result
`[1, 1, 2]` holds the value 1 twice: `unionEl` starts as a copy of `vec1` and only the
elements of `vec2` are tested with `contains`. -/
theorem vectorUnion_keeps_duplicates_of_vec1 :
    VectorTools.vectorUnion ([1, 1] : List Nat) [2] = [1, 1, 2]
      ∧ ¬ (VectorTools.vectorUnion ([1, 1] : List Nat) [2]).Nodup
      ∧ VectorTools.vectorUnion ([1, 1] : List Nat) [] = [1, 1] := by
  decide

/-- C29: evaluation of `containsAll` on an empty `v1` and `v2 = [1]`.  `v1.size() - 1`
wraps to `2^64 - 1`, the loop condition `j < v1.size() - 1` holds at `j = 0`, and `v1[0]`
is read outside the empty vector: the call has no defined value, where the expected answer
is false.  With both vectors empty the loop body is never entered. -/
theorem containsAll_empty_v1_out_of_bounds :
    VectorTools.sizeMinusOne ([] : List Nat) = 2 ^ 64 - 1
      ∧ VectorTools.containsAll ([] : List Nat) [1] = .outOfBounds
      ∧ VectorTools.containsAll ([] : List Nat) [] = .done true
      ∧ VectorTools.containsAll ([3, 1, 2] : List Nat) [1, 4] = .done false := by
  decide

/-- C30: evaluation of `diff` on `v1 = [1]`, an empty `v2` and an empty `v3`.  The first
statement appends `v1` to `v3`, giving `[1]`, and execution continues into the scanning loop,
where `v2.size() - 1` wraps to `2^64 - 1` and `v2[0]` is read outside the empty vector: the
call has no defined result.  With a non-empty `v2` the result is as documented. -/
theorem diff_empty_v2_out_of_bounds :
    VectorTools.appendTo ([] : List Nat) [1] = [1]
      ∧ VectorTools.diff ([1] : List Nat) [] [] = .outOfBounds
      ∧ VectorTools.diff ([3, 1, 2, 3] : List Nat) [2, 5] [] = .done [1, 3] := by
  decide

/-! ## `createNode` with an origin, and the chain example -/

theorem link_ok (s : SimpleGraphObserver) (a b e : Ptr) (ia ib : Nat)
    (ha : mapFind s.objectsToNodes_ a = some ia) (hb : mapFind s.objectsToNodes_ b = some ib)
    (hguard : ¬ (e ≠ null ∧ (mapFind s.objectsToEdges_ e).isSome = true))
    (hla : ia ∈ s.subjectGraph_.nodes) (hlb : ib ∈ s.subjectGraph_.nodes) :
    ∃ s', s.link a b e = .ok s'
      ∧ s'.nodesToObjects_ = s.nodesToObjects_
      ∧ s'.objectsToNodes_ = s.objectsToNodes_
      ∧ s'.subjectGraph_ = { s.subjectGraph_ with
          edgeCount := s.subjectGraph_.edgeCount + 1
          edges := s.subjectGraph_.edges ++ [⟨s.subjectGraph_.edgeCount, ia, ib⟩] } := by
  have hg : s.subjectGraph_.link ia ib
      = some (s.subjectGraph_.edgeCount,
          { s.subjectGraph_ with
            edgeCount := s.subjectGraph_.edgeCount + 1
            edges := s.subjectGraph_.edges ++ [⟨s.subjectGraph_.edgeCount, ia, ib⟩] }) := by
    unfold SimpleGraph.link
    rw [if_pos ⟨hla, hlb⟩]
  unfold SimpleGraphObserver.link
  rw [ha, hb]
  simp only []
  rw [if_neg hguard, hg]
  simp only []
  by_cases hlen : s.edgesToObjects_.length < s.subjectGraph_.edgeCount + 1
  · rw [if_pos hlen]
    simp only [length_resize]
    rw [if_pos (Nat.lt_succ_self _)]
    exact ⟨_, rfl, rfl, rfl, rfl⟩
  · rw [if_neg hlen]
    simp only []
    rw [if_pos (by omega)]
    exact ⟨_, rfl, rfl, rfl, rfl⟩

theorem chain_state (A B C : Ptr) (hAB : A ≠ B) (hAC : A ≠ C) (hBC : B ≠ C) :
    run (SimpleGraphObserver.new false) [.createNode A, .createNode B, .createNode C]
      = { directed_ := false, edgesToObjects_ := [], nodesToObjects_ := [A, B, C],
          objectsToEdges_ := [], objectsToNodes_ := [(A, 0), (B, 1), (C, 2)],
          subjectGraph_ := { directed := false, nodeCount := 3, edgeCount := 0,
                             nodes := [0, 1, 2], edges := [] } } := by
  simp [run, step, createNode_eq, Outcome.state, SimpleGraphObserver.new, SimpleGraph.empty,
    SimpleGraph.createNode, resize, mapSet, null, hAB, hAC, hBC]


/-- C22: `createNode(obj, originObj)` behaves as `createNode(obj)` followed by
`link(originObj, obj)`.  When `originObj` is bound to an id that is live in the Graph Core,
the call returns; afterwards `obj` is bound to the new node id `n` (reverse entry and forward
slot), the Graph Core has exactly this one more node and one more edge, from the id of
`originObj` to `n`; the id of `originObj` is the one it had before unless `originObj` is
`obj` itself. -/
theorem createNodeLinked_is_create_then_link (s : SimpleGraphObserver) (obj originObj : Ptr)
    (io : Nat) (horigin : mapFind s.objectsToNodes_ originObj = some io)
    (hlive : io ∈ s.subjectGraph_.nodes) :
    s.createNodeLinked obj originObj = createThenLink s obj originObj
    ∧ ∃ s' io', s.createNodeLinked obj originObj = .ok s'
        ∧ mapFind s'.objectsToNodes_ originObj = some io'
        ∧ (originObj ≠ obj → io' = io)
        ∧ mapFind s'.objectsToNodes_ obj = some s.subjectGraph_.nodeCount
        ∧ s'.nodesToObjects_[s.subjectGraph_.nodeCount]? = some obj
        ∧ s'.subjectGraph_.nodeCount = s.subjectGraph_.nodeCount + 1
        ∧ s'.subjectGraph_.nodes = s.subjectGraph_.nodes ++ [s.subjectGraph_.nodeCount]
        ∧ s'.subjectGraph_.edges = s.subjectGraph_.edges
            ++ [⟨s.subjectGraph_.edgeCount, io', s.subjectGraph_.nodeCount⟩] := by
  have hcreate := createNode_eq s obj
  refine ⟨?_, ?_⟩
  · unfold SimpleGraphObserver.createNodeLinked createThenLink
    rw [hcreate]
    rfl
  · unfold SimpleGraphObserver.createNodeLinked
    rw [hcreate]
    simp only []
    have hnull : ∀ (t : SimpleGraphObserver),
        ¬ (null ≠ null ∧ (mapFind t.objectsToEdges_ null).isSome = true) :=
      fun _ h => h.1 rfl
    generalize hs1 : ({ s with
        subjectGraph_ := s.subjectGraph_.createNode.2
        nodesToObjects_ :=
          (resize s.nodesToObjects_ (s.subjectGraph_.nodeCount + 1)).set
            s.subjectGraph_.nodeCount obj
        objectsToNodes_ := mapSet s.objectsToNodes_ obj s.subjectGraph_.nodeCount } :
        SimpleGraphObserver) = s1
    have hf1 : s1.nodesToObjects_ = (resize s.nodesToObjects_ (s.subjectGraph_.nodeCount + 1)).set
        s.subjectGraph_.nodeCount obj := by rw [← hs1]
    have hr1 : s1.objectsToNodes_ = mapSet s.objectsToNodes_ obj s.subjectGraph_.nodeCount := by
      rw [← hs1]
    have hg1 : s1.subjectGraph_ = s.subjectGraph_.createNode.2 := by rw [← hs1]
    have hnodes1 : s1.subjectGraph_.nodes = s.subjectGraph_.nodes ++ [s.subjectGraph_.nodeCount] := by
      rw [hg1]
      rfl
    have hobj : mapFind s1.objectsToNodes_ obj = some s.subjectGraph_.nodeCount := by
      rw [hr1, mapFind_mapSet, if_pos rfl]
    by_cases hsame : originObj = obj
    · obtain ⟨s', h', hf', hr', hg'⟩ := link_ok s1 originObj obj null
        s.subjectGraph_.nodeCount s.subjectGraph_.nodeCount (hsame ▸ hobj) hobj (hnull _)
        (by rw [hnodes1]; simp) (by rw [hnodes1]; simp)
      refine ⟨s', s.subjectGraph_.nodeCount, h', ?_, fun hne => absurd hsame hne, ?_, ?_, ?_, ?_,
        ?_⟩
      · rw [hr', hsame]
        exact hobj
      · rw [hr']
        exact hobj
      · rw [hf', hf1, List.getElem?_set_self (by rw [length_resize]; omega)]
      · rw [hg', hg1]
        rfl
      · rw [hg', hg1]
        rfl
      · rw [hg', hg1]
        rfl
    · have horigin1 : mapFind s1.objectsToNodes_ originObj = some io := by
        rw [hr1, mapFind_mapSet, if_neg hsame]
        exact horigin
      obtain ⟨s', h', hf', hr', hg'⟩ := link_ok s1 originObj obj null
        io s.subjectGraph_.nodeCount horigin1 hobj (hnull _)
        (by rw [hnodes1]; exact List.mem_append_left _ hlive) (by rw [hnodes1]; simp)
      refine ⟨s', io, h', ?_, fun _ => rfl, ?_, ?_, ?_, ?_, ?_⟩
      · rw [hr']
        exact horigin1
      · rw [hr']
        exact hobj
      · rw [hf', hf1, List.getElem?_set_self (by rw [length_resize]; omega)]
      · rw [hg', hg1]
        rfl
      · rw [hg', hg1]
        rfl
      · rw [hg', hg1]
        rfl

theorem createNodeLinked_is_create_then_link_witness :
    (mapFind oneNode.objectsToNodes_ 10 = some 0 ∧ 0 ∈ oneNode.subjectGraph_.nodes)
    ∧ oneNode.createNodeLinked 20 10 = createThenLink oneNode 20 10
    ∧ oneNode.createNodeLinked 20 10 = .ok linkedNodes :=
  ⟨by decide, (createNodeLinked_is_create_then_link oneNode 20 10 0 (by decide) (by decide)).1,
    by decide⟩

/-- C24: in an undirected observer, after `createNode(A)`, `createNode(B)`, `createNode(C)`,
`link(A, B)`, `link(B, C)` (no edge objects) on three distinct non-null objects,
`getLeaves()` returns the two objects `A` and `C` and `getNumberOfLeaves()` returns 2. -/
theorem chain_leaves (A B C : Ptr) (hA : A ≠ null) (hB : B ≠ null) (hC : C ≠ null)
    (hAB : A ≠ B) (hAC : A ≠ C) (hBC : B ≠ C) :
    (run (SimpleGraphObserver.new false)
        [.createNode A, .createNode B, .createNode C, .link A B null, .link B C null]).getLeaves
      = .value [A, C]
    ∧ (run (SimpleGraphObserver.new false)
        [.createNode A, .createNode B, .createNode C, .link A B null,
          .link B C null]).getNumberOfLeaves = .value 2 := by
  have _ := hB
  have hnull : ∀ (t : SimpleGraphObserver),
      ¬ (null ≠ null ∧ (mapFind t.objectsToEdges_ null).isSome = true) :=
    fun _ h => h.1 rfl
  have hsplit : run (SimpleGraphObserver.new false)
      [.createNode A, .createNode B, .createNode C, .link A B null, .link B C null]
      = (((run (SimpleGraphObserver.new false)
          [.createNode A, .createNode B, .createNode C]).link A B null).state.link B C
            null).state := rfl
  rw [hsplit]
  generalize hs3 : run (SimpleGraphObserver.new false)
    [.createNode A, .createNode B, .createNode C] = s3
  have h3 := chain_state A B C hAB hAC hBC
  rw [hs3] at h3
  have hf3 : s3.nodesToObjects_ = [A, B, C] := by rw [h3]
  have hr3 : s3.objectsToNodes_ = [(A, 0), (B, 1), (C, 2)] := by rw [h3]
  have hg3 : s3.subjectGraph_ = ⟨false, 3, 0, [0, 1, 2], []⟩ := by rw [h3]
  obtain ⟨s4, h4, hf4, hr4, hg4⟩ := link_ok s3 A B null 0 1
    (by rw [hr3]; simp [mapFind]) (by rw [hr3]; simp [mapFind, hAB]) (hnull _)
    (by rw [hg3]; simp) (by rw [hg3]; simp)
  rw [hg3] at hg4
  rw [h4]
  simp only [Outcome.state]
  obtain ⟨s5, h5, hf5, hr5, hg5⟩ := link_ok s4 B C null 1 2
    (by rw [hr4, hr3]; simp [mapFind, hAB]) (by rw [hr4, hr3]; simp [mapFind, hAC, hBC])
    (hnull _) (by rw [hg4]; simp) (by rw [hg4]; simp)
  rw [hg4] at hg5
  rw [h5]
  simp only [Outcome.state]
  have hleaves : s5.subjectGraph_.getLeaves = [0, 2] := by
    rw [hg5]
    decide
  have hget : s5.getLeaves = .value [A, C] := by
    unfold SimpleGraphObserver.getLeaves
    rw [hleaves, hf5, hf4, hf3]
    simp [SimpleGraphObserver.pushDefined, hA, hC]
  refine ⟨hget, ?_⟩
  unfold SimpleGraphObserver.getNumberOfLeaves
  rw [hget]
  rfl

theorem chain_leaves_witness :
    ((10 : Ptr) ≠ null ∧ (20 : Ptr) ≠ null ∧ (30 : Ptr) ≠ null
      ∧ (10 : Ptr) ≠ 20 ∧ (10 : Ptr) ≠ 30 ∧ (20 : Ptr) ≠ 30)
    ∧ (run (SimpleGraphObserver.new false)
        [.createNode 10, .createNode 20, .createNode 30, .link 10 20 null,
          .link 20 30 null]).getLeaves = .value [10, 30]
    ∧ (run (SimpleGraphObserver.new false)
        [.createNode 10, .createNode 20, .createNode 30, .link 10 20 null,
          .link 20 30 null]).getNumberOfLeaves = .value 2 :=
  ⟨by decide,
    chain_leaves 10 20 30 (by decide) (by decide) (by decide) (by decide) (by decide)
      (by decide)⟩

/-! ## `getNumberOfNodes` and `getNumberOfLeaves` -/

theorem mapFind_eq_none_iff (m : PtrMap) (k : Ptr) :
    mapFind m k = none ↔ k ∉ m.map Prod.fst := by
  induction m with
  | nil => simp [mapFind]
  | cons p m ih =>
    obtain ⟨a, b⟩ := p
    by_cases hak : a = k
    · simp [mapFind, hak]
    · have hka : ¬ k = a := fun h => hak h.symm
      simp [mapFind, hak, hka, ih]

theorem mem_keys_mapSet (m : PtrMap) (k : Ptr) (v : Nat) (x : Ptr) :
    x ∈ (mapSet m k v).map Prod.fst ↔ x ∈ m.map Prod.fst ∨ x = k := by
  have h1 := mapFind_eq_none_iff (mapSet m k v) x
  have h2 := mapFind_eq_none_iff m x
  rw [mapFind_mapSet] at h1
  by_cases hx : x = k
  · rw [if_pos hx] at h1
    constructor
    · intro _
      exact Or.inr hx
    · intro _
      by_contra hnot
      exact absurd (h1.2 hnot) (by simp)
  · rw [if_neg hx] at h1
    constructor
    · intro hmem
      left
      by_contra hnot
      exact (h1.1 (h2.2 hnot)) hmem
    · rintro (hmem | heq)
      · by_contra hnot
        exact (h2.1 (h1.2 hnot)) hmem
      · exact absurd heq hx

theorem mem_keys_mapErase (m : PtrMap) (k x : Ptr) :
    x ∈ (mapErase m k).map Prod.fst ↔ x ∈ m.map Prod.fst ∧ x ≠ k := by
  have h1 := mapFind_eq_none_iff (mapErase m k) x
  have h2 := mapFind_eq_none_iff m x
  rw [mapFind_mapErase] at h1
  by_cases hx : x = k
  · rw [if_pos hx] at h1
    constructor
    · intro hmem
      exact absurd hmem (h1.1 rfl)
    · rintro ⟨_, hne⟩
      exact absurd hx hne
  · rw [if_neg hx] at h1
    constructor
    · intro hmem
      refine ⟨?_, hx⟩
      by_contra hnot
      exact (h1.1 (h2.2 hnot)) hmem
    · rintro ⟨hmem, _⟩
      by_contra hnot
      exact (h2.1 (h1.2 hnot)) hmem

theorem keys_mapSet_nodup (m : PtrMap) (k : Ptr) (v : Nat)
    (h : (m.map Prod.fst).Nodup) : ((mapSet m k v).map Prod.fst).Nodup := by
  induction m with
  | nil => simp [mapSet]
  | cons p m ih =>
    obtain ⟨a, b⟩ := p
    rw [List.map_cons, List.nodup_cons] at h
    by_cases hak : a = k
    · simp only [mapSet, if_pos hak, List.map_cons, List.nodup_cons]
      exact h
    · simp only [mapSet, if_neg hak, List.map_cons, List.nodup_cons]
      refine ⟨?_, ih h.2⟩
      intro hmem
      rcases (mem_keys_mapSet m k v a).1 hmem with h1 | h1
      · exact h.1 h1
      · exact hak h1

theorem keys_mapErase_nodup (m : PtrMap) (k : Ptr)
    (h : (m.map Prod.fst).Nodup) : ((mapErase m k).map Prod.fst).Nodup := by
  induction m with
  | nil => simp [mapErase]
  | cons p m ih =>
    obtain ⟨a, b⟩ := p
    rw [List.map_cons, List.nodup_cons] at h
    by_cases hak : a = k
    · simp only [mapErase, if_pos hak]
      exact ih h.2
    · simp only [mapErase, if_neg hak, List.map_cons, List.nodup_cons]
      refine ⟨?_, ih h.2⟩
      intro hmem
      exact h.1 ((mem_keys_mapErase m k a).1 hmem).1

theorem clearAll_keys_nodup (ids : List Nat) :
    ∀ (fwd : List Ptr) (rev : PtrMap), (rev.map Prod.fst).Nodup →
      ((clearAll fwd rev ids).state.2.map Prod.fst).Nodup := by
  induction ids with
  | nil =>
    intro fwd rev h
    exact h
  | cons id rest ih =>
    intro fwd rev h
    unfold clearAll
    cases hget : fwd[id]? with
    | none => exact h
    | some o => exact ih _ _ (keys_mapErase_nodup rev o h)

theorem bind_symmetric (fwd : List Ptr) (rev : PtrMap) (n id : Nat) (obj : Ptr)
    (hsym : ∀ (i : Nat) (o : Ptr), (slot fwd i = o ∧ o ≠ null) ↔ mapFind rev o = some i)
    (hlen : fwd.length ≤ n) (hid : id < n) (hempty : slot fwd id = null)
    (hobj : obj ≠ null) (hfree : mapFind rev obj = none) :
    ∀ (i : Nat) (o : Ptr),
      (slot ((resize fwd n).set id obj) i = o ∧ o ≠ null)
        ↔ mapFind (mapSet rev obj id) o = some i := by
  intro i o
  rw [slot_set, slot_resize, mapFind_mapSet, length_resize]
  by_cases hi : i = id
  · subst hi
    rw [if_pos ⟨rfl, hid⟩]
    by_cases ho : o = obj
    · subst ho
      rw [if_pos rfl]
      exact ⟨fun _ => rfl, fun _ => ⟨rfl, hobj⟩⟩
    · rw [if_neg ho]
      constructor
      · rintro ⟨h, _⟩
        exact absurd h.symm ho
      · intro h
        have h' := (hsym _ o).2 h
        rw [hempty] at h'
        exact absurd h'.1.symm h'.2
  · rw [if_neg (fun h => hi h.1)]
    have hslot : (if i < n then slot fwd i else null) = slot fwd i := by
      by_cases hlt : i < n
      · rw [if_pos hlt]
      · rw [if_neg hlt, slot_of_length_le fwd i (by omega)]
    rw [hslot]
    by_cases ho : o = obj
    · subst ho
      rw [if_pos rfl]
      constructor
      · intro h
        have h' := (hsym i o).1 h
        rw [hfree] at h'
        exact absurd h' (by simp)
      · intro h
        exact absurd (Option.some.inj h).symm hi
    · rw [if_neg ho]
      exact hsym i o

theorem reverse_size_eq_bound_count (fwd : List Ptr) (rev : PtrMap)
    (hsym : ∀ (i : Nat) (o : Ptr), (slot fwd i = o ∧ o ≠ null) ↔ mapFind rev o = some i)
    (hkeys : (rev.map Prod.fst).Nodup) :
    rev.length = (SimpleGraphObserver.keepDefined fwd).length := by
  rw [keepDefined_eq_filter]
  have hget : ∀ (j : Nat) (a : Ptr), fwd[j]? = some a → slot fwd j = a :=
    fun j a h => slot_of_getElem? fwd j a h
  have hnodup : (fwd.filter fun p => decide (p ≠ null)).Nodup := by
    rw [List.nodup_iff_count_le_one]
    intro a
    by_cases hmem : a ∈ fwd.filter fun p => decide (p ≠ null)
    · rw [List.mem_filter] at hmem
      have hne : a ≠ null := by simpa using hmem.2
      obtain ⟨i, hi⟩ := List.mem_iff_getElem?.1 hmem.1
      have hfind := (hsym i a).1 ⟨hget i a hi, hne⟩
      have huniq : ∀ j : Nat, fwd[j]? = some a → j = i := by
        intro j hj
        have hj' := (hsym j a).1 ⟨hget j a hj, hne⟩
        rw [hfind] at hj'
        exact (Option.some.inj hj').symm
      rw [List.count_filter (by simpa using hne),
        count_eq_one_of_unique_index fwd a i hi huniq]
    · rw [List.count_eq_zero.2 hmem]
      exact Nat.zero_le _
  have hmem : ∀ a, a ∈ rev.map Prod.fst ↔ a ∈ fwd.filter fun p => decide (p ≠ null) := by
    intro a
    rw [List.mem_filter]
    constructor
    · intro hk
      cases hfind : mapFind rev a with
      | none => exact absurd hk ((mapFind_eq_none_iff rev a).1 hfind)
      | some i =>
        have h := (hsym i a).2 hfind
        refine ⟨?_, by simpa using h.2⟩
        by_cases hlt : i < fwd.length
        · have hs := slot_of_getElem? fwd i _ (List.getElem?_eq_getElem hlt)
          rw [h.1] at hs
          rw [hs]
          exact List.getElem_mem hlt
        · have hs := slot_of_length_le fwd i (by omega)
          rw [h.1] at hs
          exact absurd hs h.2
    · rintro ⟨hin, hne⟩
      have hne' : a ≠ null := by simpa using hne
      obtain ⟨i, hi⟩ := List.mem_iff_getElem?.1 hin
      have hfind := (hsym i a).1 ⟨hget i a hi, hne'⟩
      by_contra hnot
      rw [(mapFind_eq_none_iff rev a).2 hnot] at hfind
      exact absurd hfind (by simp)
  have hperm := (List.perm_ext_iff_of_nodup hkeys hnodup).2 hmem
  rw [← hperm.length_eq, List.length_map]


theorem associateNode_eq (s : SimpleGraphObserver) (obj : Ptr) (id : Nat)
    (hid : id < s.subjectGraph_.nodeCount) :
    s.associateNode obj id = .ok
      { s with
        nodesToObjects_ := (resize s.nodesToObjects_ s.subjectGraph_.nodeCount).set id obj
        objectsToNodes_ := mapSet s.objectsToNodes_ obj id } := by
  have hhigh : s.subjectGraph_.getHighestNodeID + 1 = s.subjectGraph_.nodeCount := by
    unfold SimpleGraph.getHighestNodeID
    omega
  unfold SimpleGraphObserver.associateNode
  simp only [hhigh, length_resize]
  rw [if_pos hid]

theorem deletedEdgesUpdate_node_frame (s : SimpleGraphObserver) (ids : List Nat) :
    (s.deletedEdgesUpdate ids).state.nodesToObjects_ = s.nodesToObjects_
      ∧ (s.deletedEdgesUpdate ids).state.objectsToNodes_ = s.objectsToNodes_
      ∧ (s.deletedEdgesUpdate ids).state.subjectGraph_ = s.subjectGraph_ := by
  rw [deletedEdgesUpdate_eq_clearAll]
  cases clearAll s.edgesToObjects_ s.objectsToEdges_ ids <;> exact ⟨rfl, rfl, rfl⟩

theorem deletedNodesUpdate_reverse (s : SimpleGraphObserver) (ids : List Nat) :
    (s.deletedNodesUpdate ids).state.objectsToNodes_
      = (clearAll s.nodesToObjects_ s.objectsToNodes_ ids).state.2 := by
  rw [deletedNodesUpdate_eq_clearAll]
  cases clearAll s.nodesToObjects_ s.objectsToNodes_ ids <;> rfl

theorem perform_keeps_tables (s : SimpleGraphObserver) (c : Call)
    (hsym : NodeSymmetric s) (hsz : NodesSized s)
    (hkeys : (s.objectsToNodes_.map Prod.fst).Nodup) (hproper : properCalls s [c] = true) :
    NodeSymmetric (perform s c).state ∧ NodesSized (perform s c).state
      ∧ ((perform s c).state.objectsToNodes_.map Prod.fst).Nodup := by
  cases c with
  | createNode o =>
    simp only [properCalls, Bool.and_true, Bool.and_eq_true, decide_eq_true_eq] at hproper
    have hfree : mapFind s.objectsToNodes_ o = none := by
      cases hm : mapFind s.objectsToNodes_ o with
      | none => rfl
      | some v =>
        rw [hm] at hproper
        exact absurd hproper.2 (by simp)
    obtain ⟨h1, h2⟩ := createNode_keeps_symmetry s o hsym hsz hproper.1 hfree
    refine ⟨h1, h2, ?_⟩
    simp only [perform]
    rw [createNode_eq]
    exact keys_mapSet_nodup _ _ _ hkeys
  | link a b e =>
    obtain ⟨h1, h2, h3⟩ := link_node_frame s a b e
    unfold NodeSymmetric NodesSized at *
    simp only [perform]
    rw [h1, h2, h3]
    exact ⟨hsym, hsz, hkeys⟩
  | unlink a b =>
    obtain ⟨h1, h2, h3⟩ := unlink_node_frame s a b
    unfold NodeSymmetric NodesSized at *
    simp only [perform]
    rw [h1, h2, h3]
    exact ⟨hsym, hsz, hkeys⟩
  | associateNode o id =>
    simp only [properCalls, Bool.and_true, Bool.and_eq_true, decide_eq_true_eq] at hproper
    obtain ⟨⟨⟨hobj, hnone⟩, hid⟩, hempty⟩ := hproper
    have hfree : mapFind s.objectsToNodes_ o = none := by
      cases hm : mapFind s.objectsToNodes_ o with
      | none => rfl
      | some v =>
        rw [hm] at hnone
        exact absurd hnone (by simp)
    simp only [perform]
    rw [associateNode_eq s o id hid]
    simp only [Outcome.state]
    refine ⟨?_, ?_, keys_mapSet_nodup _ _ _ hkeys⟩
    · exact bind_symmetric _ _ _ id o hsym hsz hid hempty hobj hfree
    · unfold NodesSized
      simp only [List.length_set, length_resize]
      exact Nat.le_refl _
  | deletedNodesUpdate ids =>
    obtain ⟨h1, h2⟩ := deletedNodesUpdate_keeps_symmetry ids s hsym hsz
    refine ⟨h1, h2, ?_⟩
    simp only [perform]
    rw [deletedNodesUpdate_reverse]
    exact clearAll_keys_nodup ids _ _ hkeys
  | deletedEdgesUpdate ids =>
    obtain ⟨h1, h2, h3⟩ := deletedEdgesUpdate_node_frame s ids
    unfold NodeSymmetric NodesSized at *
    simp only [perform]
    rw [h1, h2, h3]
    exact ⟨hsym, hsz, hkeys⟩

theorem runCalls_keeps_tables (calls : List Call) :
    ∀ s : SimpleGraphObserver, NodeSymmetric s → NodesSized s →
      (s.objectsToNodes_.map Prod.fst).Nodup → properCalls s calls = true →
      NodeSymmetric (runCalls s calls)
        ∧ ((runCalls s calls).objectsToNodes_.map Prod.fst).Nodup := by
  induction calls with
  | nil =>
    intro s hsym _ hkeys _
    exact ⟨hsym, hkeys⟩
  | cons c cs ih =>
    intro s hsym hsz hkeys hproper
    have hsplit : properCalls s [c] = true ∧ properCalls (perform s c).state cs = true := by
      simp only [properCalls, Bool.and_true, Bool.and_eq_true] at hproper ⊢
      exact hproper
    obtain ⟨h1, h2, h3⟩ := perform_keeps_tables s c hsym hsz hkeys hsplit.1
    exact ih _ h1 h2 h3 hsplit.2

/-- C21 (counterexample): after `createNode(10); createNode(20); link(10, 20);
associateEdge(30, 0)` the reverse node table has three entries, so `getNumberOfNodes()` is 3,
while `getNodes()` lists the two bound node objects; after `createNode(10); createNode(10)`
`getNumberOfNodes()` is 1 while `getNodes()` has length 2. -/
theorem getNumberOfNodes_miscounts :
    ((linkedNodes.associateEdge 30 0).state.getNumberOfNodes = 3
      ∧ (linkedNodes.associateEdge 30 0).state.getNodes.length = 2)
    ∧ ((run (SimpleGraphObserver.new false) [.createNode 10, .createNode 10]).getNumberOfNodes
        = 1
      ∧ (run (SimpleGraphObserver.new false) [.createNode 10, .createNode 10]).getNodes.length
        = 2) := by
  decide

/-- C21 (amended): in every state reached from a fresh observer through `createNode`, `link`,
`unlink`, `associateNode` and the two deletion notifications, where every `createNode` and
`associateNode` is given a non-null object without reverse-table entry at the time of the
call and every `associateNode` names an issued node id whose slot is empty,
`getNumberOfNodes()` equals the length of `getNodes()`; and `getNumberOfLeaves()` is the
length of the list `getLeaves()` returns, or throws what `getLeaves()` throws. -/
theorem getNumberOfNodes_counts_bound_nodes (directed : Bool) (calls : List Call)
    (hproper : properCalls (SimpleGraphObserver.new directed) calls = true) :
    (runCalls (SimpleGraphObserver.new directed) calls).getNumberOfNodes
        = (runCalls (SimpleGraphObserver.new directed) calls).getNodes.length
    ∧ (∀ l, (runCalls (SimpleGraphObserver.new directed) calls).getLeaves = .value l →
        (runCalls (SimpleGraphObserver.new directed) calls).getNumberOfLeaves
          = .value l.length)
    ∧ (∀ e, (runCalls (SimpleGraphObserver.new directed) calls).getLeaves = .throws e →
        (runCalls (SimpleGraphObserver.new directed) calls).getNumberOfLeaves = .throws e) := by
  obtain ⟨hsym, hkeys⟩ := runCalls_keeps_tables calls _ (new_symmetric directed).1
    (new_symmetric directed).2 (by simp [SimpleGraphObserver.new]) hproper
  refine ⟨reverse_size_eq_bound_count _ _ hsym hkeys, ?_, ?_⟩
  · intro l hl
    unfold SimpleGraphObserver.getNumberOfLeaves
    rw [hl]
  · intro e he
    unfold SimpleGraphObserver.getNumberOfLeaves
    rw [he]

theorem getNumberOfNodes_counts_bound_nodes_witness :
    properCalls (SimpleGraphObserver.new false)
        [.createNode 10, .createNode 20, .link 10 20 30, .deletedNodesUpdate [0],
          .associateNode 40 0, .deletedEdgesUpdate [0], .unlink 40 20] = true
    ∧ (runCalls (SimpleGraphObserver.new false)
        [.createNode 10, .createNode 20, .link 10 20 30, .deletedNodesUpdate [0],
          .associateNode 40 0, .deletedEdgesUpdate [0], .unlink 40 20]).getNumberOfNodes
      = (runCalls (SimpleGraphObserver.new false)
        [.createNode 10, .createNode 20, .link 10 20 30, .deletedNodesUpdate [0],
          .associateNode 40 0, .deletedEdgesUpdate [0], .unlink 40 20]).getNodes.length :=
  ⟨by decide, (getNumberOfNodes_counts_bound_nodes false _ (by decide)).1⟩

/-! ## Node deletion -/

theorem getElem?_of_slot (v : List Ptr) (i : Nat) (o : Ptr) (h : slot v i = o)
    (hne : o ≠ null) : v[i]? = some o := by
  by_cases hlt : i < v.length
  · rw [List.getElem?_eq_getElem hlt]
    rw [← h, slot_of_getElem? v i _ (List.getElem?_eq_getElem hlt)]
  · have hnull := slot_of_length_le v i (by omega)
    rw [h] at hnull
    exact absurd hnull hne

theorem chainWithEdges_consistent :
    NodeSymmetric chainWithEdges ∧ NoSharedObject chainWithEdges.edgesToObjects_ := by
  refine ⟨?_, ?_⟩
  · exact (run_keeps_symmetry _ _ (new_symmetric false).1 (new_symmetric false).2
      (by decide)).1
  · have he : chainWithEdges.edgesToObjects_ = [40, 50] := by decide
    rw [he]
    intro i j
    rcases i with _ | _ | i <;> rcases j with _ | _ | j <;> simp [slot, null]

/-- C23: in a state with symmetric node tables, let `obj` be bound to a node id that is live
in the Graph Core and has `k` incident edges, whose ids the edge forward table covers, no
edge object being held by two slots.  The observer `deleteNode(obj)` returns after exactly
two notifications, first one `deletedEdgesUpdate` batch holding the `k` ids of the incident
edges, then `deletedNodesUpdate` with the node id.  Afterwards the node is gone from the
Graph Core, `obj` is unbound and absent from `getNodes()`, and no `getEdges` result contains
the object of a removed edge. -/
theorem deleteNode_cascades (s : SimpleGraphObserver) (obj : Ptr) (id : Nat)
    (hsym : NodeSymmetric s) (hbound : mapFind s.objectsToNodes_ obj = some id)
    (hlive : id ∈ s.subjectGraph_.nodes)
    (hcov : ∀ e ∈ s.subjectGraph_.incidentEdges id, e.id < s.edgesToObjects_.length)
    (hshare : NoSharedObject s.edgesToObjects_) :
    ∃ s', s.deleteNode obj
        = ([.deletedEdgesUpdate ((s.subjectGraph_.incidentEdges id).map Edge.id),
            .deletedNodesUpdate [id]], .ok s')
      ∧ ((s.subjectGraph_.incidentEdges id).map Edge.id).length
          = (s.subjectGraph_.incidentEdges id).length
      ∧ id ∉ s'.subjectGraph_.nodes
      ∧ mapFind s'.objectsToNodes_ obj = none
      ∧ obj ∉ s'.getNodes
      ∧ (∀ (x : Ptr) (l : List Ptr), s'.getEdges x = .value l →
          ∀ e ∈ s.subjectGraph_.incidentEdges id,
            slot s.edgesToObjects_ e.id ≠ null → slot s.edgesToObjects_ e.id ∉ l) := by
  have hslot := (hsym id obj).2 hbound
  have hidlt : id < s.nodesToObjects_.length := by
    by_contra hge
    have hnull := slot_of_length_le s.nodesToObjects_ id (by omega)
    rw [hslot.1] at hnull
    exact hslot.2 hnull
  have hcov' : ∀ i ∈ (s.subjectGraph_.incidentEdges id).map Edge.id,
      i < s.edgesToObjects_.length := by
    intro i hi
    obtain ⟨e, he, rfl⟩ := List.mem_map.1 hi
    exact hcov e he
  obtain ⟨fe, re, hrune, _, hnulle, hkeepe⟩ :=
    clearAll_covered _ s.edgesToObjects_ s.objectsToEdges_ hcov'
  obtain ⟨fn, rn, hrunn, _, hnulln, hkeepn⟩ :=
    clearAll_covered [id] s.nodesToObjects_ s.objectsToNodes_
      (by intro i hi; rw [List.mem_singleton.1 hi]; exact hidlt)
  have hsymn := clearAll_symmetric [id] s.nodesToObjects_ s.objectsToNodes_ hsym
  rw [hrunn] at hsymn
  simp only [Outcome.state] at hsymn
  have hdel : s.subjectGraph_.deleteNode id
      = some ((s.subjectGraph_.incidentEdges id).map Edge.id,
          { s.subjectGraph_ with
            nodes := s.subjectGraph_.nodes.filter fun n => n ≠ id
            edges := s.subjectGraph_.edges.filter fun e => ¬ (e.src = id ∨ e.dst = id) }) := by
    unfold SimpleGraph.deleteNode
    rw [if_pos hlive]
  refine ⟨{ s with
      edgesToObjects_ := fe, objectsToEdges_ := re
      nodesToObjects_ := fn, objectsToNodes_ := rn
      subjectGraph_ := { s.subjectGraph_ with
        nodes := s.subjectGraph_.nodes.filter fun n => n ≠ id
        edges := s.subjectGraph_.edges.filter fun e => ¬ (e.src = id ∨ e.dst = id) } },
    ?_, List.length_map _ _, ?_, ?_, ?_, ?_⟩
  · unfold SimpleGraphObserver.deleteNode
    rw [hbound]
    simp only []
    rw [hdel]
    simp only []
    rw [deletedEdgesUpdate_eq_clearAll, hrune]
    simp only []
    rw [deletedNodesUpdate_eq_clearAll]
    simp only []
    rw [hrunn]
  · simp only []
    intro hmem
    have := (List.mem_filter.1 hmem).2
    simp at this
  · simp only []
    cases hfind : mapFind rn obj with
    | none => rfl
    | some j =>
      exfalso
      have h := (hsymn j obj).2 hfind
      by_cases hj : j = id
      · rw [hj, hnulln id (Or.inl (List.mem_singleton.2 rfl))] at h
        exact h.2 h.1.symm
      · rw [hkeepn j (fun hm => hj (List.mem_singleton.1 hm))] at h
        have h' := (hsym j obj).1 h
        rw [hbound] at h'
        exact hj (Option.some.inj h').symm
  · unfold SimpleGraphObserver.getNodes
    simp only []
    rw [keepDefined_eq_filter, List.mem_filter]
    rintro ⟨hin, _⟩
    obtain ⟨j, hj⟩ := List.mem_iff_getElem?.1 hin
    have hsj := slot_of_getElem? fn j obj hj
    by_cases hjid : j = id
    · rw [hjid, hnulln id (Or.inl (List.mem_singleton.2 rfl))] at hsj
      exact hslot.2 hsj.symm
    · rw [hkeepn j (fun hm => hjid (List.mem_singleton.1 hm))] at hsj
      have h' := (hsym j obj).1 ⟨hsj, hslot.2⟩
      rw [hbound] at h'
      exact hjid (Option.some.inj h').symm
  · intro x l hl e he hne hmem
    unfold SimpleGraphObserver.getEdges at hl
    simp only [] at hl
    cases hfx : mapFind rn x with
    | none =>
      rw [hfx] at hl
      exact absurd hl (by simp)
    | some ix =>
      rw [hfx] at hl
      simp only [Answer.value.injEq] at hl
      rw [← hl, List.mem_filter, List.mem_map] at hmem
      obtain ⟨⟨e', _, he'⟩, _⟩ := hmem
      by_cases hin : e'.id ∈ (s.subjectGraph_.incidentEdges id).map Edge.id
      · rw [hnulle e'.id (Or.inl hin)] at he'
        exact hne he'.symm
      · rw [hkeepe e'.id hin] at he'
        have heq := hshare e'.id e.id he' (by rw [he']; exact hne)
        exact hin (heq ▸ List.mem_map.2 ⟨e, he, rfl⟩)

theorem deleteNode_cascades_witness :
    (mapFind chainWithEdges.objectsToNodes_ 20 = some 1
      ∧ 1 ∈ chainWithEdges.subjectGraph_.nodes
      ∧ (chainWithEdges.subjectGraph_.incidentEdges 1).length = 2)
    ∧ ∃ s', chainWithEdges.deleteNode 20
        = ([.deletedEdgesUpdate ((chainWithEdges.subjectGraph_.incidentEdges 1).map Edge.id),
            .deletedNodesUpdate [1]], .ok s')
      ∧ ((chainWithEdges.subjectGraph_.incidentEdges 1).map Edge.id).length
          = (chainWithEdges.subjectGraph_.incidentEdges 1).length
      ∧ 1 ∉ s'.subjectGraph_.nodes
      ∧ mapFind s'.objectsToNodes_ 20 = none
      ∧ 20 ∉ s'.getNodes
      ∧ (∀ (x : Ptr) (l : List Ptr), s'.getEdges x = .value l →
          ∀ e ∈ chainWithEdges.subjectGraph_.incidentEdges 1,
            slot chainWithEdges.edgesToObjects_ e.id ≠ null →
              slot chainWithEdges.edgesToObjects_ e.id ∉ l) :=
  ⟨by decide,
    deleteNode_cascades chainWithEdges 20 1 chainWithEdges_consistent.1 (by decide) (by decide)
      (by decide) chainWithEdges_consistent.2⟩

/-! ## Leaves reachable from a node -/

theorem mem_expand (g : SimpleGraph) (visited frontier : List Nat) (w : Nat) :
    w ∈ g.expand visited frontier ↔ (∃ u ∈ frontier, w ∈ g.successors u) ∧ w ∉ visited := by
  unfold SimpleGraph.expand
  rw [List.mem_filter, List.mem_dedup, List.mem_flatMap]
  simp

theorem expand_nodup (g : SimpleGraph) (visited frontier : List Nat) :
    (g.expand visited frontier).Nodup :=
  List.Nodup.filter _ (List.nodup_dedup _)

theorem expand_nil (g : SimpleGraph) (visited : List Nat) : g.expand visited [] = [] := rfl

theorem traverse_nil (g : SimpleGraph) (d : Nat) :
    ∀ visited : List Nat, g.traverse d visited [] = (visited, []) := by
  induction d with
  | zero =>
    intro visited
    rfl
  | succ d ih =>
    intro visited
    unfold SimpleGraph.traverse
    rw [expand_nil, List.append_nil, ih]

theorem traverse_add (g : SimpleGraph) (d m : Nat) :
    ∀ visited frontier : List Nat, g.traverse (d + m) visited frontier
      = g.traverse m (g.traverse d visited frontier).1 (g.traverse d visited frontier).2 := by
  induction d with
  | zero =>
    intro visited frontier
    rw [Nat.zero_add]
    rfl
  | succ d ih =>
    intro visited frontier
    have h1 : g.traverse (d + 1 + m) visited frontier
        = g.traverse (d + m) (visited ++ g.expand visited frontier)
            (g.expand visited frontier) := by
      rw [Nat.add_right_comm]
      rfl
    have h2 : g.traverse (d + 1) visited frontier
        = g.traverse d (visited ++ g.expand visited frontier) (g.expand visited frontier) := rfl
    rw [h1, h2]
    exact ih _ _

theorem traverse_succ (g : SimpleGraph) (d : Nat) (visited frontier : List Nat) :
    g.traverse (d + 1) visited frontier
      = ((g.traverse d visited frontier).1
            ++ g.expand (g.traverse d visited frontier).1 (g.traverse d visited frontier).2,
          g.expand (g.traverse d visited frontier).1 (g.traverse d visited frontier).2) := by
  rw [traverse_add]
  rfl

theorem traverse_nodup (g : SimpleGraph) (d : Nat) :
    ∀ visited frontier : List Nat, visited.Nodup → (g.traverse d visited frontier).1.Nodup := by
  induction d with
  | zero =>
    intro visited frontier h
    exact h
  | succ d ih =>
    intro visited frontier h
    unfold SimpleGraph.traverse
    apply ih
    rw [List.nodup_append]
    refine ⟨h, expand_nodup g visited frontier, ?_⟩
    intro a ha hb
    exact ((mem_expand g visited frontier a).1 hb).2 ha

theorem traverse_mono (g : SimpleGraph) (d : Nat) :
    ∀ visited frontier : List Nat, visited ⊆ (g.traverse d visited frontier).1 := by
  induction d with
  | zero =>
    intro visited frontier
    exact List.Subset.refl _
  | succ d ih =>
    intro visited frontier
    unfold SimpleGraph.traverse
    exact List.Subset.trans (List.subset_append_left _ _) (ih _ _)

theorem successors_subset_endpoints (g : SimpleGraph) (u w : Nat) (h : w ∈ g.successors u) :
    w ∈ g.endpoints := by
  unfold SimpleGraph.successors at h
  unfold SimpleGraph.endpoints
  rw [List.mem_filterMap] at h
  obtain ⟨e, he, hw⟩ := h
  rw [List.mem_flatMap]
  refine ⟨e, he, ?_⟩
  split at hw
  · simp only [Option.some.injEq] at hw
    simp [hw]
  · split at hw
    · simp only [Option.some.injEq] at hw
      simp [hw]
    · exact absurd hw (by simp)

theorem traverse_subset (g : SimpleGraph) (start : Nat) (d : Nat) :
    ∀ visited frontier : List Nat, visited ⊆ start :: g.endpoints →
      (g.traverse d visited frontier).1 ⊆ start :: g.endpoints := by
  induction d with
  | zero =>
    intro visited frontier h
    exact h
  | succ d ih =>
    intro visited frontier h
    unfold SimpleGraph.traverse
    apply ih
    intro a ha
    rcases List.mem_append.1 ha with ha | ha
    · exact h ha
    · obtain ⟨⟨u, _, hu⟩, _⟩ := (mem_expand g visited frontier a).1 ha
      exact List.mem_cons_of_mem _ (successors_subset_endpoints g u a hu)

theorem traverse_progress (g : SimpleGraph) (d : Nat) :
    ∀ visited frontier : List Nat, (g.traverse d visited frontier).2 ≠ [] →
      visited.length + d ≤ (g.traverse d visited frontier).1.length := by
  induction d with
  | zero =>
    intro visited frontier _
    exact Nat.le_refl _
  | succ d ih =>
    intro visited frontier h
    unfold SimpleGraph.traverse at h ⊢
    have hnext : g.expand visited frontier ≠ [] := by
      intro hnil
      rw [hnil, traverse_nil] at h
      exact h rfl
    have hpos : 0 < (g.expand visited frontier).length := List.length_pos.2 hnext
    have := ih _ _ h
    rw [List.length_append] at this
    omega

theorem traverse_ends (g : SimpleGraph) (start : Nat) :
    (g.traverse g.idBound [start] [start]).2 = [] := by
  by_contra hne
  have hprog := traverse_progress g g.idBound [start] [start] hne
  have hnodup := traverse_nodup g g.idBound [start] [start] (List.nodup_singleton start)
  have hsub := traverse_subset g start g.idBound [start] [start]
    (by intro a ha; rw [List.mem_singleton.1 ha]; exact List.mem_cons_self _ _)
  have hle := (List.Nodup.subperm hnodup hsub).length_le
  simp only [List.length_cons, List.length_nil, SimpleGraph.idBound] at hprog hle
  omega

theorem traverse_stable (g : SimpleGraph) (start m : Nat) :
    g.traverse (g.idBound + m) [start] [start] = g.traverse g.idBound [start] [start] := by
  rw [traverse_add]
  have hends := traverse_ends g start
  generalize g.traverse g.idBound [start] [start] = r at hends ⊢
  obtain ⟨v, f⟩ := r
  simp only [] at hends
  subst hends
  exact traverse_nil g m v


theorem traverse_expanded (g : SimpleGraph) (d : Nat) :
    ∀ visited frontier : List Nat,
      (∀ u ∈ visited, u ∈ frontier ∨ ∀ w ∈ g.successors u, w ∈ visited) →
      ∀ u ∈ (g.traverse d visited frontier).1,
        u ∈ (g.traverse d visited frontier).2
          ∨ ∀ w ∈ g.successors u, w ∈ (g.traverse d visited frontier).1 := by
  induction d with
  | zero =>
    intro visited frontier h
    exact h
  | succ d ih =>
    intro visited frontier h
    have h2 : g.traverse (d + 1) visited frontier
        = g.traverse d (visited ++ g.expand visited frontier) (g.expand visited frontier) := rfl
    rw [h2]
    apply ih
    intro u hu
    rcases List.mem_append.1 hu with hu | hu
    · right
      intro w hw
      rcases h u hu with hf | hall
      · by_cases hv : w ∈ visited
        · exact List.mem_append_left _ hv
        · exact List.mem_append_right _ ((mem_expand g visited frontier w).2 ⟨⟨u, hf, hw⟩, hv⟩)
      · exact List.mem_append_left _ (hall w hw)
    · exact Or.inl hu

theorem start_expanded (g : SimpleGraph) (start : Nat) :
    ∀ u ∈ [start], u ∈ [start] ∨ ∀ w ∈ g.successors u, w ∈ [start] :=
  fun _ hu => Or.inl hu

theorem walk_mem_traverse (g : SimpleGraph) (start x k : Nat) (h : SimpleGraph.Walk g start x k) :
    x ∈ (g.traverse k [start] [start]).1 := by
  induction h with
  | start => exact List.mem_singleton.2 rfl
  | hop hwalk hw ih =>
    rename_i v w k
    rw [traverse_succ]
    simp only []
    rcases traverse_expanded g k [start] [start] (start_expanded g start) v ih with hf | hall
    · by_cases hv : w ∈ (g.traverse k [start] [start]).1
      · exact List.mem_append_left _ hv
      · exact List.mem_append_right _ ((mem_expand g _ _ w).2 ⟨⟨v, hf, hw⟩, hv⟩)
    · exact List.mem_append_left _ (hall w hw)

theorem traverse_depth_mono (g : SimpleGraph) (start k d : Nat) (hkd : k ≤ d) :
    (g.traverse k [start] [start]).1 ⊆ (g.traverse d [start] [start]).1 := by
  obtain ⟨m, rfl⟩ := Nat.exists_eq_add_of_le hkd
  rw [traverse_add]
  exact traverse_mono g m _ _

theorem walk_mem_unbounded (g : SimpleGraph) (start x k : Nat) (h : SimpleGraph.Walk g start x k) :
    x ∈ (g.traverse g.idBound [start] [start]).1 := by
  have hclosed : ∀ u ∈ (g.traverse g.idBound [start] [start]).1,
      ∀ w ∈ g.successors u, w ∈ (g.traverse g.idBound [start] [start]).1 := by
    intro u hu
    rcases traverse_expanded g g.idBound [start] [start] (start_expanded g start) u hu with
      hf | hall
    · rw [traverse_ends] at hf
      exact absurd hf (List.not_mem_nil u)
    · exact hall
  induction h with
  | start => exact traverse_mono g _ [start] [start] (List.mem_singleton.2 rfl)
  | hop _ hw ih => exact hclosed _ ih _ hw

theorem traverse_sound (g : SimpleGraph) (start : Nat) (d : Nat) :
    ∀ (visited frontier : List Nat) (K : Nat),
      (∀ x ∈ visited, ∃ k, k ≤ K ∧ SimpleGraph.Walk g start x k) → frontier ⊆ visited →
      ∀ x ∈ (g.traverse d visited frontier).1, ∃ k, k ≤ K + d ∧ SimpleGraph.Walk g start x k := by
  induction d with
  | zero =>
    intro visited frontier K h _
    exact h
  | succ d ih =>
    intro visited frontier K h hsub
    have h2 : g.traverse (d + 1) visited frontier
        = g.traverse d (visited ++ g.expand visited frontier) (g.expand visited frontier) := rfl
    rw [h2]
    have hstep := ih (visited ++ g.expand visited frontier) (g.expand visited frontier) (K + 1)
      (by
        intro x hx
        rcases List.mem_append.1 hx with hx | hx
        · obtain ⟨k, hk, hwalk⟩ := h x hx
          exact ⟨k, by omega, hwalk⟩
        · obtain ⟨⟨u, hu, hxu⟩, _⟩ := (mem_expand g visited frontier x).1 hx
          obtain ⟨k, hk, hwalk⟩ := h u (hsub hu)
          exact ⟨k + 1, by omega, SimpleGraph.Walk.hop hwalk hxu⟩)
      (List.subset_append_right _ _)
    intro x hx
    obtain ⟨k, hk, hwalk⟩ := hstep x hx
    exact ⟨k, by omega, hwalk⟩

theorem visited_of_walked (g : SimpleGraph) (start d : Nat) :
    ∀ x ∈ (g.traverse d [start] [start]).1, ∃ k, k ≤ d ∧ SimpleGraph.Walk g start x k := by
  intro x hx
  obtain ⟨k, hk, hwalk⟩ := traverse_sound g start d [start] [start] 0
    (fun y hy => ⟨0, Nat.le_refl _, by rw [List.mem_singleton.1 hy]; exact SimpleGraph.Walk.start⟩)
    (List.Subset.refl _) x hx
  exact ⟨k, by omega, hwalk⟩

theorem diameterAtMost_of_traverse (g : SimpleGraph) (d : Nat)
    (h : ∀ u, (g.traverse g.idBound [u] [u]).1 ⊆ (g.traverse d [u] [u]).1) :
    g.DiameterAtMost d := by
  intro u v k hwalk
  exact visited_of_walked g u d v (h u (walk_mem_unbounded g u v k hwalk))

theorem traverse_unbounded_eq_bounded (g : SimpleGraph) (start d : Nat)
    (hdiam : g.DiameterAtMost d) (x : Nat) :
    x ∈ (g.traverse g.idBound [start] [start]).1 ↔ x ∈ (g.traverse d [start] [start]).1 := by
  constructor
  · intro hx
    obtain ⟨k, _, hk⟩ := visited_of_walked g start _ x hx
    obtain ⟨k', hk', hwalk⟩ := hdiam start x k hk
    exact traverse_depth_mono g start k' d hk' (walk_mem_traverse g start x k' hwalk)
  · intro hx
    obtain ⟨k, _, hk⟩ := visited_of_walked g start _ x hx
    exact walk_mem_unbounded g start x k hk

/-- C25: for an object bound to node id `start`, the traversal of `getLeavesFromNode`
terminates on every graph, cyclic ones included.  In the unbounded case (`maxDepth = 0`) the
frontier is empty after the levels that are run, and running more levels changes nothing;
for every `maxDepth` the call returns a list.  Each node id is visited at most once: the
list of visited ids has no duplicate.  For every `maxDepth > 0` that is at least the diameter
of the graph, the call with `maxDepth = 0` returns the same set of objects. -/
theorem getLeavesFromNode_terminates (s : SimpleGraphObserver) (obj : Ptr) (start : Nat)
    (hbound : mapFind s.objectsToNodes_ obj = some start) :
    (s.subjectGraph_.traverse s.subjectGraph_.idBound [start] [start]).2 = []
    ∧ (∀ m, s.subjectGraph_.traverse (s.subjectGraph_.idBound + m) [start] [start]
        = s.subjectGraph_.traverse s.subjectGraph_.idBound [start] [start])
    ∧ (∀ d, (s.subjectGraph_.traverse d [start] [start]).1.Nodup)
    ∧ (∀ maxDepth, ∃ l, s.getLeavesFromNode obj maxDepth = .value l)
    ∧ (∀ d l0 ld, 0 < d → s.subjectGraph_.DiameterAtMost d →
        s.getLeavesFromNode obj 0 = .value l0 → s.getLeavesFromNode obj d = .value ld →
        ∀ o, o ∈ l0 ↔ o ∈ ld) := by
  refine ⟨traverse_ends _ start, traverse_stable _ start,
    fun d => traverse_nodup _ d _ _ (List.nodup_singleton start), ?_, ?_⟩
  · intro maxDepth
    unfold SimpleGraphObserver.getLeavesFromNode
    rw [hbound]
    exact ⟨_, rfl⟩
  · intro d l0 ld hd hdiam h0 hdd o
    unfold SimpleGraphObserver.getLeavesFromNode at h0 hdd
    rw [hbound] at h0 hdd
    simp only [if_pos, if_neg (Nat.pos_iff_ne_zero.1 hd), Answer.value.injEq] at h0 hdd
    rw [← h0, ← hdd]
    simp only [List.mem_filter, List.mem_map]
    constructor
    · rintro ⟨⟨n, ⟨hn, hp⟩, hslot⟩, hne⟩
      exact ⟨⟨n, ⟨(traverse_unbounded_eq_bounded _ start d hdiam n).1 hn, hp⟩, hslot⟩, hne⟩
    · rintro ⟨⟨n, ⟨hn, hp⟩, hslot⟩, hne⟩
      exact ⟨⟨n, ⟨(traverse_unbounded_eq_bounded _ start d hdiam n).2 hn, hp⟩, hslot⟩, hne⟩

theorem chainWithEdges_diameter : chainWithEdges.subjectGraph_.DiameterAtMost 2 := by
  apply diameterAtMost_of_traverse
  intro u
  have hg : chainWithEdges.subjectGraph_ = ⟨false, 3, 2, [0, 1, 2], [⟨0, 0, 1⟩, ⟨1, 1, 2⟩]⟩ := by
    decide
  rw [hg]
  rcases u with _ | _ | _ | u
  · decide
  · decide
  · decide
  · have hsucc : SimpleGraph.successors ⟨false, 3, 2, [0, 1, 2], [⟨0, 0, 1⟩, ⟨1, 1, 2⟩]⟩
        (u + 1 + 1 + 1) = [] := by
      simp [SimpleGraph.successors]
    have hexp : ∀ visited, SimpleGraph.expand ⟨false, 3, 2, [0, 1, 2], [⟨0, 0, 1⟩, ⟨1, 1, 2⟩]⟩
        visited [u + 1 + 1 + 1] = [] := by
      intro visited
      simp [SimpleGraph.expand, hsucc]
    intro x hx
    have h1 : SimpleGraph.traverse ⟨false, 3, 2, [0, 1, 2], [⟨0, 0, 1⟩, ⟨1, 1, 2⟩]⟩
        (SimpleGraph.idBound ⟨false, 3, 2, [0, 1, 2], [⟨0, 0, 1⟩, ⟨1, 1, 2⟩]⟩)
        [u + 1 + 1 + 1] [u + 1 + 1 + 1] = ([u + 1 + 1 + 1], []) := by
      have hb : SimpleGraph.idBound ⟨false, 3, 2, [0, 1, 2], [⟨0, 0, 1⟩, ⟨1, 1, 2⟩]⟩ = 4 + 1 := by
        decide
      rw [hb]
      have hstep : ∀ d, SimpleGraph.traverse ⟨false, 3, 2, [0, 1, 2], [⟨0, 0, 1⟩, ⟨1, 1, 2⟩]⟩
          (d + 1) [u + 1 + 1 + 1] [u + 1 + 1 + 1]
          = SimpleGraph.traverse ⟨false, 3, 2, [0, 1, 2], [⟨0, 0, 1⟩, ⟨1, 1, 2⟩]⟩ d
              ([u + 1 + 1 + 1] ++ SimpleGraph.expand
                ⟨false, 3, 2, [0, 1, 2], [⟨0, 0, 1⟩, ⟨1, 1, 2⟩]⟩ [u + 1 + 1 + 1]
                  [u + 1 + 1 + 1])
              (SimpleGraph.expand ⟨false, 3, 2, [0, 1, 2], [⟨0, 0, 1⟩, ⟨1, 1, 2⟩]⟩
                [u + 1 + 1 + 1] [u + 1 + 1 + 1]) := fun _ => rfl
      rw [hstep, hexp, List.append_nil, traverse_nil]
    rw [h1] at hx
    exact traverse_mono _ 2 _ _ hx

theorem getLeavesFromNode_terminates_witness :
    (mapFind chainWithEdges.objectsToNodes_ 10 = some 0
      ∧ chainWithEdges.subjectGraph_.DiameterAtMost 2
      ∧ chainWithEdges.getLeavesFromNode 10 0 = .value [30]
      ∧ chainWithEdges.getLeavesFromNode 10 2 = .value [30])
    ∧ (chainWithEdges.subjectGraph_.traverse chainWithEdges.subjectGraph_.idBound [0] [0]).2 = []
    ∧ (∀ o, o ∈ [(30 : Ptr)] ↔ o ∈ [(30 : Ptr)]) :=
  have h := getLeavesFromNode_terminates chainWithEdges 10 0 (by decide)
  ⟨⟨by decide, chainWithEdges_diameter, by decide, by decide⟩, h.1,
    h.2.2.2.2 2 [30] [30] (by decide) chainWithEdges_diameter (by decide) (by decide)⟩

/-! ## `unique`, `min`, `max`, `range`, `posmin`, `whichmax`, `kroneckerMult`, `seq` -/

/-- C32: `kroneckerMult` on a vector of length 2 and a vector of length 1 raises no
exception: it returns the vector of the two products. -/
theorem kroneckerMult_unequal_lengths_returns :
    ([1, 2] : List Int).length ≠ ([3] : List Int).length ∧
      VectorTools.kroneckerMult ([1, 2] : List Int) [3] = .value [3, 6] ∧
      VectorTools.kroneckerMult ([1, 2] : List Int) [3] ≠ .dimensionException := by
  decide

theorem minLoop_spec {T : Type} [LinearOrder T] (rest : List T) :
    ∀ mini : T, VectorTools.minLoop mini rest ∈ mini :: rest ∧
      ∀ x ∈ mini :: rest, VectorTools.minLoop mini rest ≤ x := by
  induction rest with
  | nil => intro mini; simp [VectorTools.minLoop]
  | cons a rest ih =>
    intro mini
    have hstep : VectorTools.minLoop mini (a :: rest)
        = VectorTools.minLoop (if a < mini then a else mini) rest := rfl
    rw [hstep]
    obtain ⟨h1, h2⟩ := ih (if a < mini then a else mini)
    by_cases h : a < mini
    · rw [if_pos h] at h1 h2 ⊢
      refine ⟨List.mem_cons_of_mem _ h1, fun x hx => ?_⟩
      rcases List.mem_cons.mp hx with hx | hx
      · rw [hx]; exact le_trans (h2 a (List.mem_cons_self _ _)) (le_of_lt h)
      · exact h2 x hx
    · rw [if_neg h] at h1 h2 ⊢
      refine ⟨?_, fun x hx => ?_⟩
      · rcases List.mem_cons.mp h1 with h1 | h1
        · rw [h1]; exact List.mem_cons_self _ _
        · exact List.mem_cons_of_mem _ (List.mem_cons_of_mem _ h1)
      · rcases List.mem_cons.mp hx with hx | hx
        · rw [hx]; exact h2 mini (List.mem_cons_self _ _)
        · rcases List.mem_cons.mp hx with hx | hx
          · rw [hx]; exact le_trans (h2 mini (List.mem_cons_self _ _)) (not_lt.mp h)
          · exact h2 x (List.mem_cons_of_mem _ hx)

theorem maxLoop_spec {T : Type} [LinearOrder T] (rest : List T) :
    ∀ maxi : T, VectorTools.maxLoop maxi rest ∈ maxi :: rest ∧
      ∀ x ∈ maxi :: rest, x ≤ VectorTools.maxLoop maxi rest := by
  induction rest with
  | nil => intro maxi; simp [VectorTools.maxLoop]
  | cons a rest ih =>
    intro maxi
    have hstep : VectorTools.maxLoop maxi (a :: rest)
        = VectorTools.maxLoop (if a > maxi then a else maxi) rest := rfl
    rw [hstep]
    obtain ⟨h1, h2⟩ := ih (if a > maxi then a else maxi)
    by_cases h : a > maxi
    · rw [if_pos h] at h1 h2 ⊢
      refine ⟨List.mem_cons_of_mem _ h1, fun x hx => ?_⟩
      rcases List.mem_cons.mp hx with hx | hx
      · rw [hx]; exact le_trans (le_of_lt h) (h2 a (List.mem_cons_self _ _))
      · exact h2 x hx
    · rw [if_neg h] at h1 h2 ⊢
      refine ⟨?_, fun x hx => ?_⟩
      · rcases List.mem_cons.mp h1 with h1 | h1
        · rw [h1]; exact List.mem_cons_self _ _
        · exact List.mem_cons_of_mem _ (List.mem_cons_of_mem _ h1)
      · rcases List.mem_cons.mp hx with hx | hx
        · rw [hx]; exact h2 maxi (List.mem_cons_self _ _)
        · rcases List.mem_cons.mp hx with hx | hx
          · rw [hx]; exact le_trans (not_lt.mp h) (h2 maxi (List.mem_cons_self _ _))
          · exact h2 x (List.mem_cons_of_mem _ hx)

theorem rangeLoop_eq {T : Type} [LinearOrder T] (rest : List T) :
    ∀ r : T × T, VectorTools.rangeLoop r rest
      = (VectorTools.minLoop r.1 rest, VectorTools.maxLoop r.2 rest) := by
  induction rest with
  | nil => intro r; rfl
  | cons a rest ih =>
    intro r
    show VectorTools.rangeLoop (_, _) rest = _
    rw [ih]
    rfl

/-- C33: for a non-empty vector `v` over a totally ordered type, `range(v)` is the vector
`[min(v), max(v)]`, where `min(v)` is the least and `max(v)` the greatest element of `v`;
each of `range`, `min` and `max` raises `EmptyVectorException` exactly when `v` is
empty. -/
theorem range_is_min_max {T : Type} [LinearOrder T] (v : List T) :
    (v ≠ [] → ∃ m M, VectorTools.min v = .value m ∧ VectorTools.max v = .value M ∧
        VectorTools.range v = .value [m, M] ∧
        m ∈ v ∧ (∀ x ∈ v, m ≤ x) ∧ M ∈ v ∧ (∀ x ∈ v, x ≤ M)) ∧
      (VectorTools.min v = .emptyVectorException ↔ v = []) ∧
      (VectorTools.max v = .emptyVectorException ↔ v = []) ∧
      (VectorTools.range v = .emptyVectorException ↔ v = []) := by
  cases v with
  | nil => simp [VectorTools.min, VectorTools.max, VectorTools.range]
  | cons a w =>
    refine ⟨fun _ => ⟨VectorTools.minLoop a w, VectorTools.maxLoop a w, rfl, rfl, ?_,
      (minLoop_spec w a).1, (minLoop_spec w a).2, (maxLoop_spec w a).1,
      (maxLoop_spec w a).2⟩, ?_, ?_, ?_⟩
    · show VectorTools.Result.value [(VectorTools.rangeLoop (a, a) w).1,
        (VectorTools.rangeLoop (a, a) w).2] = _
      rw [rangeLoop_eq]
    · simp [VectorTools.min]
    · simp [VectorTools.max]
    · simp [VectorTools.range]

theorem range_is_min_max_witness :
    ([3, 1, 2] : List Nat) ≠ [] ∧
      ∃ m M, VectorTools.min [3, 1, 2] = .value m ∧ VectorTools.max [3, 1, 2] = .value M ∧
        VectorTools.range [3, 1, 2] = .value [m, M] ∧
        m ∈ [3, 1, 2] ∧ (∀ x ∈ [3, 1, 2], m ≤ x) ∧ M ∈ [3, 1, 2] ∧
        (∀ x ∈ [3, 1, 2], x ≤ M) :=
  ⟨by decide, (range_is_min_max [3, 1, 2]).1 (by decide)⟩

theorem seqUp_spec (limit by_ : Int) (hby : 0 < by_) :
    ∀ (fuel : Nat) (i : Int) (v : List Int), (limit - i + 1).toNat + 1 ≤ fuel →
      ∃ n : Nat, (∀ k : Nat, k < n → i + k * by_ ≤ limit) ∧ limit < i + n * by_ ∧
        (i ≤ limit → 0 < n) ∧
        (VectorTools.intMin ≤ i → i + n * by_ ≤ VectorTools.intMax →
          VectorTools.seqUp limit by_ fuel i v
            = .done (v ++ (List.range n).map fun k : Nat => i + k * by_)) ∧
        (VectorTools.intMin ≤ i → i ≤ VectorTools.intMax → VectorTools.intMax < i + n * by_ →
          VectorTools.seqUp limit by_ fuel i v = .overflow) := by
  intro fuel
  induction fuel with
  | zero => intro i v h; omega
  | succ fuel ih =>
    intro i v h
    by_cases hi : i ≤ limit
    · obtain ⟨n, h2, h3, _, h4, h5⟩ := ih (i + by_) (v ++ [i]) (by omega)
      have e : ((n + 1 : Nat) : Int) * by_ = n * by_ + by_ := by push_cast; ring
      have hn : (0 : Int) ≤ n * by_ := mul_nonneg (Int.ofNat_nonneg n) (le_of_lt hby)
      refine ⟨n + 1, ?_, ?_, fun _ => Nat.succ_pos n, ?_, ?_⟩
      · intro k hk
        cases k with
        | zero => simpa using hi
        | succ k =>
          have := h2 k (by omega)
          have e' : ((k + 1 : Nat) : Int) * by_ = k * by_ + by_ := by push_cast; ring
          rw [e']; linarith
      · rw [e]; linarith
      · intro hmin hmax
        rw [e] at hmax
        have hfit : VectorTools.intMin ≤ i + by_ ∧ i + by_ ≤ VectorTools.intMax :=
          ⟨by linarith, by linarith⟩
        have hstep : VectorTools.seqUp limit by_ (fuel + 1) i v
            = VectorTools.seqUp limit by_ fuel (i + by_) (v ++ [i]) := by
          simp only [VectorTools.seqUp, if_pos hi, if_pos hfit]
        rw [hstep, h4 hfit.1 (by linarith)]
        congr 1
        rw [List.range_succ_eq_map, List.map_cons, List.map_map, List.append_assoc]
        congr 1
        simp only [List.singleton_append, Nat.cast_zero, zero_mul, add_zero]
        congr 1
        apply List.map_congr_left
        intro k _
        simp only [Function.comp, Nat.cast_succ]
        ring
      · intro hmin hmax hover
        rw [e] at hover
        by_cases hfit : VectorTools.intMin ≤ i + by_ ∧ i + by_ ≤ VectorTools.intMax
        · have hstep : VectorTools.seqUp limit by_ (fuel + 1) i v
              = VectorTools.seqUp limit by_ fuel (i + by_) (v ++ [i]) := by
            simp only [VectorTools.seqUp, if_pos hi, if_pos hfit]
          rw [hstep]
          exact h5 hfit.1 hfit.2 (by linarith)
        · simp only [VectorTools.seqUp, if_pos hi, if_neg hfit]
    · refine ⟨0, ?_, ?_, fun h => absurd h hi, ?_, ?_⟩
      · intro k hk; omega
      · simp only [Nat.cast_zero, zero_mul, add_zero]; omega
      · intro _ _
        simp [VectorTools.seqUp, hi]
      · intro _ hmax hover
        simp only [Nat.cast_zero, zero_mul, add_zero] at hover
        omega

/-- C35 (counterexample): `seq(0, 199, 200)` is `[0, 200]`, whose last element exceeds
`to = 199`: the loop runs while `i <= to + by / 100`, and `200 / 100 = 2`.  And
`seq(2147483646, 2147483647, 1)` does not return a vector: after the element `2147483647`,
the largest `int`, the step `i += 1` overflows. -/
theorem seq_overshoots_upper_bound :
    ((0 : Int) < 199 ∧ (0 : Int) < 200 ∧
      VectorTools.seq 0 199 200 = .done [0, 200] ∧ (199 : Int) < 200) ∧
    ((2147483646 : Int) < 2147483647 ∧ (0 : Int) < 1 ∧
      VectorTools.seq 2147483646 2147483647 1 = .overflow) := by
  decide

/-- C35 (amended): for values `from < to` and `by > 0` of `int`, let `from + n * by` be the
first term of the progression `from, from + by, from + 2 * by, ...` that exceeds
`to + by / 100`.  If `to + by / 100` and that term are values of `int`, `seq(from, to, by)`
terminates and returns the `n` terms before it: the first element is `from`, the element at
index `k` is `from + k * by`, consecutive elements differ by `by`, every element lies in
`[from, to + by / 100]`, and the next term after the last one exceeds `to + by / 100`; for
`by < 100` the bound `to + by / 100` is `to`.  Otherwise an addition overflows. -/
theorem seq_arithmetic_progression (from_ to_ by_ : Int) (hmin : VectorTools.intMin ≤ from_)
    (h1 : from_ < to_) (h2 : 0 < by_) :
    (VectorTools.intMax < to_ + by_.tdiv 100 → VectorTools.seq from_ to_ by_ = .overflow) ∧
    (to_ + by_.tdiv 100 ≤ VectorTools.intMax →
      ∃ n : Nat, 0 < n ∧ (∀ k : Nat, k < n → from_ + k * by_ ≤ to_ + by_.tdiv 100) ∧
        to_ + by_.tdiv 100 < from_ + n * by_ ∧
        (VectorTools.intMax < from_ + n * by_ → VectorTools.seq from_ to_ by_ = .overflow) ∧
        (from_ + n * by_ ≤ VectorTools.intMax →
          ∃ l : List Int, VectorTools.seq from_ to_ by_ = .done l ∧ l.length = n ∧
            l.head? = some from_ ∧
            (∀ k : Nat, k < l.length → l[k]? = some (from_ + k * by_)) ∧
            (∀ k : Nat, k + 1 < l.length → ∃ a b, l[k]? = some a ∧ l[k + 1]? = some b ∧
              b - a = by_) ∧
            (∀ x ∈ l, from_ ≤ x ∧ x ≤ to_ + by_.tdiv 100) ∧
            to_ + by_.tdiv 100 < from_ + l.length * by_ ∧
            (by_ < 100 → (∀ x ∈ l, x ≤ to_) ∧ to_ < from_ + l.length * by_))) := by
  have hdiv : by_.tdiv 100 = by_ / 100 := Int.tdiv_eq_ediv (le_of_lt h2) (by decide)
  have hd0 : 0 ≤ by_.tdiv 100 := by rw [hdiv]; omega
  have hlow : VectorTools.intMin ≤ to_ + by_.tdiv 100 := by linarith
  refine ⟨fun hover => ?_, fun hlim => ?_⟩
  · have hnot : ¬ (VectorTools.intMin ≤ to_ + by_.tdiv 100
        ∧ to_ + by_.tdiv 100 ≤ VectorTools.intMax) := fun h => absurd h.2 (not_le.mpr hover)
    simp only [VectorTools.seq, if_pos h1, if_neg hnot]
  have hfuel : (to_ + by_.tdiv 100 - from_ + 1).toNat + 1 ≤ 2 ^ 32 + 1 := by
    unfold VectorTools.intMin at hmin
    unfold VectorTools.intMax at hlim
    omega
  obtain ⟨n, hb, hn, hpos, hdone, hover⟩ := seqUp_spec (to_ + by_.tdiv 100) by_ h2
    (2 ^ 32 + 1) from_ [] hfuel
  have hn0 : 0 < n := hpos (by linarith)
  have hseq : VectorTools.seq from_ to_ by_
      = VectorTools.seqUp (to_ + by_.tdiv 100) by_ (2 ^ 32 + 1) from_ [] := by
    simp only [VectorTools.seq, if_pos h1, if_pos (And.intro hlow hlim)]
  have hget : ∀ k : Nat, k < n →
      ((List.range n).map fun k : Nat => from_ + k * by_)[k]? = some (from_ + k * by_) := by
    intro k hk
    simp [List.getElem?_map, List.getElem?_range hk]
  have hmem : ∀ x ∈ (List.range n).map fun k : Nat => from_ + k * by_,
      from_ ≤ x ∧ x ≤ to_ + by_.tdiv 100 := by
    intro x hx
    obtain ⟨k, hk, rfl⟩ := List.mem_map.mp hx
    have hk' := List.mem_range.mp hk
    refine ⟨?_, hb k hk'⟩
    have : (0 : Int) ≤ k * by_ := mul_nonneg (Int.ofNat_nonneg k) (le_of_lt h2)
    linarith
  refine ⟨n, hn0, hb, hn, fun h => ?_, fun h => ?_⟩
  · rw [hseq]
    exact hover hmin (by linarith) h
  refine ⟨(List.range n).map fun k : Nat => from_ + k * by_, ?_, ?_, ?_, ?_, ?_, hmem,
    ?_, ?_⟩
  · rw [hseq, hdone hmin h, List.nil_append]
  · rw [List.length_map, List.length_range]
  · cases n with
    | zero => omega
    | succ n => simp [List.range_succ_eq_map]
  · intro k hk
    rw [List.length_map, List.length_range] at hk
    exact hget k hk
  · intro k hk
    rw [List.length_map, List.length_range] at hk
    refine ⟨_, _, hget k (by omega), hget (k + 1) hk, ?_⟩
    push_cast; ring
  · rw [List.length_map, List.length_range]; exact hn
  · intro h100
    have hz : by_.tdiv 100 = 0 := by rw [hdiv]; omega
    rw [hz, add_zero] at hmem hn
    refine ⟨fun x hx => (hmem x hx).2, ?_⟩
    rw [List.length_map, List.length_range]; exact hn

theorem seq_arithmetic_progression_witness :
    VectorTools.intMin ≤ 0 ∧ (0 : Int) < 10 ∧ (0 : Int) < 3 ∧
      (10 + (3 : Int).tdiv 100 ≤ VectorTools.intMax →
      ∃ n : Nat, 0 < n ∧ (∀ k : Nat, k < n → (0 : Int) + k * 3 ≤ 10 + (3 : Int).tdiv 100) ∧
        10 + (3 : Int).tdiv 100 < (0 : Int) + n * 3 ∧
        (VectorTools.intMax < (0 : Int) + n * 3 → VectorTools.seq 0 10 3 = .overflow) ∧
        ((0 : Int) + n * 3 ≤ VectorTools.intMax →
          ∃ l : List Int, VectorTools.seq 0 10 3 = .done l ∧ l.length = n ∧
            l.head? = some 0 ∧
            (∀ k : Nat, k < l.length → l[k]? = some ((0 : Int) + k * 3)) ∧
            (∀ k : Nat, k + 1 < l.length → ∃ a b, l[k]? = some a ∧ l[k + 1]? = some b ∧
              b - a = 3) ∧
            (∀ x ∈ l, (0 : Int) ≤ x ∧ x ≤ 10 + (3 : Int).tdiv 100) ∧
            (10 : Int) + (3 : Int).tdiv 100 < (0 : Int) + l.length * 3 ∧
            ((3 : Int) < 100 → (∀ x ∈ l, x ≤ 10) ∧ (10 : Int) < (0 : Int) + l.length * 3))) :=
  ⟨by decide, by decide, by decide,
    (seq_arithmetic_progression 0 10 3 (by decide) (by decide) (by decide)).2⟩

/-! ## Table sizes along runs of `createNode` and `link` -/

theorem link_edge_sizing (s : SimpleGraphObserver) (a b e : Ptr)
    (hsz : s.edgesToObjects_.length = s.subjectGraph_.edgeCount) :
    (s.link a b e).state.edgesToObjects_.length = (s.link a b e).state.subjectGraph_.edgeCount
      ∧ s.edgesToObjects_.length ≤ (s.link a b e).state.edgesToObjects_.length
      ∧ (∀ j, j < s.edgesToObjects_.length →
          slot (s.link a b e).state.edgesToObjects_ j = slot s.edgesToObjects_ j)
      ∧ (∀ j, s.edgesToObjects_.length ≤ j → j < (s.link a b e).state.edgesToObjects_.length →
          slot (s.link a b e).state.edgesToObjects_ j = null
            ∨ mapFind (s.link a b e).state.objectsToEdges_
                (slot (s.link a b e).state.edgesToObjects_ j) = some j) := by
  have hsame : ∀ s' : SimpleGraphObserver, s' = s →
      s'.edgesToObjects_.length = s'.subjectGraph_.edgeCount
      ∧ s.edgesToObjects_.length ≤ s'.edgesToObjects_.length
      ∧ (∀ j, j < s.edgesToObjects_.length → slot s'.edgesToObjects_ j = slot s.edgesToObjects_ j)
      ∧ (∀ j, s.edgesToObjects_.length ≤ j → j < s'.edgesToObjects_.length →
          slot s'.edgesToObjects_ j = null
            ∨ mapFind s'.objectsToEdges_ (slot s'.edgesToObjects_ j) = some j) := by
    intro s' h
    subst h
    exact ⟨hsz, le_refl _, fun _ _ => rfl, fun j h1 h2 => absurd h2 (by omega)⟩
  cases ha : mapFind s.objectsToNodes_ a with
  | none =>
    apply hsame
    simp [SimpleGraphObserver.link, ha, Outcome.state]
  | some ia =>
    cases hb : mapFind s.objectsToNodes_ b with
    | none =>
      apply hsame
      simp [SimpleGraphObserver.link, ha, hb, Outcome.state]
    | some ib =>
      by_cases hguard : e ≠ null ∧ (mapFind s.objectsToEdges_ e).isSome = true
      · apply hsame
        simp only [SimpleGraphObserver.link, ha, hb]
        rw [if_pos hguard]
        rfl
      · by_cases hlive : ia ∈ s.subjectGraph_.nodes ∧ ib ∈ s.subjectGraph_.nodes
        · have hg : s.subjectGraph_.link ia ib
              = some (s.subjectGraph_.edgeCount,
                  { s.subjectGraph_ with
                    edgeCount := s.subjectGraph_.edgeCount + 1
                    edges := s.subjectGraph_.edges ++ [⟨s.subjectGraph_.edgeCount, ia, ib⟩] }) := by
            unfold SimpleGraph.link
            rw [if_pos hlive]
          have hst : (s.link a b e).state =
              { s with
                subjectGraph_ := { s.subjectGraph_ with
                    edgeCount := s.subjectGraph_.edgeCount + 1
                    edges := s.subjectGraph_.edges ++ [⟨s.subjectGraph_.edgeCount, ia, ib⟩] }
                edgesToObjects_ :=
                  (resize s.edgesToObjects_ (s.subjectGraph_.edgeCount + 1)).set
                    s.subjectGraph_.edgeCount e
                objectsToEdges_ := mapSet s.objectsToEdges_ e s.subjectGraph_.edgeCount } := by
            unfold SimpleGraphObserver.link
            rw [ha, hb]
            simp only []
            rw [if_neg hguard, hg]
            simp only []
            rw [if_pos (by omega :
              s.edgesToObjects_.length < s.subjectGraph_.edgeCount + 1)]
            simp only [length_resize]
            rw [if_pos (Nat.lt_succ_self _)]
            rfl
          rw [hst]
          simp only [List.length_set, length_resize]
          refine ⟨trivial, by omega, ?_, ?_⟩
          · intro j hj
            rw [slot_set, if_neg (by omega), slot_resize, if_pos (by omega)]
          · intro j h1 h2
            have hj : j = s.subjectGraph_.edgeCount := by omega
            subst hj
            right
            rw [slot_set, if_pos ⟨rfl, by rw [length_resize]; omega⟩, mapFind_mapSet, if_pos rfl]
        · apply hsame
          have hg : s.subjectGraph_.link ia ib = none := by
            unfold SimpleGraph.link
            rw [if_neg hlive]
          simp only [SimpleGraphObserver.link, ha, hb]
          rw [if_neg hguard, hg]
          rfl

theorem createNode_sizing (s : SimpleGraphObserver) (o : Ptr) (hsz : ExactlySized s) :
    ExactlySized (s.createNode o).state
      ∧ s.nodesToObjects_.length ≤ (s.createNode o).state.nodesToObjects_.length
      ∧ (s.createNode o).state.edgesToObjects_ = s.edgesToObjects_
      ∧ (s.createNode o).state.objectsToEdges_ = s.objectsToEdges_
      ∧ (∀ j, j < s.nodesToObjects_.length →
          slot (s.createNode o).state.nodesToObjects_ j = slot s.nodesToObjects_ j)
      ∧ (∀ j, s.nodesToObjects_.length ≤ j → j < (s.createNode o).state.nodesToObjects_.length →
          slot (s.createNode o).state.nodesToObjects_ j = null
            ∨ mapFind (s.createNode o).state.objectsToNodes_
                (slot (s.createNode o).state.nodesToObjects_ j) = some j) := by
  obtain ⟨h1, h2⟩ := hsz
  rw [createNode_eq]
  simp only [Outcome.state, ExactlySized, List.length_set, length_resize,
    SimpleGraph.createNode]
  refine ⟨⟨trivial, h2⟩, by omega, trivial, trivial, ?_, ?_⟩
  · intro j hj
    rw [slot_set, if_neg (by omega), slot_resize, if_pos (by omega)]
  · intro j h3 h4
    have hj : j = s.subjectGraph_.nodeCount := by omega
    subst hj
    right
    rw [slot_set, if_pos ⟨rfl, by rw [length_resize]; omega⟩, mapFind_mapSet, if_pos rfl]

theorem step_exactly_sized (s : SimpleGraphObserver) (op : Op) (hsz : ExactlySized s)
    (hop : createsAndLinks [op] = true) : ExactlySized (step s op).state := by
  cases op with
  | createNode o => exact (createNode_sizing s o hsz).1
  | link a b e =>
    obtain ⟨h1, _, h3⟩ := link_node_frame s a b e
    refine ⟨?_, (link_edge_sizing s a b e hsz.2).1⟩
    show (s.link a b e).state.nodesToObjects_.length
      = (s.link a b e).state.subjectGraph_.nodeCount
    rw [h1, h3]
    exact hsz.1
  | unlink a b => exact absurd hop (by simp [createsAndLinks])
  | deletedNodesUpdate ids => exact absurd hop (by simp [createsAndLinks])

theorem createsAndLinks_cons (op : Op) (ops : List Op) (h : createsAndLinks (op :: ops) = true) :
    createsAndLinks [op] = true ∧ createsAndLinks ops = true := by
  cases op <;> simp_all [createsAndLinks]

theorem run_exactly_sized (ops : List Op) :
    ∀ s : SimpleGraphObserver, ExactlySized s → createsAndLinks ops = true →
      ExactlySized (run s ops) := by
  induction ops with
  | nil => intro s h _; exact h
  | cons op ops ih =>
    intro s h hops
    obtain ⟨h1, h2⟩ := createsAndLinks_cons op ops hops
    exact ih _ (step_exactly_sized s op h h1) h2

theorem step_growth (s : SimpleGraphObserver) (op : Op) (hsz : ExactlySized s)
    (hop : createsAndLinks [op] = true) :
    s.nodesToObjects_.length ≤ (step s op).state.nodesToObjects_.length
      ∧ s.edgesToObjects_.length ≤ (step s op).state.edgesToObjects_.length
      ∧ (∀ j, j < s.nodesToObjects_.length →
          slot (step s op).state.nodesToObjects_ j = slot s.nodesToObjects_ j)
      ∧ (∀ j, j < s.edgesToObjects_.length →
          slot (step s op).state.edgesToObjects_ j = slot s.edgesToObjects_ j)
      ∧ (∀ j, s.nodesToObjects_.length ≤ j → j < (step s op).state.nodesToObjects_.length →
          slot (step s op).state.nodesToObjects_ j = null
            ∨ mapFind (step s op).state.objectsToNodes_
                (slot (step s op).state.nodesToObjects_ j) = some j)
      ∧ (∀ j, s.edgesToObjects_.length ≤ j → j < (step s op).state.edgesToObjects_.length →
          slot (step s op).state.edgesToObjects_ j = null
            ∨ mapFind (step s op).state.objectsToEdges_
                (slot (step s op).state.edgesToObjects_ j) = some j) := by
  cases op with
  | createNode o =>
    obtain ⟨_, h2, h3, _, h5, h6⟩ := createNode_sizing s o hsz
    simp only [step]
    refine ⟨h2, by rw [h3], h5, fun j _ => by rw [h3], h6, ?_⟩
    intro j h7 h8
    rw [h3] at h8
    omega
  | link a b e =>
    obtain ⟨h1, _, _⟩ := link_node_frame s a b e
    obtain ⟨_, g2, g3, g4⟩ := link_edge_sizing s a b e hsz.2
    simp only [step]
    refine ⟨by rw [h1], g2, fun j _ => by rw [h1], g3, ?_, g4⟩
    intro j h7 h8
    rw [h1] at h8
    omega
  | unlink a b => exact absurd hop (by simp [createsAndLinks])
  | deletedNodesUpdate ids => exact absurd hop (by simp [createsAndLinks])

theorem new_exactly_sized (directed : Bool) : ExactlySized (SimpleGraphObserver.new directed) :=
  ⟨rfl, rfl⟩

/-- C36: in every state reached from a new observer by calls of `createNode` and `link`,
the node forward table has length (highest issued node id + 1) once a node exists and the
edge forward table has length at least (highest issued edge id + 1) once an edge exists; a
further call of `createNode` or `link` shrinks neither table, keeps the slots they had, and
every slot it adds holds the tombstone or an object that the reverse table maps to that
slot. -/
theorem table_sizes_along_creates_and_links (directed : Bool) (ops : List Op)
    (hops : createsAndLinks ops = true) :
    (0 < (run (SimpleGraphObserver.new directed) ops).subjectGraph_.nodeCount →
        (run (SimpleGraphObserver.new directed) ops).nodesToObjects_.length
          = (run (SimpleGraphObserver.new directed) ops).subjectGraph_.getHighestNodeID + 1)
      ∧ (0 < (run (SimpleGraphObserver.new directed) ops).subjectGraph_.edgeCount →
        (run (SimpleGraphObserver.new directed) ops).subjectGraph_.getHighestEdgeID + 1
          ≤ (run (SimpleGraphObserver.new directed) ops).edgesToObjects_.length)
      ∧ ∀ op : Op, createsAndLinks [op] = true →
        (run (SimpleGraphObserver.new directed) ops).nodesToObjects_.length
            ≤ (step (run (SimpleGraphObserver.new directed) ops) op).state.nodesToObjects_.length
        ∧ (run (SimpleGraphObserver.new directed) ops).edgesToObjects_.length
            ≤ (step (run (SimpleGraphObserver.new directed) ops) op).state.edgesToObjects_.length
        ∧ (∀ j, j < (run (SimpleGraphObserver.new directed) ops).nodesToObjects_.length →
            slot (step (run (SimpleGraphObserver.new directed) ops) op).state.nodesToObjects_ j
              = slot (run (SimpleGraphObserver.new directed) ops).nodesToObjects_ j)
        ∧ (∀ j, j < (run (SimpleGraphObserver.new directed) ops).edgesToObjects_.length →
            slot (step (run (SimpleGraphObserver.new directed) ops) op).state.edgesToObjects_ j
              = slot (run (SimpleGraphObserver.new directed) ops).edgesToObjects_ j)
        ∧ (∀ j, (run (SimpleGraphObserver.new directed) ops).nodesToObjects_.length ≤ j →
            j < (step (run (SimpleGraphObserver.new directed) ops) op).state.nodesToObjects_.length →
            slot (step (run (SimpleGraphObserver.new directed) ops) op).state.nodesToObjects_ j
                = null
              ∨ mapFind (step (run (SimpleGraphObserver.new directed) ops) op).state.objectsToNodes_
                  (slot (step (run (SimpleGraphObserver.new directed) ops) op).state.nodesToObjects_
                    j) = some j)
        ∧ (∀ j, (run (SimpleGraphObserver.new directed) ops).edgesToObjects_.length ≤ j →
            j < (step (run (SimpleGraphObserver.new directed) ops) op).state.edgesToObjects_.length →
            slot (step (run (SimpleGraphObserver.new directed) ops) op).state.edgesToObjects_ j
                = null
              ∨ mapFind (step (run (SimpleGraphObserver.new directed) ops) op).state.objectsToEdges_
                  (slot (step (run (SimpleGraphObserver.new directed) ops) op).state.edgesToObjects_
                    j) = some j) := by
  have hsz := run_exactly_sized ops _ (new_exactly_sized directed) hops
  refine ⟨fun h => ?_, fun h => ?_, fun op hop => step_growth _ op hsz hop⟩
  · rw [hsz.1]
    unfold SimpleGraph.getHighestNodeID
    omega
  · rw [hsz.2]
    unfold SimpleGraph.getHighestEdgeID
    omega

theorem table_sizes_along_creates_and_links_witness :
    createsAndLinks [.createNode 10, .createNode 20, .link 10 20 30] = true ∧
      0 < (run (SimpleGraphObserver.new false)
        [.createNode 10, .createNode 20, .link 10 20 30]).subjectGraph_.nodeCount ∧
      (run (SimpleGraphObserver.new false)
        [.createNode 10, .createNode 20, .link 10 20 30]).nodesToObjects_.length
        = (run (SimpleGraphObserver.new false)
          [.createNode 10, .createNode 20, .link 10 20 30]).subjectGraph_.getHighestNodeID + 1 :=
  ⟨by decide, by decide,
    (table_sizes_along_creates_and_links false
      [.createNode 10, .createNode 20, .link 10 20 30] (by decide)).1 (by decide)⟩

/-! ## `createNode(obj, originObj)` with an unbound origin -/

/-- C37 (counterexample): on a new observer `createNode(10, 10)`, whose origin object 10 is
unbound before the call, returns normally: the first step binds 10, so `link(10, 10)` finds
both ends and adds a self-loop. -/
theorem createNodeLinked_same_object_returns :
    mapFind (SimpleGraphObserver.new false).objectsToNodes_ 10 = none ∧
      ((SimpleGraphObserver.new false).createNodeLinked 10 10).returned = true ∧
      ((SimpleGraphObserver.new false).createNodeLinked 10 10).state.subjectGraph_.edges
        = [⟨0, 0, 0⟩] := by
  decide

/-- C37 (amended): when `originObj` is unbound and is not `obj` itself,
`createNode(obj, originObj)` throws the not-associated error of `link`, and the state it
leaves differs from the state before the call: the Graph Core has the new node, and `obj` is
bound to it in both node tables. -/
theorem createNodeLinked_unbound_origin_not_atomic (s : SimpleGraphObserver)
    (obj originObj : Ptr) (hunbound : mapFind s.objectsToNodes_ originObj = none)
    (hne : originObj ≠ obj) :
    ∃ s', s.createNodeLinked obj originObj = .throws .notAssociated s'
      ∧ s'.subjectGraph_ = s.subjectGraph_.createNode.2
      ∧ s'.subjectGraph_.nodeCount = s.subjectGraph_.nodeCount + 1
      ∧ s.subjectGraph_.nodeCount ∈ s'.subjectGraph_.nodes
      ∧ mapFind s'.objectsToNodes_ obj = some s.subjectGraph_.nodeCount
      ∧ slot s'.nodesToObjects_ s.subjectGraph_.nodeCount = obj
      ∧ s' ≠ s := by
  refine ⟨{ s with
      subjectGraph_ := s.subjectGraph_.createNode.2
      nodesToObjects_ :=
        (resize s.nodesToObjects_ (s.subjectGraph_.nodeCount + 1)).set
          s.subjectGraph_.nodeCount obj
      objectsToNodes_ := mapSet s.objectsToNodes_ obj s.subjectGraph_.nodeCount },
    ?_, rfl, rfl, ?_, ?_, ?_, ?_⟩
  · unfold SimpleGraphObserver.createNodeLinked
    rw [createNode_eq]
    simp only []
    unfold SimpleGraphObserver.link
    simp only []
    rw [mapFind_mapSet, if_neg hne, hunbound]
  · simp [SimpleGraph.createNode]
  · simp only []
    rw [mapFind_mapSet, if_pos rfl]
  · simp only []
    rw [slot_set, if_pos ⟨rfl, by rw [length_resize]; omega⟩]
  · intro h
    have hc := congrArg (fun t : SimpleGraphObserver => t.subjectGraph_.nodeCount) h
    simp only [SimpleGraph.createNode] at hc
    omega

theorem createNodeLinked_unbound_origin_not_atomic_witness :
    mapFind oneNode.objectsToNodes_ 30 = none ∧ (30 : Ptr) ≠ 20 ∧
      ∃ s', oneNode.createNodeLinked 20 30 = .throws .notAssociated s'
        ∧ s'.subjectGraph_ = oneNode.subjectGraph_.createNode.2
        ∧ s'.subjectGraph_.nodeCount = oneNode.subjectGraph_.nodeCount + 1
        ∧ oneNode.subjectGraph_.nodeCount ∈ s'.subjectGraph_.nodes
        ∧ mapFind s'.objectsToNodes_ 20 = some oneNode.subjectGraph_.nodeCount
        ∧ slot s'.nodesToObjects_ oneNode.subjectGraph_.nodeCount = 20
        ∧ s' ≠ oneNode :=
  ⟨by decide, by decide,
    createNodeLinked_unbound_origin_not_atomic oneNode 20 30 (by decide) (by decide)⟩

/-! ## Frame of the deletion notifications -/

theorem clearAll_frame (ids : List Nat) :
    ∀ (fwd : List Ptr) (rev : PtrMap),
      (clearAll fwd rev ids).state.1.length = fwd.length
        ∧ (∀ j, j ∉ ids → slot (clearAll fwd rev ids).state.1 j = slot fwd j)
        ∧ (∀ o, o ≠ null → (∀ id ∈ ids, slot fwd id ≠ o) →
            mapFind (clearAll fwd rev ids).state.2 o = mapFind rev o) := by
  induction ids with
  | nil =>
    intro fwd rev
    exact ⟨rfl, fun _ _ => rfl, fun _ _ _ => rfl⟩
  | cons id rest ih =>
    intro fwd rev
    cases hget : fwd[id]? with
    | none =>
      have hst : clearAll fwd rev (id :: rest) = .throws .outOfRange (fwd, rev) := by
        simp only [clearAll, hget]
      rw [hst]
      exact ⟨rfl, fun _ _ => rfl, fun _ _ _ => rfl⟩
    | some o' =>
      have hst : clearAll fwd rev (id :: rest)
          = clearAll (fwd.set id null) (mapErase rev o') rest := by
        simp only [clearAll, hget]
      obtain ⟨h1, h2, h3⟩ := ih (fwd.set id null) (mapErase rev o')
      rw [hst]
      refine ⟨by rw [h1, List.length_set], ?_, ?_⟩
      · intro j hj
        have hjid : j ≠ id := fun e => hj (e ▸ List.mem_cons_self _ _)
        have hjr : j ∉ rest := fun e => hj (List.mem_cons_of_mem _ e)
        rw [h2 j hjr, slot_set, if_neg (fun h => hjid h.1)]
      · intro o ho hall
        have hrest : ∀ id' ∈ rest, slot (fwd.set id null) id' ≠ o := by
          intro id' hid'
          rw [slot_set]
          split
          · exact fun e => ho e.symm
          · exact hall id' (List.mem_cons_of_mem _ hid')
        have ho' : o ≠ o' := by
          intro e
          exact hall id (List.mem_cons_self _ _) (by rw [slot_of_getElem? fwd id o' hget, e])
        rw [h3 o ho hrest, mapFind_mapErase, if_neg ho']

/-- C38 (counterexample): after `createNode(10); createNode(10)` the reverse table maps
object 10 to id 1 and forward slot 1 holds it, but slot 0 holds it too;
`deletedNodesUpdate([0])` erases the reverse entry of object 10 although id 1 is not in the
batch. -/
theorem deletedNodesUpdate_erases_entry_outside_batch :
    mapFind createdTwice.objectsToNodes_ 10 = some 1 ∧ slot createdTwice.nodesToObjects_ 1 = 10 ∧
      1 ∉ [0] ∧
      mapFind (createdTwice.deletedNodesUpdate [0]).state.objectsToNodes_ 10 = none := by
  decide

/-- C38 (amended): `deletedNodesUpdate(ids)`, whether it returns or throws, leaves the length
of the node forward table unchanged, leaves every node forward slot whose id is not in the
batch unchanged, leaves the reverse entry of every object that no slot of the batch holds
unchanged, which in a state with symmetric node tables is every object bound to an id outside
the batch, and does not modify the edge tables; `deletedEdgesUpdate` does not modify the
node tables. -/
theorem deletion_update_frame (s : SimpleGraphObserver) (ids : List Nat) :
    (s.deletedNodesUpdate ids).state.nodesToObjects_.length = s.nodesToObjects_.length
      ∧ (∀ j, j ∉ ids →
          slot (s.deletedNodesUpdate ids).state.nodesToObjects_ j = slot s.nodesToObjects_ j)
      ∧ (∀ o, o ≠ null → (∀ id ∈ ids, slot s.nodesToObjects_ id ≠ o) →
          mapFind (s.deletedNodesUpdate ids).state.objectsToNodes_ o
            = mapFind s.objectsToNodes_ o)
      ∧ (NodeSymmetric s → ∀ o j, mapFind s.objectsToNodes_ o = some j → j ∉ ids →
          mapFind (s.deletedNodesUpdate ids).state.objectsToNodes_ o = some j)
      ∧ (s.deletedNodesUpdate ids).state.edgesToObjects_ = s.edgesToObjects_
      ∧ (s.deletedNodesUpdate ids).state.objectsToEdges_ = s.objectsToEdges_
      ∧ (s.deletedEdgesUpdate ids).state.nodesToObjects_ = s.nodesToObjects_
      ∧ (s.deletedEdgesUpdate ids).state.objectsToNodes_ = s.objectsToNodes_ := by
  obtain ⟨h1, h2, h3⟩ := clearAll_frame ids s.nodesToObjects_ s.objectsToNodes_
  obtain ⟨e1, e2, _⟩ := deletedEdgesUpdate_node_frame s ids
  have hst : (s.deletedNodesUpdate ids).state =
      { s with
        nodesToObjects_ := (clearAll s.nodesToObjects_ s.objectsToNodes_ ids).state.1
        objectsToNodes_ := (clearAll s.nodesToObjects_ s.objectsToNodes_ ids).state.2 } := by
    rw [deletedNodesUpdate_eq_clearAll]
    cases clearAll s.nodesToObjects_ s.objectsToNodes_ ids <;> rfl
  rw [hst]
  refine ⟨h1, h2, h3, ?_, rfl, rfl, e1, e2⟩
  intro hsym o j hoj hj
  have hslot := (hsym j o).2 hoj
  show mapFind (clearAll s.nodesToObjects_ s.objectsToNodes_ ids).state.2 o = some j
  rw [h3 o hslot.2, hoj]
  intro id hid hid'
  have := (hsym id o).1 ⟨hid', hslot.2⟩
  rw [hoj] at this
  exact hj (by rw [Option.some.inj this]; exact hid)

theorem deletion_update_frame_witness :
    NodeSymmetric edgeBound ∧ mapFind edgeBound.objectsToNodes_ 20 = some 1 ∧ 1 ∉ [0] ∧
      mapFind (edgeBound.deletedNodesUpdate [0]).state.objectsToNodes_ 20 = some 1 :=
  ⟨edgeBound_symmetric.1, by decide, by decide,
    (deletion_update_frame edgeBound [0]).2.2.2.1 edgeBound_symmetric.1 20 1 (by decide)
      (by decide)⟩

end bpp
